import Mathlib

/-!
# TA-Lib: `TA_TSF`, `TA_CDLLADDERBOTTOM` and the merge of the history builder

A shallow embedding of `ta_TSF.c`, `ta_CDLLADDERBOTTOM.c` and the records of
`ta_history_priv.h`, followed by the properties proved of them.

C `int` values are mathematical integers (`Int`), `double` values are exact
rationals (`ℚ`).  A C array that a TA function reads or writes is a total map from
indices to cells, and a pointer argument is an `Option`: `none` is the null
pointer.  Out-parameters are threaded through explicitly: a call receives the
previous contents of `*outBegIdx`, `*outNbElement` and of the output array and
returns the new ones.  A loop is a recursive function with a bound on the number
of its passes; it yields `none` when the bound does not suffice, and the
properties show that it does.
-/

namespace TALib

/-- Modelled from the spec: the enumeration `TA_RetCode` of `ta_defs.h` (not among
the sources), with the status codes of the flat taxonomy: `Success`,
`OutOfRangeStartIndex`, `OutOfRangeEndIndex`, `BadParam`, `AllocError`,
`DriverError`, `InternalError`, under the names the C sources use. -/
inductive TA_RetCode where
  | TA_SUCCESS
  | TA_OUT_OF_RANGE_START_INDEX
  | TA_OUT_OF_RANGE_END_INDEX
  | TA_BAD_PARAM
  | TA_ALLOC_ERR
  | TA_DRIVER_ERROR
  | TA_INTERNAL_ERROR
  deriving DecidableEq, Repr

/-- Modelled from the spec: the constant `TA_INTEGER_DEFAULT` of `ta_defs.h`
(not among the sources) is `INT_MIN`, the value a caller passes to ask for the
default of an integer parameter; it lies outside every parameter range. -/
def TA_INTEGER_DEFAULT : Int := -2147483648

/-! ## `ta_TSF.c` -/

/-- `TA_TSF_Lookback`: the default period is 14, a period outside
`2..100000` gives `-1`, otherwise `optInTimePeriod-1`. -/
def TA_TSF_Lookback (optInTimePeriod : Int) : Int :=
  if optInTimePeriod = TA_INTEGER_DEFAULT then
    let optInTimePeriod := 14
    optInTimePeriod - 1
  else if optInTimePeriod < 2 ∨ optInTimePeriod > 100000 then
    -1
  else
    optInTimePeriod - 1

/-- What a call of `TA_TSF` leaves behind: the return code, `*outBegIdx`,
`*outNbElement` and the contents of the `outReal` array (`none` when the caller
passed a null pointer). -/
structure TSF_Result where
  retCode : TA_RetCode
  outBegIdx : Int
  outNbElement : Int
  outReal : Option (Int → ℚ)

/-- `SumX = optInTimePeriod * ( optInTimePeriod - 1 ) * 0.5`: an `int` product
converted to `double` by the multiplication with `0.5`.  The `int` of C is taken
as the mathematical integers here; `TSF_SumX_int32` is the 32-bit evaluation. -/
def TSF_SumX (optInTimePeriod : Int) : ℚ :=
  ((optInTimePeriod * (optInTimePeriod - 1) : Int) : ℚ) * (1 / 2)

/-- `SumXSqr = optInTimePeriod * ( optInTimePeriod - 1 ) * ( 2 * optInTimePeriod - 1 ) / 6`:
an `int` expression, the division is C integer division (truncating), stored in a
`double`.  The `int` of C is taken as the mathematical integers here;
`TSF_SumXSqr_int32` is the 32-bit evaluation. -/
def TSF_SumXSqr (optInTimePeriod : Int) : ℚ :=
  ((Int.tdiv (optInTimePeriod * (optInTimePeriod - 1) * (2 * optInTimePeriod - 1)) 6 : Int) : ℚ)

/-- `Divisor = SumX * SumX - optInTimePeriod * SumXSqr`. -/
def TSF_Divisor (optInTimePeriod : Int) : ℚ :=
  TSF_SumX optInTimePeriod * TSF_SumX optInTimePeriod
    - (optInTimePeriod : ℚ) * TSF_SumXSqr optInTimePeriod

/-- The inner loop `for( i = optInTimePeriod; i-- != 0; )` of `TA_TSF`: the first
argument is the value of `i` before the test, the pair is `(SumY, SumXY)`.  The
test `i-- != 0` fails at `0`; otherwise the body runs with `i` decremented. -/
def TSF_sums (inReal : Int → ℚ) (today : Int) : Nat → ℚ × ℚ → ℚ × ℚ
  | 0, acc => acc
  | i + 1, (SumY, SumXY) =>
    let tempValue1 := inReal (today - (i : Int))
    TSF_sums inReal today i (SumY + tempValue1, SumXY + (i : ℚ) * tempValue1)

/-- The value one pass of the `while` loop of `TA_TSF` stores in
`outReal[outIdx]`: `b + m * (double)optInTimePeriod`. -/
def TSF_forecast (inReal : Int → ℚ) (optInTimePeriod : Int) (today : Int) : ℚ :=
  let SumX := TSF_SumX optInTimePeriod
  let Divisor := TSF_Divisor optInTimePeriod
  let sums := TSF_sums inReal today optInTimePeriod.toNat (0, 0)
  let SumY := sums.1
  let SumXY := sums.2
  let m := ((optInTimePeriod : ℚ) * SumXY - SumX * SumY) / Divisor
  let b := (SumY - m * SumX) / (optInTimePeriod : ℚ)
  b + m * (optInTimePeriod : ℚ)

/-- The loop `while( today <= endIdx )` of `TA_TSF`, as a function of the loop
state `(today, outIdx, outReal)`.  The first argument bounds the number of
passes; `none` means the bound was reached with the loop condition still true. -/
def TSF_loop (inReal : Int → ℚ) (optInTimePeriod endIdx : Int) :
    Nat → Int → Int → (Int → ℚ) → Option (Int × (Int → ℚ))
  | fuel, today, outIdx, outReal =>
    if today ≤ endIdx then
      match fuel with
      | 0 => none
      | fuel + 1 =>
        TSF_loop inReal optInTimePeriod endIdx fuel (today + 1) (outIdx + 1)
          (Function.update outReal outIdx (TSF_forecast inReal optInTimePeriod today))
    else
      some (outIdx, outReal)

/-- The part of `TA_TSF` that follows the range check of `optInTimePeriod`, run
with the period the check leaves in `optInTimePeriod`: the null check of
`outReal`, the adjustment of `startIdx` to the lookback, and the computation. -/
def TA_TSF_body (startIdx endIdx : Int) (inReal : Int → ℚ) (optInTimePeriod : Int)
    (outBegIdx outNbElement : Int) (outReal : Option (Int → ℚ)) : Option TSF_Result :=
  match outReal with
  | none => some ⟨.TA_BAD_PARAM, outBegIdx, outNbElement, none⟩
  | some outReal =>
    let lookbackTotal := TA_TSF_Lookback optInTimePeriod
    let startIdx := if startIdx < lookbackTotal then lookbackTotal else startIdx
    if startIdx > endIdx then
      some ⟨.TA_SUCCESS, 0, 0, some outReal⟩
    else
      match TSF_loop inReal optInTimePeriod endIdx (endIdx - startIdx + 1).toNat
          startIdx 0 outReal with
      | none => none
      | some (outIdx, outReal) => some ⟨.TA_SUCCESS, startIdx, outIdx, some outReal⟩

/-- `TA_TSF`, compiled with the range checks (`TA_FUNC_NO_RANGE_CHECK` not
defined).  `outBegIdx`, `outNbElement` are the previous contents of the two
out-parameters; `inReal`, `outReal` are `none` for a null pointer.  An early
`return` leaves the out-parameters and the array as they were.  The result is
`none` only if the main loop did not finish within `endIdx - startIdx + 1`
passes. -/
def TA_TSF (startIdx endIdx : Int) (inReal : Option (Int → ℚ)) (optInTimePeriod : Int)
    (outBegIdx outNbElement : Int) (outReal : Option (Int → ℚ)) : Option TSF_Result :=
  if startIdx < 0 then
    some ⟨.TA_OUT_OF_RANGE_START_INDEX, outBegIdx, outNbElement, outReal⟩
  else if endIdx < 0 ∨ endIdx < startIdx then
    some ⟨.TA_OUT_OF_RANGE_END_INDEX, outBegIdx, outNbElement, outReal⟩
  else
    match inReal with
    | none => some ⟨.TA_BAD_PARAM, outBegIdx, outNbElement, outReal⟩
    | some inReal =>
      if optInTimePeriod = TA_INTEGER_DEFAULT then
        TA_TSF_body startIdx endIdx inReal 14 outBegIdx outNbElement outReal
      else if optInTimePeriod < 2 ∨ optInTimePeriod > 100000 then
        some ⟨.TA_BAD_PARAM, outBegIdx, outNbElement, outReal⟩
      else
        TA_TSF_body startIdx endIdx inReal optInTimePeriod outBegIdx outNbElement outReal

/-! ## `ta_CDLLADDERBOTTOM.c` -/

/-- Modelled from the spec: the enumeration `TA_RangeType` of `ta_defs.h` (not
among the sources), the three ways a candle setting measures the range of a
candle. -/
inductive TA_RangeType where
  | TA_RangeType_RealBody
  | TA_RangeType_HighLow
  | TA_RangeType_Shadows
  deriving DecidableEq, Repr

/-- Modelled from the spec: the record `TA_CandleSetting` of `ta_defs.h` (not among
the sources), what `TA_SetCandleSettings` stores for one setting such as
`TA_ShadowVeryShort`: how a range is measured, over how many previous candles it
is averaged, and the factor the average is multiplied with. -/
structure TA_CandleSetting where
  rangeType : TA_RangeType
  avgPeriod : Int
  factor : ℚ

/-- The four price arrays `inOpen`, `inHigh`, `inLow`, `inClose` a candlestick
function reads. -/
structure TA_Candles where
  inOpen : Int → ℚ
  inHigh : Int → ℚ
  inLow : Int → ℚ
  inClose : Int → ℚ

/-- Modelled from the spec: the macro `TA_CANDLECOLOR` of `ta_utility.h` (not among
the sources): `1` for a white candle (close not below open), `-1` for a black one
(close below open). -/
def TA_CANDLECOLOR (c : TA_Candles) (idx : Int) : Int :=
  if c.inClose idx ≥ c.inOpen idx then 1 else -1

/-- Modelled from the spec: the macro `TA_REALBODY` of `ta_utility.h` (not among
the sources): the distance between open and close. -/
def TA_REALBODY (c : TA_Candles) (idx : Int) : ℚ :=
  |c.inClose idx - c.inOpen idx|

/-- Modelled from the spec: the macro `TA_UPPERSHADOW` of `ta_utility.h` (not among
the sources): what lies between the high and the top of the real body. -/
def TA_UPPERSHADOW (c : TA_Candles) (idx : Int) : ℚ :=
  c.inHigh idx - (if c.inClose idx ≥ c.inOpen idx then c.inClose idx else c.inOpen idx)

/-- Modelled from the spec: the macro `TA_LOWERSHADOW` of `ta_utility.h` (not among
the sources): what lies between the bottom of the real body and the low. -/
def TA_LOWERSHADOW (c : TA_Candles) (idx : Int) : ℚ :=
  (if c.inClose idx ≥ c.inOpen idx then c.inOpen idx else c.inClose idx) - c.inLow idx

/-- Modelled from the spec: the macro `TA_HIGHLOWRANGE` of `ta_utility.h` (not among
the sources): high minus low. -/
def TA_HIGHLOWRANGE (c : TA_Candles) (idx : Int) : ℚ :=
  c.inHigh idx - c.inLow idx

/-- Modelled from the spec: the macro `TA_CANDLEAVGPERIOD` of `ta_utility.h` (not
among the sources): the averaging period of a candle setting. -/
def TA_CANDLEAVGPERIOD (set : TA_CandleSetting) : Int :=
  set.avgPeriod

/-- Modelled from the spec: the macro `TA_CANDLERANGE` of `ta_utility.h` (not among
the sources): the range of candle `idx` as the setting measures it. -/
def TA_CANDLERANGE (set : TA_CandleSetting) (c : TA_Candles) (idx : Int) : ℚ :=
  match set.rangeType with
  | .TA_RangeType_RealBody => TA_REALBODY c idx
  | .TA_RangeType_HighLow => TA_HIGHLOWRANGE c idx
  | .TA_RangeType_Shadows => TA_UPPERSHADOW c idx + TA_LOWERSHADOW c idx

/-- Modelled from the spec: the macro `TA_CANDLEAVERAGE` of `ta_utility.h` (not
among the sources): the factor of the setting times the average range `sum /
avgPeriod` of the previous candles (the range of candle `idx` itself when the
averaging period is 0), halved when the range is that of the two shadows. -/
def TA_CANDLEAVERAGE (set : TA_CandleSetting) (c : TA_Candles) (sum : ℚ) (idx : Int) : ℚ :=
  set.factor
    * (if TA_CANDLEAVGPERIOD set ≠ 0 then sum / (TA_CANDLEAVGPERIOD set : ℚ)
        else TA_CANDLERANGE set c idx)
    / (if set.rangeType = .TA_RangeType_Shadows then 2 else 1)

/-- `TA_CDLLADDERBOTTOM_Lookback`, for the current `TA_ShadowVeryShort` setting. -/
def TA_CDLLADDERBOTTOM_Lookback (ShadowVeryShort : TA_CandleSetting) : Int :=
  TA_CANDLEAVGPERIOD ShadowVeryShort + 4

/-- The condition of the `if` in the main loop of `TA_CDLLADDERBOTTOM`, for bar `i`
and the current value of `ShadowVeryShortPeriodTotal`. -/
def CDLLADDERBOTTOM_test (ShadowVeryShort : TA_CandleSetting) (c : TA_Candles)
    (ShadowVeryShortPeriodTotal : ℚ) (i : Int) : Prop :=
  TA_CANDLECOLOR c (i-4) = -1 ∧ TA_CANDLECOLOR c (i-3) = -1 ∧ TA_CANDLECOLOR c (i-2) = -1 ∧
  c.inOpen (i-4) > c.inOpen (i-3) ∧ c.inOpen (i-3) > c.inOpen (i-2) ∧
  c.inClose (i-4) > c.inClose (i-3) ∧ c.inClose (i-3) > c.inClose (i-2) ∧
  TA_CANDLECOLOR c (i-1) = -1 ∧
  TA_UPPERSHADOW c (i-1)
    > TA_CANDLEAVERAGE ShadowVeryShort c ShadowVeryShortPeriodTotal (i-1) ∧
  TA_CANDLECOLOR c i = 1 ∧
  c.inOpen i > c.inOpen (i-1) ∧
  c.inClose i > c.inHigh (i-1)

instance (ShadowVeryShort : TA_CandleSetting) (c : TA_Candles) (total : ℚ) (i : Int) :
    Decidable (CDLLADDERBOTTOM_test ShadowVeryShort c total i) := by
  unfold CDLLADDERBOTTOM_test
  infer_instance

/-- The loop `while( i < startIdx )` of `TA_CDLLADDERBOTTOM` that adds up the
initial period, as a function of the loop state `(i, ShadowVeryShortPeriodTotal)`;
it yields the total.  The first argument bounds the number of passes; `none` means
the bound was reached with the loop condition still true. -/
def CDLLADDERBOTTOM_initialTotal (ShadowVeryShort : TA_CandleSetting) (c : TA_Candles)
    (startIdx : Int) : Nat → Int → ℚ → Option ℚ
  | fuel, i, ShadowVeryShortPeriodTotal =>
    if i < startIdx then
      match fuel with
      | 0 => none
      | fuel + 1 =>
        CDLLADDERBOTTOM_initialTotal ShadowVeryShort c startIdx fuel (i + 1)
          (ShadowVeryShortPeriodTotal + TA_CANDLERANGE ShadowVeryShort c (i - 1))
    else
      some ShadowVeryShortPeriodTotal

/-- The loop `do { ... } while( i <= endIdx )` of `TA_CDLLADDERBOTTOM`, as a
function of the loop state `(i, outIdx, ShadowVeryShortPeriodTotal,
ShadowVeryShortTrailingIdx, outInteger)`; it yields the final `outIdx` and
`outInteger`.  The first argument bounds the number of passes; `none` means the
bound was reached with a pass still to be made. -/
def CDLLADDERBOTTOM_loop (ShadowVeryShort : TA_CandleSetting) (c : TA_Candles)
    (endIdx : Int) : Nat → Int → Int → ℚ → Int → (Int → Int) → Option (Int × (Int → Int))
  | 0, _, _, _, _, _ => none
  | fuel + 1, i, outIdx, ShadowVeryShortPeriodTotal, ShadowVeryShortTrailingIdx,
      outInteger =>
    let outInteger := Function.update outInteger outIdx
      (if CDLLADDERBOTTOM_test ShadowVeryShort c ShadowVeryShortPeriodTotal i then 100 else 0)
    let outIdx := outIdx + 1
    let ShadowVeryShortPeriodTotal := ShadowVeryShortPeriodTotal
      + (TA_CANDLERANGE ShadowVeryShort c (i - 1)
          - TA_CANDLERANGE ShadowVeryShort c (ShadowVeryShortTrailingIdx - 1))
    let i := i + 1
    let ShadowVeryShortTrailingIdx := ShadowVeryShortTrailingIdx + 1
    if i ≤ endIdx then
      CDLLADDERBOTTOM_loop ShadowVeryShort c endIdx fuel i outIdx
        ShadowVeryShortPeriodTotal ShadowVeryShortTrailingIdx outInteger
    else
      some (outIdx, outInteger)

/-- What a call of `TA_CDLLADDERBOTTOM` leaves behind: the return code,
`*outBegIdx`, `*outNbElement` and the contents of the `outInteger` array (`none`
when the caller passed a null pointer). -/
structure CDL_Result where
  retCode : TA_RetCode
  outBegIdx : Int
  outNbElement : Int
  outInteger : Option (Int → Int)

/-- `TA_CDLLADDERBOTTOM`, compiled with the range checks (`TA_FUNC_NO_RANGE_CHECK`
not defined), for the current `TA_ShadowVeryShort` setting.  `outBegIdx`,
`outNbElement` are the previous contents of the two out-parameters; an array
argument is `none` for a null pointer.  An early `return` leaves the
out-parameters and the array as they were.  The result is `none` only if one of
the two loops did not finish within its bound: the averaging period for the
first, `endIdx - startIdx + 1` for the second. -/
def TA_CDLLADDERBOTTOM (ShadowVeryShort : TA_CandleSetting) (startIdx endIdx : Int)
    (inOpen inHigh inLow inClose : Option (Int → ℚ))
    (outBegIdx outNbElement : Int) (outInteger : Option (Int → Int)) : Option CDL_Result :=
  if startIdx < 0 then
    some ⟨.TA_OUT_OF_RANGE_START_INDEX, outBegIdx, outNbElement, outInteger⟩
  else if endIdx < 0 ∨ endIdx < startIdx then
    some ⟨.TA_OUT_OF_RANGE_END_INDEX, outBegIdx, outNbElement, outInteger⟩
  else
    match inOpen, inHigh, inLow, inClose with
    | some inOpen, some inHigh, some inLow, some inClose =>
      match outInteger with
      | none => some ⟨.TA_BAD_PARAM, outBegIdx, outNbElement, none⟩
      | some outInteger =>
        let c : TA_Candles := ⟨inOpen, inHigh, inLow, inClose⟩
        let lookbackTotal := TA_CDLLADDERBOTTOM_Lookback ShadowVeryShort
        let startIdx := if startIdx < lookbackTotal then lookbackTotal else startIdx
        if startIdx > endIdx then
          some ⟨.TA_SUCCESS, 0, 0, some outInteger⟩
        else
          let ShadowVeryShortTrailingIdx := startIdx - TA_CANDLEAVGPERIOD ShadowVeryShort
          match CDLLADDERBOTTOM_initialTotal ShadowVeryShort c startIdx
              (TA_CANDLEAVGPERIOD ShadowVeryShort).toNat ShadowVeryShortTrailingIdx 0 with
          | none => none
          | some ShadowVeryShortPeriodTotal =>
            match CDLLADDERBOTTOM_loop ShadowVeryShort c endIdx
                (endIdx - startIdx + 1).toNat startIdx 0 ShadowVeryShortPeriodTotal
                ShadowVeryShortTrailingIdx outInteger with
            | none => none
            | some (outIdx, outInteger) =>
              some ⟨.TA_SUCCESS, startIdx, outIdx, some outInteger⟩
    | _, _, _, _ => some ⟨.TA_BAD_PARAM, outBegIdx, outNbElement, outInteger⟩

/-! ## `ta_history_priv.h` and the history builder

The header declares the records of the history builder; the functions that fill
them (`ta_history.c`, `ta_period.c`) are not among the sources and are modelled
from the specification.  An array of a data block is a list, a pointer to a data
block is the position of the block: the attach order of its data source and its
place in `listOfDataBlock`. -/

/-- Modelled from the spec: the type `TA_Timestamp` of `ta_common.h` (not among the
sources), an ordered instant. -/
abbrev TA_Timestamp := Nat

/-- Modelled from the spec: the type `TA_Period` of `ta_common.h` (not among the
sources), the sampling granularity of a bar sequence: the length of one bar, so
that a coarser period is a larger number. -/
abbrev TA_Period := Nat

/-- Modelled from the spec: the type `TA_Field` of `ta_common.h` (not among the
sources), a bit mask of the columns a block provides. -/
abbrev TA_Field := Nat

/-- `TA_DataBlock`: a columnar chunk of bars.  `nbBars` is the common length of the
arrays. -/
structure TA_DataBlock where
  «open» : List ℚ
  high : List ℚ
  low : List ℚ
  close : List ℚ
  volume : List Int
  openInterest : List Int
  timestamp : List TA_Timestamp
  nbBars : Nat
  period : TA_Period
  fieldProvided : TA_Field

/-- `TA_MergeOp`: one copy operation of the merge, `nbElementToCopy` bars of the
block `srcDataBlock` from position `srcIndexForCopy` on.  The pointer
`srcDataBlock` is the attach order of the data source and the place of the block
in its `listOfDataBlock`. -/
structure TA_MergeOp where
  srcDataBlock : Nat × Nat
  srcIndexForCopy : Nat
  nbElementToCopy : Nat
  deriving DecidableEq, Repr

/-- `TA_SplitAdjust`: a split adjustment, timestamp and factor. -/
structure TA_SplitAdjust where
  timestamp : TA_Timestamp
  factor : ℚ

/-- `TA_ValueAdjust`: a value adjustment, timestamp and amount. -/
structure TA_ValueAdjust where
  timestamp : TA_Timestamp
  amount : ℚ

/-- `TA_SupportForDataSource`: what the builder keeps for one data source.  The
handles passed to the driver are left out.  A pointer into the timestamp array
of a block (`lowestTimestamp`, `highestTimestamp`) is the place of the block in
`listOfDataBlock` and the position in its array, `none` for a null pointer; the
two fields are carried along and no definition of this file reads through them.
The cursor of the merge (`curDataBlock`, `curIndex`, `curTimestamp`,
`allDataConsumed`) is part of the state of the merge, see `Merger_State`. -/
structure TA_SupportForDataSource where
  period : TA_Period
  fieldToAlloc : TA_Field
  enoughValidDataProvided : Bool
  finishIndication : Bool
  fieldProvided : TA_Field
  periodProvided : TA_Period
  retCode : TA_RetCode
  listOfDataBlock : List TA_DataBlock
  lowestTimestamp : Option (Nat × Nat)
  highestTimestamp : Option (Nat × Nat)
  listOfSplitAdjust : List TA_SplitAdjust
  listOfValueAdjust : List TA_ValueAdjust
  contributingDataSource : Bool

/-- `TA_BuilderSupport`: everything allocated while a history is built. -/
structure TA_BuilderSupport where
  listOfSupportForDataSource : List TA_SupportForDataSource
  listOfMergeOp : List TA_MergeOp
  nbPriceBar : Nat
  commonFieldProvided : TA_Field
  retCode : TA_RetCode

/-- Modelled from the spec: the position of the cursor of one data source during
the merge of `ta_history.c` (not among the sources): the data source (by attach
order), `curDataBlock`, `curIndex`, and the timestamp `curTimestamp` points to. -/
structure Merger_Bar where
  source : Nat
  block : Nat
  index : Nat
  timestamp : TA_Timestamp
  deriving DecidableEq, Repr

/-- Modelled from the spec: the bars of one block in the order of the block, from
position `index` on; part of the merge of `ta_history.c` (not among the
sources). -/
def Merger_blockBars (source block : Nat) : Nat → List TA_Timestamp → List Merger_Bar
  | _, [] => []
  | index, t :: ts => ⟨source, block, index, t⟩ :: Merger_blockBars source block (index + 1) ts

/-- Modelled from the spec: the block sequence of one data source, the bars a cursor
of the merge of `ta_history.c` (not among the sources) runs through, block after
block. -/
def Merger_sourceBars (source : Nat) : Nat → List TA_DataBlock → List Merger_Bar
  | _, [] => []
  | block, b :: bs =>
    Merger_blockBars source block 0 b.timestamp ++ Merger_sourceBars source (block + 1) bs

/-- Modelled from the spec: the cursors of the merge of `ta_history.c` (not among
the sources) at its start, one per data source in attach order: each stands at
the first bar of the block sequence of its source.  A cursor is given by the
bars it has still to visit: the first is the bar it points to, and the data
source is exhausted (`allDataConsumed`) when none is left. -/
def Merger_cursors : Nat → List TA_SupportForDataSource → List (List Merger_Bar)
  | _, [] => []
  | source, s :: ss =>
    Merger_sourceBars source 0 s.listOfDataBlock :: Merger_cursors (source + 1) ss

/-- Modelled from the spec: the selection of the merge of `ta_history.c` (not among
the sources): "the globally smallest `curTimestamp` among not-yet-exhausted
sessions is selected; if multiple sessions share the exact timestamp, the
session attached earliest wins".  `none` when every session is exhausted. -/
def Merger_select : List (List Merger_Bar) → Option Merger_Bar
  | [] => none
  | c :: cs =>
    match c.head?, Merger_select cs with
    | none, r => r
    | some r, none => some r
    | some r, some r' => if r.timestamp ≤ r'.timestamp then some r else some r'

/-- Modelled from the spec: the advance of one cursor of the merge of
`ta_history.c` (not among the sources) after the instant `t` has been served:
the winner moves on, and "later-attached sessions with the same timestamp are
skipped for that instant but continue advancing". -/
def Merger_advance (t : TA_Timestamp) : List Merger_Bar → List Merger_Bar
  | [] => []
  | r :: rest => if r.timestamp = t then rest else r :: rest

/-- Modelled from the spec: the recording of one selected bar in the plan of the
merge of `ta_history.c` (not among the sources): "consecutive bars selected from
the same session are coalesced into one MergeOp"; a bar that does not continue
the last copy operation (another block, or not the next position) starts a new
one. -/
def Merger_record : List TA_MergeOp → Merger_Bar → List TA_MergeOp
  | [], r => [⟨(r.source, r.block), r.index, 1⟩]
  | [op], r =>
    if op.srcDataBlock = (r.source, r.block) ∧ op.srcIndexForCopy + op.nbElementToCopy = r.index
    then [⟨op.srcDataBlock, op.srcIndexForCopy, op.nbElementToCopy + 1⟩]
    else [op, ⟨(r.source, r.block), r.index, 1⟩]
  | op :: op' :: ops, r => op :: Merger_record (op' :: ops) r

/-- Modelled from the spec: the state of the merge of `ta_history.c` (not among the
sources): the cursors of the data sources, the plan built so far and the number
of bars emitted so far. -/
structure Merger_State where
  cursors : List (List Merger_Bar)
  listOfMergeOp : List TA_MergeOp
  nbPriceBar : Nat

/-- Modelled from the spec: the loop of the merge of `ta_history.c` (not among the
sources): select, emit, advance, until "every session is exhausted".  The first
argument bounds the number of passes; `none` means the bound was reached with a
session not yet exhausted. -/
def Merger_loop : Nat → Merger_State → Option Merger_State
  | fuel, st =>
    match Merger_select st.cursors with
    | none => some st
    | some r =>
      match fuel with
      | 0 => none
      | fuel + 1 =>
        Merger_loop fuel
          ⟨st.cursors.map (Merger_advance r.timestamp), Merger_record st.listOfMergeOp r,
            st.nbPriceBar + 1⟩

/-- Modelled from the spec: the merge of `ta_history.c` (not among the sources) over
the data sources of a builder, in attach order: it fills `listOfMergeOp` and
`nbPriceBar`.  The loop is given one pass per bar of the data sources. -/
def Merger_merge (bs : TA_BuilderSupport) : Option TA_BuilderSupport :=
  let cursors := Merger_cursors 0 bs.listOfSupportForDataSource
  match Merger_loop (cursors.map List.length).sum ⟨cursors, [], 0⟩ with
  | none => none
  | some st => some { bs with listOfMergeOp := st.listOfMergeOp, nbPriceBar := st.nbPriceBar }

/-- Modelled from the spec: the block a `srcDataBlock` pointer of a copy operation
points to; part of the assembly of `ta_history.c` (not among the sources). -/
def Assembler_block (sources : List TA_SupportForDataSource) (ref : Nat × Nat) :
    Option TA_DataBlock :=
  match sources[ref.1]? with
  | none => none
  | some s => s.listOfDataBlock[ref.2]?

/-- Modelled from the spec: the timestamps one copy operation copies, the
"contiguous run from its source block"; part of the assembly of `ta_history.c`
(not among the sources). -/
def Assembler_run (sources : List TA_SupportForDataSource) (op : TA_MergeOp) :
    List TA_Timestamp :=
  match Assembler_block sources op.srcDataBlock with
  | none => []
  | some b => (b.timestamp.drop op.srcIndexForCopy).take op.nbElementToCopy

/-- Modelled from the spec: the timestamp array of the result of a build, as the
assembly of `ta_history.c` (not among the sources) fills it: it "walks the
MergeOp list exactly once, copying each contiguous run from its source block into
the output". -/
def Assembler_timestamps (sources : List TA_SupportForDataSource) :
    List TA_MergeOp → List TA_Timestamp
  | [] => []
  | op :: ops => Assembler_run sources op ++ Assembler_timestamps sources ops

/-- The timestamps of one data source in the order of its block sequence. -/
def sourceTimestamps (s : TA_SupportForDataSource) : List TA_Timestamp :=
  (s.listOfDataBlock.map TA_DataBlock.timestamp).flatten

/-- A block with the timestamps `ts` at period 1 and every price at 0. -/
def sampleBlock (ts : List TA_Timestamp) : TA_DataBlock :=
  ⟨ts.map (fun _ => 0), ts.map (fun _ => 0), ts.map (fun _ => 0), ts.map (fun _ => 0),
    ts.map (fun _ => 0), ts.map (fun _ => 0), ts, ts.length, 1, 0⟩

/-- A data source with the blocks `bs`. -/
def sampleSource (bs : List TA_DataBlock) : TA_SupportForDataSource :=
  ⟨1, 0, false, true, 0, 1, .TA_SUCCESS, bs, none, none, [], [], true⟩

/-- A builder over two data sources: the first supplies the days 1 to 5 in two
blocks, the second, attached after it, the days 3 to 7. -/
def sampleBuilder : TA_BuilderSupport :=
  ⟨[sampleSource [sampleBlock [1, 2], sampleBlock [3, 4, 5]],
    sampleSource [sampleBlock [3, 4, 5, 6, 7]]], [], 0, 0, .TA_SUCCESS⟩

/-! ## Notions the properties are stated with -/

/-- The period `TA_TSF` works with: 14 when the default is asked for. -/
def TSF_period (optInTimePeriod : Int) : Int :=
  if optInTimePeriod = TA_INTEGER_DEFAULT then 14 else optInTimePeriod

/-- The first bar `TA_TSF` evaluates: `max(startIdx, p-1)`. -/
def TSF_firstBar (startIdx optInTimePeriod : Int) : Int :=
  max startIdx (TSF_period optInTimePeriod - 1)

/-- The sum of the squared vertical distances between the straight line
`y = b + m*x` and the `p` points `(x, y) = (j, inReal[t-p+1+j])`, `j = 0..p-1`:
the last `p` bars up to bar `t`, numbered from the oldest. -/
def TSF_squaredError (inReal : Int → ℚ) (p t : Int) (m b : ℚ) : ℚ :=
  ∑ j ∈ Finset.range p.toNat, (inReal (t - p + 1 + (j : Int)) - (b + m * (j : ℚ))) ^ 2

/-- The line `y = b + m*x` is a least-squares line of the `p` bars up to `t`: no
straight line has a smaller sum of squared distances to the points. -/
def IsLeastSquaresLine (inReal : Int → ℚ) (p t : Int) (m b : ℚ) : Prop :=
  ∀ m' b' : ℚ, TSF_squaredError inReal p t m b ≤ TSF_squaredError inReal p t m' b'

/-- The value of `ShadowVeryShortPeriodTotal` after `n` more passes of the main
loop of `TA_CDLLADDERBOTTOM`, started in the state `(i, ShadowVeryShortTrailingIdx,
ShadowVeryShortPeriodTotal)`: each pass adds the range of candle `i-1` and takes
away that of candle `ShadowVeryShortTrailingIdx-1`. -/
def CDL_totalAfter (ShadowVeryShort : TA_CandleSetting) (c : TA_Candles) :
    Nat → Int → Int → ℚ → ℚ
  | 0, _, _, total => total
  | n + 1, i, trailingIdx, total =>
    CDL_totalAfter ShadowVeryShort c n (i + 1) (trailingIdx + 1)
      (total + (TA_CANDLERANGE ShadowVeryShort c (i - 1)
        - TA_CANDLERANGE ShadowVeryShort c (trailingIdx - 1)))

/-- The first bar `TA_CDLLADDERBOTTOM` evaluates: `max(startIdx, A+4)` for the
averaging period `A` of the setting. -/
def CDL_firstBar (ShadowVeryShort : TA_CandleSetting) (startIdx : Int) : Int :=
  max startIdx (ShadowVeryShort.avgPeriod + 4)

/-- The sum of the ranges of the `A` candles before candle `idx`, the candles
`idx-A .. idx-1`, for the averaging period `A` of the setting. -/
def CDL_periodTotal (ShadowVeryShort : TA_CandleSetting) (c : TA_Candles) (idx : Int) : ℚ :=
  ∑ t ∈ Finset.range ShadowVeryShort.avgPeriod.toNat,
    TA_CANDLERANGE ShadowVeryShort c (idx - ShadowVeryShort.avgPeriod + (t : Int))

/-- A `TA_ShadowVeryShort` setting for the examples: high-low range, averaged over
one candle, factor one tenth. -/
def sampleSetting : TA_CandleSetting := ⟨.TA_RangeType_HighLow, 1, 1 / 10⟩

/-- Opens of six candles that end in a ladder bottom at bar 5. -/
def sampleOpen (i : Int) : ℚ :=
  if i = 1 then 10 else if i = 2 then 9 else if i = 3 then 8 else if i = 4 then 7
  else if i = 5 then 15 / 2 else 11

/-- Highs of the six candles. -/
def sampleHigh (i : Int) : ℚ :=
  if i = 1 then 10 else if i = 2 then 9 else if i = 3 then 8 else if i = 4 then 8
  else if i = 5 then 9 else 12

/-- Lows of the six candles. -/
def sampleLow (i : Int) : ℚ :=
  if i = 1 then 9 else if i = 2 then 8 else if i = 3 then 7 else if i = 4 then 6
  else if i = 5 then 7 else 10

/-- Closes of the six candles. -/
def sampleClose (i : Int) : ℚ :=
  if i = 1 then 9 else if i = 2 then 8 else if i = 3 then 7 else if i = 4 then 6
  else if i = 5 then 9 else 11

/-- The number of bars the cursors have still to visit. -/
def Merger_remaining (cursors : List (List Merger_Bar)) : Nat :=
  (cursors.map List.length).sum

/-- A cursor position that is a bar of the data sources: the block it names
exists and holds the timestamp at the index. -/
def Merger_Bar.Valid (sources : List TA_SupportForDataSource) (r : Merger_Bar) : Prop :=
  ∃ b, Assembler_block sources (r.source, r.block) = some b ∧
    b.timestamp[r.index]? = some r.timestamp

/-- Modelled from the spec: the target period of a build, as `TA_PeriodNormalize` of
`ta_period.c` (not among the sources) determines it: "the coarsest
`periodProvided` among all contributing sessions". -/
def PeriodNormalizer_targetPeriod (bs : TA_BuilderSupport) : TA_Period :=
  (bs.listOfSupportForDataSource.map TA_SupportForDataSource.periodProvided).foldr max 0

/-- Timestamps spaced according to the period `P`: each follows the one before it
by a whole, positive number of periods. -/
def SpacedBy (P : TA_Period) (ts : List TA_Timestamp) : Prop :=
  ts.Chain' (fun a b => ∃ k : Nat, 0 < k ∧ b = a + k * P)

/-- A builder over two weekly data sources (period 7), each bar stamped at the end
of its week: the first supplies the weeks ending on days 7, 14, 21 in two blocks,
the second the weeks ending on days 14 and 28. -/
def sampleBuilderWeekly : TA_BuilderSupport :=
  ⟨[⟨7, 0, false, true, 0, 7, .TA_SUCCESS,
      [{ sampleBlock [7, 14] with period := 7 }, { sampleBlock [21] with period := 7 }],
      none, none, [], [], true⟩,
    ⟨7, 0, false, true, 0, 7, .TA_SUCCESS,
      [{ sampleBlock [14, 28] with period := 7 }], none, none, [], [], true⟩],
    [], 0, 0, .TA_SUCCESS⟩

/-- A builder over two weekly data sources (period 7) that stamp their bars one day
apart: the first on days 7 and 14, the second on days 8 and 15. -/
def sampleBuilderOffset : TA_BuilderSupport :=
  ⟨[⟨7, 0, false, true, 0, 7, .TA_SUCCESS,
      [{ sampleBlock [7, 14] with period := 7 }], none, none, [], [], true⟩,
    ⟨7, 0, false, true, 0, 7, .TA_SUCCESS,
      [{ sampleBlock [8, 15] with period := 7 }], none, none, [], [], true⟩],
    [], 0, 0, .TA_SUCCESS⟩

/-! ## `table_l.c` -/

/-- Modelled from the spec: the group identifiers `TA_GroupId` of `ta_abstract.h`
(not among the sources); the functions of this table are all in the group
`TA_GroupId_Statistic`. -/
inductive TA_GroupId where
  | TA_GroupId_Statistic
  deriving DecidableEq, Repr

/-- Modelled from the spec: the function flags of `ta_abstract.h` (not among the
sources); a flag word is the list of the flags set in it, `0` the empty list. -/
inductive TA_FuncFlag where
  | TA_FUNC_FLG_OVERLAP
  deriving DecidableEq, Repr

/-- Modelled from the spec: the record `TA_FuncDef` that the macro `DEF_FUNCTION`
of `ta_def_ui.h` (not among the sources) fills for a function `name`: the name as
a string, the arguments of the macro, and the three null-terminated arrays
`TA_<name>_Inputs`, `TA_<name>_OptInputs`, `TA_<name>_Outputs` it refers to.  An
array of pointers is a list of options, `none` the null pointer. -/
structure TA_FuncDef where
  name : String
  groupId : TA_GroupId
  hint : String
  helpFile : Option String
  flags : List TA_FuncFlag
  input : List (Option String)
  optInput : List (Option String)
  output : List (Option String)
  deriving DecidableEq, Repr

/-- `DEF_FUNCTION( LINEARREG, ... )` with `TA_LINEARREG_Inputs`,
`TA_LINEARREG_OptInputs`, `TA_LINEARREG_Outputs`. -/
def TA_DEF_LINEARREG : TA_FuncDef :=
  { name := "LINEARREG"
    groupId := .TA_GroupId_Statistic
    hint := "Linear Regression"
    helpFile := none
    flags := [.TA_FUNC_FLG_OVERLAP]
    input := [some "TA_DEF_UI_Input_Real", none]
    optInput := [some "TA_DEF_UI_TimePeriod_14_MINIMUM2", none]
    output := [some "TA_DEF_UI_Output_Real", none] }

/-- `DEF_FUNCTION( LINEARREG_SLOPE, ... )` with its three arrays. -/
def TA_DEF_LINEARREG_SLOPE : TA_FuncDef :=
  { name := "LINEARREG_SLOPE"
    groupId := .TA_GroupId_Statistic
    hint := "Linear Regression Slope"
    helpFile := none
    flags := []
    input := [some "TA_DEF_UI_Input_Real", none]
    optInput := [some "TA_DEF_UI_TimePeriod_14_MINIMUM2", none]
    output := [some "TA_DEF_UI_Output_Real", none] }

/-- `DEF_FUNCTION( LINEARREG_ANGLE, ... )` with its three arrays. -/
def TA_DEF_LINEARREG_ANGLE : TA_FuncDef :=
  { name := "LINEARREG_ANGLE"
    groupId := .TA_GroupId_Statistic
    hint := "Linear Regression Angle"
    helpFile := none
    flags := []
    input := [some "TA_DEF_UI_Input_Real", none]
    optInput := [some "TA_DEF_UI_TimePeriod_14_MINIMUM2", none]
    output := [some "TA_DEF_UI_Output_Real", none] }

/-- `DEF_FUNCTION( LINEARREG_INTERCEPT, ... )` with its three arrays. -/
def TA_DEF_LINEARREG_INTERCEPT : TA_FuncDef :=
  { name := "LINEARREG_INTERCEPT"
    groupId := .TA_GroupId_Statistic
    hint := "Linear Regression Intercept"
    helpFile := none
    flags := [.TA_FUNC_FLG_OVERLAP]
    input := [some "TA_DEF_UI_Input_Real", none]
    optInput := [some "TA_DEF_UI_TimePeriod_14_MINIMUM2", none]
    output := [some "TA_DEF_UI_Output_Real", none] }

/-- `TA_DEF_TableL`: the array of pointers to the function definitions, in the
order of the source, `ADD_TO_TABLE(name)` being the address of `TA_DEF_<name>`,
closed by `NULL`. -/
def TA_DEF_TableL : List (Option TA_FuncDef) :=
  [some TA_DEF_LINEARREG,
   some TA_DEF_LINEARREG_SLOPE,
   some TA_DEF_LINEARREG_ANGLE,
   some TA_DEF_LINEARREG_INTERCEPT,
   none]

/-- `TA_DEF_TableLSize`: `(sizeof(TA_DEF_TableL)/sizeof(TA_FuncDef *))-1`, the
number of elements of the array less one. -/
def TA_DEF_TableLSize : Nat :=
  TA_DEF_TableL.length - 1

/-! ## The adjuster of the history builder

`applySplitAdjust` and `applyValueAdjust` belong to `ta_history.c`, which is not
among the sources; they are modelled from the specification over the records
`TA_DataBlock`, `TA_SplitAdjust` and `TA_ValueAdjust` of `ta_history_priv.h`. -/

/-- Modelled from the spec: the conversion of a scaled volume back to the integer
type `TA_Integer` of the volume array, in `applySplitAdjust` of `ta_history.c`
(not among the sources): as C converts a `double` to an `int`, the fractional
part is discarded. -/
def Adjuster_toInteger (x : ℚ) : Int :=
  Int.tdiv x.num (x.den : Int)

/-- Modelled from the spec: the effective split multiplier for a bar at timestamp
`T`, in `applySplitAdjust` of `ta_history.c` (not among the sources): "the product
of every split factor whose adjustment timestamp is strictly later than T",
gathered in one pass over the list of split adjustments, from the multiplier
gathered so far. -/
def Adjuster_splitMultiplier (T : TA_Timestamp) : ℚ → List TA_SplitAdjust → ℚ
  | multiplier, [] => multiplier
  | multiplier, a :: rest =>
    Adjuster_splitMultiplier T
      (if T < a.timestamp then multiplier * a.factor else multiplier) rest

/-- Modelled from the spec: the effective value-adjustment offset for a bar at
timestamp `T`, in `applyValueAdjust` of `ta_history.c` (not among the sources):
"the sum of every value-adjustment amount whose timestamp is strictly later than
T", gathered in one pass over the list of value adjustments, from the offset
gathered so far. -/
def Adjuster_valueOffset (T : TA_Timestamp) : ℚ → List TA_ValueAdjust → ℚ
  | offset, [] => offset
  | offset, a :: rest =>
    Adjuster_valueOffset T (if T < a.timestamp then offset + a.amount else offset) rest

/-- Modelled from the spec: the walk of `applySplitAdjust` of `ta_history.c` (not
among the sources) over one price column: the value of each bar is multiplied
with the effective split multiplier of the timestamp of the bar. -/
def Adjuster_scaleReal (splitList : List TA_SplitAdjust) :
    List TA_Timestamp → List ℚ → List ℚ
  | T :: ts, x :: xs =>
    x * Adjuster_splitMultiplier T 1 splitList :: Adjuster_scaleReal splitList ts xs
  | _, xs => xs

/-- Modelled from the spec: the walk of `applySplitAdjust` of `ta_history.c` (not
among the sources) over the volume column: the volume of each bar is multiplied
with the effective split multiplier of the timestamp of the bar and stored back
as an integer. -/
def Adjuster_scaleInteger (splitList : List TA_SplitAdjust) :
    List TA_Timestamp → List Int → List Int
  | T :: ts, v :: vs =>
    Adjuster_toInteger ((v : ℚ) * Adjuster_splitMultiplier T 1 splitList)
      :: Adjuster_scaleInteger splitList ts vs
  | _, vs => vs

/-- Modelled from the spec: the walk of `applyValueAdjust` of `ta_history.c` (not
among the sources) over one price column: the effective value-adjustment offset
of the timestamp of each bar is subtracted from the value of the bar. -/
def Adjuster_shiftReal (valueList : List TA_ValueAdjust) :
    List TA_Timestamp → List ℚ → List ℚ
  | T :: ts, x :: xs =>
    (x - Adjuster_valueOffset T 0 valueList) :: Adjuster_shiftReal valueList ts xs
  | _, xs => xs

/-- Modelled from the spec: `applySplitAdjust(block, splitList)` of `ta_history.c`
(not among the sources): the effective split multiplier "is applied to
`open/high/low/close` and to `volume`". -/
def Adjuster_applySplitAdjust (block : TA_DataBlock) (splitList : List TA_SplitAdjust) :
    TA_DataBlock :=
  { block with
    «open» := Adjuster_scaleReal splitList block.timestamp block.open
    high := Adjuster_scaleReal splitList block.timestamp block.high
    low := Adjuster_scaleReal splitList block.timestamp block.low
    close := Adjuster_scaleReal splitList block.timestamp block.close
    volume := Adjuster_scaleInteger splitList block.timestamp block.volume }

/-- Modelled from the spec: `applyValueAdjust(block, valueList)` of `ta_history.c`
(not among the sources): the effective value-adjustment offset "is subtracted
from price fields only". -/
def Adjuster_applyValueAdjust (block : TA_DataBlock) (valueList : List TA_ValueAdjust) :
    TA_DataBlock :=
  { block with
    «open» := Adjuster_shiftReal valueList block.timestamp block.open
    high := Adjuster_shiftReal valueList block.timestamp block.high
    low := Adjuster_shiftReal valueList block.timestamp block.low
    close := Adjuster_shiftReal valueList block.timestamp block.close }

/-- The product of the factors of the split adjustments dated strictly later than
`T`. -/
def splitFactorAfter (T : TA_Timestamp) (splitList : List TA_SplitAdjust) : ℚ :=
  ((splitList.filter (fun a => T < a.timestamp)).map TA_SplitAdjust.factor).prod

/-- The sum of the amounts of the value adjustments dated strictly later than
`T`. -/
def valueAmountAfter (T : TA_Timestamp) (valueList : List TA_ValueAdjust) : ℚ :=
  ((valueList.filter (fun a => T < a.timestamp)).map TA_ValueAdjust.amount).sum

/-- A block of five daily bars, days 1 to 5, with the closes 10, 20, 30, 40, 50 and
the volumes 100, 200, 300, 400, 500. -/
def sampleDays : TA_DataBlock :=
  { «open» := [9, 19, 29, 39, 49]
    high := [11, 21, 31, 41, 51]
    low := [8, 18, 28, 38, 48]
    close := [10, 20, 30, 40, 50]
    volume := [100, 200, 300, 400, 500]
    openInterest := [1, 2, 3, 4, 5]
    timestamp := [1, 2, 3, 4, 5]
    nbBars := 5
    period := 1
    fieldProvided := 0 }

/-- Modelled from the spec: one column of the result of a build, as the assembly of
`ta_history.c` (not among the sources) fills it: for each copy operation of the
plan, in order, the "contiguous run from its source block" of that column.
`Assembler_timestamps` is the column of the timestamps. -/
def Assembler_column {α : Type} (col : TA_DataBlock → List α)
    (sources : List TA_SupportForDataSource) : List TA_MergeOp → List α
  | [] => []
  | op :: ops =>
    (match Assembler_block sources op.srcDataBlock with
      | none => []
      | some b => ((col b).drop op.srcIndexForCopy).take op.nbElementToCopy)
    ++ Assembler_column col sources ops

/-- The bars a plan copies into the result, in order: for each copy operation the
positions of its run in the source block, with the timestamps found there. -/
def Assembler_bars (sources : List TA_SupportForDataSource) :
    List TA_MergeOp → List Merger_Bar
  | [] => []
  | op :: ops =>
    (match Assembler_block sources op.srcDataBlock with
      | none => []
      | some b =>
        Merger_blockBars op.srcDataBlock.1 op.srcDataBlock.2 op.srcIndexForCopy
          ((b.timestamp.drop op.srcIndexForCopy).take op.nbElementToCopy))
    ++ Assembler_bars sources ops

/-- The bars the loop of the merge selects, pass by pass, from the cursors `cs`,
within the given number of passes. -/
def Merger_emitted : Nat → List (List Merger_Bar) → List Merger_Bar
  | fuel, cs =>
    match Merger_select cs with
    | none => []
    | some r =>
      match fuel with
      | 0 => []
      | fuel + 1 => r :: Merger_emitted fuel (cs.map (Merger_advance r.timestamp))

/-- The value a column holds for a bar of the data sources, `none` when the block
or the position does not exist. -/
def Assembler_value {α : Type} (col : TA_DataBlock → List α)
    (sources : List TA_SupportForDataSource) (r : Merger_Bar) : Option α :=
  match Assembler_block sources (r.source, r.block) with
  | none => none
  | some b => (col b)[r.index]?

/-- Scenario A: the first data source supplies the days 1 to 5 with the closes 101
to 105, the second, attached after it, the days 3 to 7 with the closes 203 to
207. -/
def scenarioA : TA_BuilderSupport :=
  ⟨[sampleSource [{ sampleBlock [1, 2, 3, 4, 5] with close := [101, 102, 103, 104, 105] }],
    sampleSource [{ sampleBlock [3, 4, 5, 6, 7] with close := [203, 204, 205, 206, 207] }]],
    [], 0, 0, .TA_SUCCESS⟩

/-! ## The period normaliser of the history builder

`TA_PeriodNormalize` and `TA_PeriodTransform` are declared in `ta_history_priv.h`
and defined in `ta_period.c`, which is not among the sources; the resampling is
modelled from the specification.  The rule for the boundaries of the windows,
which the specification leaves open, is taken as follows: a period is the length
of a bar, a bar is stamped with the instant it closes at, and the windows of a
period `P` close at the multiples of `P`. -/

/-- Modelled from the spec: one bar, a row across the columns of a `TA_DataBlock`,
as the resampling of `ta_period.c` (not among the sources) reads and writes
it. -/
structure PeriodNormalizer_Bar where
  timestamp : TA_Timestamp
  «open» : ℚ
  high : ℚ
  low : ℚ
  close : ℚ
  volume : Int
  openInterest : Int

/-- Modelled from the spec: the bars of a block from position `k` on, one per
timestamp left, read across the columns; part of the resampling of `ta_period.c`
(not among the sources). -/
def PeriodNormalizer_rowsFrom (block : TA_DataBlock) :
    Nat → List TA_Timestamp → List PeriodNormalizer_Bar
  | _, [] => []
  | k, t :: ts =>
    ⟨t, block.open.getD k 0, block.high.getD k 0, block.low.getD k 0, block.close.getD k 0,
      block.volume.getD k 0, block.openInterest.getD k 0⟩
      :: PeriodNormalizer_rowsFrom block (k + 1) ts

/-- Modelled from the spec: the bars of a block, in the order of the block; part of
the resampling of `ta_period.c` (not among the sources). -/
def PeriodNormalizer_rows (block : TA_DataBlock) : List PeriodNormalizer_Bar :=
  PeriodNormalizer_rowsFrom block 0 block.timestamp

/-- Modelled from the spec: the block with the given bars, column by column; part
of the resampling of `ta_period.c` (not among the sources). -/
def PeriodNormalizer_block (period : TA_Period) (fieldProvided : TA_Field)
    (bars : List PeriodNormalizer_Bar) : TA_DataBlock :=
  { «open» := bars.map PeriodNormalizer_Bar.open
    high := bars.map PeriodNormalizer_Bar.high
    low := bars.map PeriodNormalizer_Bar.low
    close := bars.map PeriodNormalizer_Bar.close
    volume := bars.map PeriodNormalizer_Bar.volume
    openInterest := bars.map PeriodNormalizer_Bar.openInterest
    timestamp := bars.map PeriodNormalizer_Bar.timestamp
    nbBars := bars.length
    period := period
    fieldProvided := fieldProvided }

/-- Modelled from the spec: the closing instant of the window of the period `P`
that a bar stamped `t` falls into, in the resampling of `ta_period.c` (not among
the sources): the first multiple of `P` at or after `t`, "the window's closing
instant". -/
def PeriodNormalizer_windowClose (P : TA_Period) (t : TA_Timestamp) : TA_Timestamp :=
  ((t + P - 1) / P) * P

/-- Modelled from the spec: the first bar of a window, in the resampling of
`ta_period.c` (not among the sources): the window takes the values of the bar and
the closing instant of the window as its timestamp. -/
def PeriodNormalizer_start (P : TA_Period) (b : PeriodNormalizer_Bar) :
    PeriodNormalizer_Bar :=
  { b with timestamp := PeriodNormalizer_windowClose P b.timestamp }

/-- Modelled from the spec: one more bar of a window, in the resampling of
`ta_period.c` (not among the sources): "`open` = first bar's open, `high` = max of
highs, `low` = min of lows, `close` = last bar's close, `volume` = sum,
`openInterest` = last bar's value". -/
def PeriodNormalizer_extend (w b : PeriodNormalizer_Bar) : PeriodNormalizer_Bar :=
  { w with
    high := max w.high b.high
    low := min w.low b.low
    close := b.close
    volume := w.volume + b.volume
    openInterest := b.openInterest }

/-- Modelled from the spec: the resampling of a sequence of bars to the period `P`,
in `ta_period.c` (not among the sources), bar by bar: "grouping contiguous bars
into non-overlapping windows aligned to the target period's natural boundary".
The first argument is the window under construction with the timestamp of the
last bar added to it, `none` before the first bar.  A bar of the same window
extends it; a bar of another window emits it and starts the next.  At the end
"a trailing window that is not fully covered by available data is dropped": it is
emitted only when its last bar closes at the closing instant of the window. -/
def PeriodNormalizer_resample (P : TA_Period) :
    Option (PeriodNormalizer_Bar × TA_Timestamp) → List PeriodNormalizer_Bar →
      List PeriodNormalizer_Bar
  | none, [] => []
  | some (w, last), [] => if last = w.timestamp then [w] else []
  | none, b :: bs =>
    PeriodNormalizer_resample P (some (PeriodNormalizer_start P b, b.timestamp)) bs
  | some (w, _), b :: bs =>
    if PeriodNormalizer_windowClose P b.timestamp = w.timestamp then
      PeriodNormalizer_resample P (some (PeriodNormalizer_extend w b, b.timestamp)) bs
    else
      w :: PeriodNormalizer_resample P (some (PeriodNormalizer_start P b, b.timestamp)) bs

/-- Modelled from the spec: the resampling of one block to the period `P`, in
`ta_period.c` (not among the sources). -/
def PeriodNormalizer_resampleBlock (P : TA_Period) (block : TA_DataBlock) : TA_DataBlock :=
  PeriodNormalizer_block P block.fieldProvided
    (PeriodNormalizer_resample P none (PeriodNormalizer_rows block))

/-- The number `m` is the greatest of the list `l`. -/
def IsMaximumOf (m : ℚ) (l : List ℚ) : Prop :=
  m ∈ l ∧ ∀ x ∈ l, x ≤ m

/-- The number `m` is the least of the list `l`. -/
def IsMinimumOf (m : ℚ) (l : List ℚ) : Prop :=
  m ∈ l ∧ ∀ x ∈ l, m ≤ x

/-- The bar `o` aggregates the bars `constituents`: its high is the greatest of
their highs, its low the least of their lows, its volume the sum of their volumes. -/
def PeriodNormalizer_Aggregates (o : PeriodNormalizer_Bar)
    (constituents : List PeriodNormalizer_Bar) : Prop :=
  IsMaximumOf o.high (constituents.map PeriodNormalizer_Bar.high) ∧
  IsMinimumOf o.low (constituents.map PeriodNormalizer_Bar.low) ∧
  o.volume = (constituents.map PeriodNormalizer_Bar.volume).sum

/-- The constituent bars of the window of period `P` that closes at `t`: the bars
that fall into that window. -/
def PeriodNormalizer_constituents (P : TA_Period) (t : TA_Timestamp)
    (bars : List PeriodNormalizer_Bar) : List PeriodNormalizer_Bar :=
  bars.filter (fun b => PeriodNormalizer_windowClose P b.timestamp = t)

/-- The value a 32-bit signed `int` holds after an operation whose mathematical
result is `x`: `x` brought into `-2^31 .. 2^31 - 1` modulo `2^32`. -/
def Int32_wrap (x : Int) : Int :=
  (x + 2147483648) % 4294967296 - 2147483648

/-- The integer `x` is a value of a 32-bit signed `int`: the operation that
produces it does not overflow. -/
def Int32_fits (x : Int) : Prop :=
  -2147483648 ≤ x ∧ x ≤ 2147483647

instance (x : Int) : Decidable (Int32_fits x) := by
  unfold Int32_fits
  infer_instance

/-- `a * b` on `int`. -/
def Int32_mul (a b : Int) : Int :=
  Int32_wrap (a * b)

/-- `a - b` on `int`. -/
def Int32_sub (a b : Int) : Int :=
  Int32_wrap (a - b)

/-- `SumX = optInTimePeriod * ( optInTimePeriod - 1 ) * 0.5` with 32-bit `int`: the
product is an `int` product, converted to `double` for the multiplication with
`0.5`. -/
def TSF_SumX_int32 (optInTimePeriod : Int) : ℚ :=
  ((Int32_mul optInTimePeriod (Int32_sub optInTimePeriod 1) : Int) : ℚ) * (1 / 2)

/-- `SumXSqr = optInTimePeriod * ( optInTimePeriod - 1 ) * ( 2 * optInTimePeriod - 1 ) / 6`
with 32-bit `int`: the products, from left to right, and the truncating division
are `int` operations; the result is stored in a `double`. -/
def TSF_SumXSqr_int32 (optInTimePeriod : Int) : ℚ :=
  ((Int.tdiv
      (Int32_mul (Int32_mul optInTimePeriod (Int32_sub optInTimePeriod 1))
        (Int32_sub (Int32_mul 2 optInTimePeriod) 1)) 6 : Int) : ℚ)

/-- No `int` operation of the expressions for `SumX` and `SumXSqr` overflows at the
period `p`: every intermediate result is a value of a 32-bit `int`. -/
def TSF_noOverflow (p : Int) : Prop :=
  Int32_fits (p - 1) ∧ Int32_fits (p * (p - 1)) ∧ Int32_fits (2 * p) ∧
    Int32_fits (2 * p - 1) ∧ Int32_fits (p * (p - 1) * (2 * p - 1))

instance (p : Int) : Decidable (TSF_noOverflow p) := by
  unfold TSF_noOverflow
  infer_instance

/-- The value one pass of the `while` loop of `TA_TSF` stores in
`outReal[outIdx]`, as `TSF_forecast`, with `SumX`, `SumXSqr` and `Divisor` from
the 32-bit evaluation. -/
def TSF_forecast_int32 (inReal : Int → ℚ) (optInTimePeriod : Int) (today : Int) : ℚ :=
  let SumX := TSF_SumX_int32 optInTimePeriod
  let SumXSqr := TSF_SumXSqr_int32 optInTimePeriod
  let Divisor := SumX * SumX - (optInTimePeriod : ℚ) * SumXSqr
  let sums := TSF_sums inReal today optInTimePeriod.toNat (0, 0)
  let SumY := sums.1
  let SumXY := sums.2
  let m := ((optInTimePeriod : ℚ) * SumXY - SumX * SumY) / Divisor
  let b := (SumY - m * SumX) / (optInTimePeriod : ℚ)
  b + m * (optInTimePeriod : ℚ)

/-- A division of `TA_TSF` on `double`, with the divisor checked: `none` for a
division by zero. -/
def TSF_divide (a b : ℚ) : Option ℚ :=
  if b = 0 then none else some (a / b)

/-- The value one pass of the `while` loop of `TA_TSF` stores in
`outReal[outIdx]`, as `TSF_forecast`, with the two divisions of the pass checked:
`none` when one of them divides by zero. -/
def TSF_forecast_checked (inReal : Int → ℚ) (optInTimePeriod : Int) (today : Int) :
    Option ℚ :=
  let SumX := TSF_SumX optInTimePeriod
  let Divisor := TSF_Divisor optInTimePeriod
  let sums := TSF_sums inReal today optInTimePeriod.toNat (0, 0)
  let SumY := sums.1
  let SumXY := sums.2
  (TSF_divide ((optInTimePeriod : ℚ) * SumXY - SumX * SumY) Divisor).bind (fun m =>
    (TSF_divide (SumY - m * SumX) (optInTimePeriod : ℚ)).bind (fun b =>
      some (b + m * (optInTimePeriod : ℚ))))

/-! # Theorems -/

/-! ## Properties of `TA_TSF` -/

/-- With at least `endIdx + 1 - today` passes allowed, the main loop of `TA_TSF`
finishes: it has advanced `outIdx` by the number of bars `today..endIdx` and
stored the forecast of bar `today + j` in cell `outIdx + j`, leaving every other
cell as it was. -/
theorem TSF_loop_eq (inReal : Int → ℚ) (p endIdx : Int) :
    ∀ (fuel : Nat) (today outIdx : Int) (outReal : Int → ℚ),
      endIdx + 1 - today ≤ (fuel : Int) →
      TSF_loop inReal p endIdx fuel today outIdx outReal =
        some (outIdx + max 0 (endIdx + 1 - today),
          fun k => if outIdx ≤ k ∧ k < outIdx + (endIdx + 1 - today)
            then TSF_forecast inReal p (today + (k - outIdx)) else outReal k) := by
  intro fuel
  induction fuel with
  | zero =>
    intro today outIdx outReal h
    have h1 : ¬ today ≤ endIdx := by simp at h; omega
    have h2 : max 0 (endIdx + 1 - today) = 0 := by omega
    unfold TSF_loop
    simp only [h1, if_false, h2, add_zero]
    congr 2
    funext k
    have : ¬ (outIdx ≤ k ∧ k < outIdx + (endIdx + 1 - today)) := by omega
    simp [this]
  | succ n ih =>
    intro today outIdx outReal h
    unfold TSF_loop
    by_cases h1 : today ≤ endIdx
    · simp only [h1, if_true]
      rw [ih (today + 1) (outIdx + 1) _ (by push_cast at h; omega)]
      have h2 : outIdx + 1 + max 0 (endIdx + 1 - (today + 1))
          = outIdx + max 0 (endIdx + 1 - today) := by omega
      rw [h2]
      congr 2
      funext k
      by_cases hk : k = outIdx
      · subst hk
        have c1 : ¬ (k + 1 ≤ k ∧ k < k + 1 + (endIdx + 1 - (today + 1))) := by omega
        have c2 : k ≤ k ∧ k < k + (endIdx + 1 - today) := by omega
        simp [c1, c2]
      · by_cases c : outIdx ≤ k ∧ k < outIdx + (endIdx + 1 - today)
        · have c1 : outIdx + 1 ≤ k ∧ k < outIdx + 1 + (endIdx + 1 - (today + 1)) := by omega
          have e : today + 1 + (k - (outIdx + 1)) = today + (k - outIdx) := by omega
          simp only [c, c1, if_true, e, and_self]
        · have c1 : ¬ (outIdx + 1 ≤ k ∧ k < outIdx + 1 + (endIdx + 1 - (today + 1))) := by
            omega
          simp only [c, c1, if_false, Function.update_noteq hk]
    · have h2 : max 0 (endIdx + 1 - today) = 0 := by omega
      simp only [h1, if_false, h2, add_zero]
      congr 2
      funext k
      have : ¬ (outIdx ≤ k ∧ k < outIdx + (endIdx + 1 - today)) := by omega
      simp [this]

/-- A call with valid indices, a non-null input and a valid period reaches the
part after the checks with the effective period. -/
theorem TA_TSF_eq_body (startIdx endIdx : Int) (inReal : Int → ℚ) (optIn : Int)
    (ob nb : Int) (outReal : Option (Int → ℚ))
    (h0 : 0 ≤ startIdx) (h1 : startIdx ≤ endIdx)
    (hp : optIn = TA_INTEGER_DEFAULT ∨ (2 ≤ optIn ∧ optIn ≤ 100000)) :
    TA_TSF startIdx endIdx (some inReal) optIn ob nb outReal =
      TA_TSF_body startIdx endIdx inReal (TSF_period optIn) ob nb outReal := by
  have c1 : ¬ startIdx < 0 := by omega
  have c2 : ¬ (endIdx < 0 ∨ endIdx < startIdx) := by omega
  unfold TA_TSF TSF_period
  simp only [c1, c2, if_false]
  by_cases hd : optIn = TA_INTEGER_DEFAULT
  · simp only [hd, if_true]
  · have c3 : ¬ (optIn < 2 ∨ optIn > 100000) := by
      rcases hp with hp | hp
      · exact absurd hp hd
      · omega
    simp only [hd, c3, if_false]

/-- The lookback of the effective period of an accepted call. -/
theorem TA_TSF_Lookback_period (optIn : Int)
    (hp : optIn = TA_INTEGER_DEFAULT ∨ (2 ≤ optIn ∧ optIn ≤ 100000)) :
    TA_TSF_Lookback (TSF_period optIn) = TSF_period optIn - 1 := by
  unfold TA_TSF_Lookback TSF_period TA_INTEGER_DEFAULT
  unfold TA_INTEGER_DEFAULT at hp
  dsimp only
  split_ifs <;> omega

/-- The whole of `TA_TSF` on a call it accepts with something to evaluate. -/
theorem TA_TSF_eq_of_accepted (startIdx endIdx : Int) (inReal : Int → ℚ) (optIn : Int)
    (ob nb : Int) (outReal : Int → ℚ)
    (h0 : 0 ≤ startIdx) (h1 : startIdx ≤ endIdx)
    (hp : optIn = TA_INTEGER_DEFAULT ∨ (2 ≤ optIn ∧ optIn ≤ 100000))
    (hS : TSF_firstBar startIdx optIn ≤ endIdx) :
    TA_TSF startIdx endIdx (some inReal) optIn ob nb (some outReal) =
      some ⟨.TA_SUCCESS, TSF_firstBar startIdx optIn,
        endIdx - TSF_firstBar startIdx optIn + 1,
        some (fun k => if 0 ≤ k ∧ k ≤ endIdx - TSF_firstBar startIdx optIn
          then TSF_forecast inReal (TSF_period optIn) (TSF_firstBar startIdx optIn + k)
          else outReal k)⟩ := by
  have hst : (if startIdx < TSF_period optIn - 1 then TSF_period optIn - 1 else startIdx)
      = TSF_firstBar startIdx optIn := by
    unfold TSF_firstBar
    split_ifs <;> omega
  have c4 : ¬ TSF_firstBar startIdx optIn > endIdx := by omega
  rw [TA_TSF_eq_body startIdx endIdx inReal optIn ob nb _ h0 h1 hp]
  unfold TA_TSF_body
  simp only [TA_TSF_Lookback_period optIn hp, hst, c4, if_false]
  rw [TSF_loop_eq inReal _ endIdx _ _ _ _ (by omega)]
  have e : (0:Int) + max 0 (endIdx + 1 - TSF_firstBar startIdx optIn)
      = endIdx - TSF_firstBar startIdx optIn + 1 := by omega
  simp only [e]
  congr 3
  funext k
  have : (0 ≤ k ∧ k < 0 + (endIdx + 1 - TSF_firstBar startIdx optIn))
      ↔ (0 ≤ k ∧ k ≤ endIdx - TSF_firstBar startIdx optIn) := by omega
  simp only [this, sub_zero]

/-- The whole of `TA_TSF` on a call it accepts with nothing to evaluate. -/
theorem TA_TSF_eq_of_empty (startIdx endIdx : Int) (inReal : Int → ℚ) (optIn : Int)
    (ob nb : Int) (outReal : Int → ℚ)
    (h0 : 0 ≤ startIdx) (h1 : startIdx ≤ endIdx)
    (hp : optIn = TA_INTEGER_DEFAULT ∨ (2 ≤ optIn ∧ optIn ≤ 100000))
    (hS : endIdx < TSF_firstBar startIdx optIn) :
    TA_TSF startIdx endIdx (some inReal) optIn ob nb (some outReal) =
      some ⟨.TA_SUCCESS, 0, 0, some outReal⟩ := by
  have hst : (if startIdx < TSF_period optIn - 1 then TSF_period optIn - 1 else startIdx)
      = TSF_firstBar startIdx optIn := by
    unfold TSF_firstBar
    split_ifs <;> omega
  have c4 : TSF_firstBar startIdx optIn > endIdx := by omega
  rw [TA_TSF_eq_body startIdx endIdx inReal optIn ob nb _ h0 h1 hp]
  unfold TA_TSF_body
  simp only [TA_TSF_Lookback_period optIn hp, hst, c4, if_true]

/-- C3: `TA_TSF_Lookback(p)` is 13 when `p` is `TA_INTEGER_DEFAULT` (the default
period 14), `p-1` for every `p` in `2..100000`, and `-1` for every other `p`. -/
theorem TA_TSF_Lookback_spec (p : Int) :
    TA_TSF_Lookback p =
      if p = TA_INTEGER_DEFAULT then 13
      else if 2 ≤ p ∧ p ≤ 100000 then p - 1
      else -1 := by
  unfold TA_TSF_Lookback
  dsimp only
  split_ifs <;> omega

/-- C2: `TA_TSF` classifies its arguments in order: a negative `startIdx` gives
`TA_OUT_OF_RANGE_START_INDEX`; otherwise `endIdx < 0` or `endIdx < startIdx`
gives `TA_OUT_OF_RANGE_END_INDEX`; otherwise a null `inReal`, a period that is
neither the default nor in `2..100000`, or a null `outReal` gives `TA_BAD_PARAM`;
every remaining call returns `TA_SUCCESS`.  So the call succeeds exactly when
`0 <= startIdx <= endIdx`, both arrays are non-null and the period is the
default or within `2..100000`. -/
theorem TA_TSF_retCode (startIdx endIdx : Int) (inReal : Option (Int → ℚ)) (optIn : Int)
    (ob nb : Int) (outReal : Option (Int → ℚ)) :
    (TA_TSF startIdx endIdx inReal optIn ob nb outReal).map TSF_Result.retCode =
        some (if startIdx < 0 then TA_RetCode.TA_OUT_OF_RANGE_START_INDEX
          else if endIdx < 0 ∨ endIdx < startIdx then TA_RetCode.TA_OUT_OF_RANGE_END_INDEX
          else if inReal.isNone ∨
              ¬ (optIn = TA_INTEGER_DEFAULT ∨ (2 ≤ optIn ∧ optIn ≤ 100000)) ∨
              outReal.isNone then TA_RetCode.TA_BAD_PARAM
          else TA_RetCode.TA_SUCCESS) ∧
      ((TA_TSF startIdx endIdx inReal optIn ob nb outReal).map TSF_Result.retCode =
          some TA_RetCode.TA_SUCCESS ↔
        (0 ≤ startIdx ∧ startIdx ≤ endIdx ∧ inReal.isSome ∧ outReal.isSome ∧
          (optIn = TA_INTEGER_DEFAULT ∨ (2 ≤ optIn ∧ optIn ≤ 100000)))) := by
  have key : (TA_TSF startIdx endIdx inReal optIn ob nb outReal).map TSF_Result.retCode =
        some (if startIdx < 0 then TA_RetCode.TA_OUT_OF_RANGE_START_INDEX
          else if endIdx < 0 ∨ endIdx < startIdx then TA_RetCode.TA_OUT_OF_RANGE_END_INDEX
          else if inReal.isNone ∨
              ¬ (optIn = TA_INTEGER_DEFAULT ∨ (2 ≤ optIn ∧ optIn ≤ 100000)) ∨
              outReal.isNone then TA_RetCode.TA_BAD_PARAM
          else TA_RetCode.TA_SUCCESS) := by
    by_cases c1 : startIdx < 0
    · simp [TA_TSF, c1]
    by_cases c2 : endIdx < 0 ∨ endIdx < startIdx
    · simp [TA_TSF, c1, c2]
    cases inReal with
    | none => simp [TA_TSF, c1, c2]
    | some inR =>
      by_cases c3 : optIn = TA_INTEGER_DEFAULT ∨ (2 ≤ optIn ∧ optIn ≤ 100000)
      · cases outReal with
        | none =>
          rw [TA_TSF_eq_body startIdx endIdx inR optIn ob nb none (by omega) (by omega) c3]
          simp [TA_TSF_body, c1, c2, c3]
        | some outR =>
          by_cases hS : TSF_firstBar startIdx optIn ≤ endIdx
          · rw [TA_TSF_eq_of_accepted startIdx endIdx inR optIn ob nb outR (by omega) (by omega)
              c3 hS]
            simp [c1, c2, c3]
          · rw [TA_TSF_eq_of_empty startIdx endIdx inR optIn ob nb outR (by omega) (by omega)
              c3 (by omega)]
            simp [c1, c2, c3]
      · have c3a : ¬ (optIn = TA_INTEGER_DEFAULT) := fun h => c3 (Or.inl h)
        have c3b : optIn < 2 ∨ optIn > 100000 := by
          by_contra h; exact c3 (Or.inr (by omega))
        have c3c : ((some inR).isNone = true ∨
            ¬ (optIn = TA_INTEGER_DEFAULT ∨ (2 ≤ optIn ∧ optIn ≤ 100000)) ∨
            outReal.isNone = true) := Or.inr (Or.inl c3)
        have lhs : (TA_TSF startIdx endIdx (some inR) optIn ob nb outReal).map
            TSF_Result.retCode = some TA_RetCode.TA_BAD_PARAM := by
          simp only [TA_TSF, c1, c2, if_false]
          rw [if_neg c3a, if_pos c3b]
          rfl
        rw [lhs, if_neg c1, if_neg c2, if_pos c3c]
  refine ⟨key, ?_⟩
  rw [key]
  by_cases c1 : startIdx < 0
  · simp [c1]
  by_cases c2 : endIdx < 0 ∨ endIdx < startIdx
  · simp only [c1, c2, if_false, if_true]
    constructor
    · intro h; simp at h
    · intro h; omega
  by_cases c3 : inReal.isNone ∨
      ¬ (optIn = TA_INTEGER_DEFAULT ∨ (2 ≤ optIn ∧ optIn ≤ 100000)) ∨ outReal.isNone
  · simp only [c1, c2, c3, if_false, if_true]
    constructor
    · intro h; simp at h
    · rintro ⟨-, -, h3, h4, h5⟩
      rcases c3 with c | c | c
      · simp [Option.isNone_iff_eq_none] at c; simp [c] at h3
      · exact absurd h5 c
      · simp [Option.isNone_iff_eq_none] at c; simp [c] at h4
  · simp only [c1, c2, c3, if_false, true_iff]
    push_neg at c3
    obtain ⟨h3, h5, h4⟩ := c3
    refine ⟨by omega, by omega, ?_, ?_, h5⟩
    · cases inReal <;> simp_all
    · cases outReal <;> simp_all

/-- C4: on a call `TA_TSF` accepts, with `p` the effective period and
`S = max(startIdx, p-1)`: if `S > endIdx` the call returns `TA_SUCCESS`, sets
`outBegIdx` and `outNbElement` to 0 and leaves `outReal` as it was; otherwise it
returns `TA_SUCCESS` with `outBegIdx = S`, `outNbElement = endIdx - S + 1`, and
of the cells of `outReal` exactly `0 .. endIdx-S` are written, cell `k` with the
forecast computed for bar `S+k`. -/
theorem TA_TSF_output_range (startIdx endIdx : Int) (inReal : Int → ℚ) (optIn : Int)
    (ob nb : Int) (outReal : Int → ℚ)
    (h0 : 0 ≤ startIdx) (h1 : startIdx ≤ endIdx)
    (hp : optIn = TA_INTEGER_DEFAULT ∨ (2 ≤ optIn ∧ optIn ≤ 100000)) :
    ∃ r, TA_TSF startIdx endIdx (some inReal) optIn ob nb (some outReal) = some r ∧
      r.retCode = TA_RetCode.TA_SUCCESS ∧
      (TSF_firstBar startIdx optIn > endIdx →
        r.outBegIdx = 0 ∧ r.outNbElement = 0 ∧ r.outReal = some outReal) ∧
      (TSF_firstBar startIdx optIn ≤ endIdx →
        r.outBegIdx = TSF_firstBar startIdx optIn ∧
        r.outNbElement = endIdx - TSF_firstBar startIdx optIn + 1 ∧
        ∃ out, r.outReal = some out ∧
          (∀ k, 0 ≤ k → k ≤ endIdx - TSF_firstBar startIdx optIn →
            out k = TSF_forecast inReal (TSF_period optIn) (TSF_firstBar startIdx optIn + k)) ∧
          (∀ k, k < 0 ∨ endIdx - TSF_firstBar startIdx optIn < k → out k = outReal k)) := by
  by_cases hS : TSF_firstBar startIdx optIn ≤ endIdx
  · refine ⟨_, TA_TSF_eq_of_accepted startIdx endIdx inReal optIn ob nb outReal h0 h1 hp hS,
      rfl, fun h => absurd hS (by omega), fun _ => ⟨rfl, rfl, _, rfl, ?_, ?_⟩⟩
    · intro k hk0 hk1
      simp [hk0, hk1]
    · intro k hk
      have : ¬ (0 ≤ k ∧ k ≤ endIdx - TSF_firstBar startIdx optIn) := by omega
      simp [this]
  · exact ⟨_, TA_TSF_eq_of_empty startIdx endIdx inReal optIn ob nb outReal h0 h1 hp
      (by omega), rfl, fun _ => ⟨rfl, rfl, rfl⟩, fun h => absurd h hS⟩

/-- Witness of C4: a call with period 3 over bars `0..3` of the series `3*i+1`
evaluates the bars 2 and 3. -/
theorem TA_TSF_output_range_witness :
    ∃ r, TA_TSF 0 3 (some (fun i => (i : ℚ) * 3 + 1)) 3 7 7 (some (fun _ => 0)) = some r ∧
      r.retCode = TA_RetCode.TA_SUCCESS ∧
      r.outBegIdx = TSF_firstBar 0 3 ∧
      r.outNbElement = 3 - TSF_firstBar 0 3 + 1 ∧
      ∃ out, r.outReal = some out ∧
        (∀ k, 0 ≤ k → k ≤ 3 - TSF_firstBar 0 3 →
          out k = TSF_forecast (fun i => (i : ℚ) * 3 + 1) (TSF_period 3)
            (TSF_firstBar 0 3 + k)) ∧
        (∀ k, k < 0 ∨ 3 - TSF_firstBar 0 3 < k → out k = (fun _ => (0 : ℚ)) k) :=
  match TA_TSF_output_range 0 3 (fun i => (i : ℚ) * 3 + 1) 3 7 7 (fun _ => 0) (by decide)
      (by decide) (Or.inr (by decide)) with
  | ⟨r, h1, h2, _, h4⟩ => ⟨r, h1, h2, (h4 (by decide)).1, (h4 (by decide)).2.1,
      (h4 (by decide)).2.2⟩

/-! ### The forecast is the least-squares line, one bar ahead -/

theorem sum_range_cast (n : Nat) :
    (∑ j ∈ Finset.range n, (j : ℚ)) = (n : ℚ) * ((n : ℚ) - 1) / 2 := by
  induction n with
  | zero => simp
  | succ k ih => rw [Finset.sum_range_succ, ih]; push_cast; ring

theorem sum_range_cast_sq (n : Nat) :
    (∑ j ∈ Finset.range n, (j : ℚ) ^ 2)
      = (n : ℚ) * ((n : ℚ) - 1) * (2 * (n : ℚ) - 1) / 6 := by
  induction n with
  | zero => simp
  | succ k ih => rw [Finset.sum_range_succ, ih]; push_cast; ring

theorem six_mul_sum_range_sq (n : Nat) :
    (n : Int) * ((n : Int) - 1) * (2 * (n : Int) - 1)
      = 6 * ∑ j ∈ Finset.range n, (j : Int) ^ 2 := by
  induction n with
  | zero => simp
  | succ k ih => rw [Finset.sum_range_succ, mul_add, ← ih]; push_cast; ring

/-- `SumX` is the sum of the abscissas `0..p-1`. -/
theorem TSF_SumX_eq (n : Nat) : TSF_SumX (n : Int) = ∑ j ∈ Finset.range n, (j : ℚ) := by
  rw [sum_range_cast]
  unfold TSF_SumX
  push_cast
  ring

/-- `SumXSqr` is the sum of the squared abscissas `0..p-1`: the integer division
by 6 leaves no remainder. -/
theorem TSF_SumXSqr_eq (n : Nat) :
    TSF_SumXSqr (n : Int) = ∑ j ∈ Finset.range n, (j : ℚ) ^ 2 := by
  unfold TSF_SumXSqr
  rw [six_mul_sum_range_sq, Int.mul_tdiv_cancel_left _ (by decide)]
  push_cast
  rfl

/-- The two running sums of the inner loop of `TA_TSF`. -/
theorem TSF_sums_eq (inReal : Int → ℚ) (today : Int) :
    ∀ (n : Nat) (a c : ℚ),
      TSF_sums inReal today n (a, c) =
        (a + ∑ i ∈ Finset.range n, inReal (today - (i : Int)),
         c + ∑ i ∈ Finset.range n, (i : ℚ) * inReal (today - (i : Int))) := by
  intro n
  induction n with
  | zero => intro a c; simp [TSF_sums]
  | succ k ih =>
    intro a c
    simp only [TSF_sums, ih, Finset.sum_range_succ]
    ext <;> simp only <;> ring

/-- If the residuals of the line `(m, b)` sum to zero, plainly and weighted by the
abscissa, then the squared error of any other line exceeds that of `(m, b)` by
the squared distance between the two lines. -/
theorem squaredError_decomp (n : Nat) (y : ℕ → ℚ) (m b m' b' : ℚ)
    (hN1 : ∑ j ∈ Finset.range n, (y j - (b + m * j)) = 0)
    (hN2 : ∑ j ∈ Finset.range n, (j : ℚ) * (y j - (b + m * j)) = 0) :
    ∑ j ∈ Finset.range n, (y j - (b' + m' * j)) ^ 2 =
      ∑ j ∈ Finset.range n, (y j - (b + m * j)) ^ 2 +
        ∑ j ∈ Finset.range n, ((b - b') + (m - m') * j) ^ 2 := by
  have h : ∀ j : ℕ, (y j - (b' + m' * j)) ^ 2 =
      (y j - (b + m * j)) ^ 2 + ((b - b') + (m - m') * j) ^ 2
        + (2 * (b - b')) * (y j - (b + m * j))
        + (2 * (m - m')) * ((j : ℚ) * (y j - (b + m * j))) := by
    intro j; ring
  simp only [h, Finset.sum_add_distrib, ← Finset.mul_sum, hN1, hN2]
  ring

/-- The slope and intercept `TA_TSF` computes satisfy the normal equations of the
least-squares problem.  `SumXY` weights the bars from the newest (weight 0) to
the oldest (weight `n-1`), the reverse of the abscissas. -/
theorem TSF_normal_equations (n : Nat) (hn : 2 ≤ n) (y : ℕ → ℚ)
    (SumX SumXSqr SumY SumXY : ℚ)
    (hSx : SumX = ∑ j ∈ Finset.range n, (j : ℚ))
    (hSxx : SumXSqr = ∑ j ∈ Finset.range n, (j : ℚ) ^ 2)
    (hSy : SumY = ∑ j ∈ Finset.range n, y j)
    (hSxy : SumXY = ∑ j ∈ Finset.range n, ((n : ℚ) - 1 - j) * y j)
    (m b : ℚ)
    (hmdef : m = ((n : ℚ) * SumXY - SumX * SumY) / (SumX * SumX - n * SumXSqr))
    (hbdef : b = (SumY - m * SumX) / n) :
    ∑ j ∈ Finset.range n, (y j - (b + m * j)) = 0 ∧
    ∑ j ∈ Finset.range n, (j : ℚ) * (y j - (b + m * j)) = 0 := by
  have hn2 : (2 : ℚ) ≤ n := by exact_mod_cast hn
  have hn0 : (n : ℚ) ≠ 0 := by linarith
  have hSx' : SumX = (n : ℚ) * ((n : ℚ) - 1) / 2 := by rw [hSx, sum_range_cast]
  have hSxx' : SumXSqr = (n : ℚ) * ((n : ℚ) - 1) * (2 * (n : ℚ) - 1) / 6 := by
    rw [hSxx, sum_range_cast_sq]
  have hD : SumX * SumX - n * SumXSqr = -((n : ℚ) ^ 2 * ((n : ℚ) ^ 2 - 1) / 12) := by
    rw [hSx', hSxx']; ring
  have hD0 : SumX * SumX - n * SumXSqr ≠ 0 := by
    rw [hD]
    have : (0 : ℚ) < (n : ℚ) ^ 2 * ((n : ℚ) ^ 2 - 1) / 12 := by
      have h1 : (0 : ℚ) < (n : ℚ) ^ 2 := by positivity
      have h2 : (0 : ℚ) < (n : ℚ) ^ 2 - 1 := by nlinarith
      positivity
    linarith
  have hm : m * (SumX * SumX - n * SumXSqr) = (n : ℚ) * SumXY - SumX * SumY := by
    rw [hmdef]; exact div_mul_cancel₀ _ hD0
  have hb : b * n = SumY - m * SumX := by
    rw [hbdef]; exact div_mul_cancel₀ _ hn0
  have e1 : ∑ j ∈ Finset.range n, (y j - (b + m * j)) = SumY - n * b - m * SumX := by
    rw [hSy, hSx]
    simp only [Finset.sum_sub_distrib, Finset.sum_add_distrib, Finset.sum_const,
      Finset.card_range, nsmul_eq_mul, ← Finset.mul_sum]
    ring
  have hxy : SumXY = ((n : ℚ) - 1) * SumY - ∑ j ∈ Finset.range n, (j : ℚ) * y j := by
    rw [hSxy, hSy, Finset.mul_sum, ← Finset.sum_sub_distrib]
    apply Finset.sum_congr rfl
    intro j _; ring
  have e2 : ∑ j ∈ Finset.range n, (j : ℚ) * (y j - (b + m * j))
      = (∑ j ∈ Finset.range n, (j : ℚ) * y j) - b * SumX - m * SumXSqr := by
    rw [hSx, hSxx, Finset.mul_sum, Finset.mul_sum, ← Finset.sum_sub_distrib,
      ← Finset.sum_sub_distrib]
    apply Finset.sum_congr rfl
    intro j _; ring
  constructor
  · rw [e1]; linear_combination (-1 : ℚ) * hb
  · rw [e2]
    have : (n : ℚ) * ((∑ j ∈ Finset.range n, (j : ℚ) * y j) - b * SumX - m * SumXSqr) = 0 := by
      linear_combination (-SumX) * hb + hm + (n : ℚ) * hxy - (2 * SumY) * hSx'
    rcases mul_eq_zero.mp this with h | h
    · exact absurd h hn0
    · exact h

/-- For a period `p >= 2` the value `TA_TSF` computes for bar `t` is `b + m*p`
for the one least-squares line `y = b + m*x` through the `p` bars up to `t`. -/
theorem TSF_forecast_least_squares (inReal : Int → ℚ) (p t : Int) (hp : 2 ≤ p) :
    ∃ m b : ℚ, IsLeastSquaresLine inReal p t m b ∧
      (∀ m' b' : ℚ, IsLeastSquaresLine inReal p t m' b' → m' = m ∧ b' = b) ∧
      TSF_forecast inReal p t = b + m * (p : ℚ) := by
  obtain ⟨n, rfl⟩ : ∃ n : Nat, p = (n : Int) := ⟨p.toNat, by omega⟩
  have hn : 2 ≤ n := by omega
  set y : ℕ → ℚ := fun j => inReal (t - (n : Int) + 1 + (j : Int)) with hy
  set SumY := (TSF_sums inReal t n (0, 0)).1 with hSumY
  set SumXY := (TSF_sums inReal t n (0, 0)).2 with hSumXY
  set m : ℚ := (((n : Int) : ℚ) * SumXY - TSF_SumX n * SumY) / TSF_Divisor n with hm
  set b : ℚ := (SumY - m * TSF_SumX n) / ((n : Int) : ℚ) with hb
  have hSy : SumY = ∑ j ∈ Finset.range n, y j := by
    rw [hSumY, TSF_sums_eq, ← Finset.sum_range_reflect y n]
    simp only [zero_add]
    apply Finset.sum_congr rfl
    intro i hi
    have hi' : i < n := Finset.mem_range.mp hi
    simp only [hy]
    congr 1
    omega
  have hSxy : SumXY = ∑ j ∈ Finset.range n, ((n : ℚ) - 1 - j) * y j := by
    rw [hSumXY, TSF_sums_eq, ← Finset.sum_range_reflect (fun j => ((n : ℚ) - 1 - j) * y j) n]
    simp only [zero_add]
    apply Finset.sum_congr rfl
    intro i hi
    have hi' : i < n := Finset.mem_range.mp hi
    have hc : ((n - 1 - i : ℕ) : ℚ) = (n : ℚ) - 1 - i := by
      rw [Nat.cast_sub (by omega), Nat.cast_sub (by omega)]
      simp
    simp only [hy, hc]
    have e : t - (n : Int) + 1 + ((n - 1 - i : ℕ) : Int) = t - (i : Int) := by omega
    rw [e]
    ring
  have hN := TSF_normal_equations n hn y (TSF_SumX n) (TSF_SumXSqr n) SumY SumXY
    (TSF_SumX_eq n) (TSF_SumXSqr_eq n) hSy hSxy m b
    (by rw [hm]; unfold TSF_Divisor; push_cast; rfl) (by rw [hb]; push_cast; rfl)
  have hdec : ∀ m' b' : ℚ, TSF_squaredError inReal n t m' b' =
      TSF_squaredError inReal n t m b
        + ∑ j ∈ Finset.range n, ((b - b') + (m - m') * j) ^ 2 := by
    intro m' b'
    unfold TSF_squaredError
    simp only [Int.toNat_ofNat]
    exact squaredError_decomp n y m b m' b' hN.1 hN.2
  refine ⟨m, b, ?_, ?_, ?_⟩
  · intro m' b'
    rw [hdec m' b']
    have : 0 ≤ ∑ j ∈ Finset.range n, ((b - b') + (m - m') * (j : ℚ)) ^ 2 :=
      Finset.sum_nonneg (fun j _ => sq_nonneg _)
    linarith
  · intro m' b' h
    have h1 := h m b
    rw [hdec m' b'] at h1
    have h2 : ∑ j ∈ Finset.range n, ((b - b') + (m - m') * (j : ℚ)) ^ 2 = 0 :=
      le_antisymm (by linarith) (Finset.sum_nonneg (fun j _ => sq_nonneg _))
    have h3 := (Finset.sum_eq_zero_iff_of_nonneg (fun j _ => sq_nonneg _)).mp h2
    have e0 := h3 0 (Finset.mem_range.mpr (by omega))
    have e1 := h3 1 (Finset.mem_range.mpr (by omega))
    simp only [Nat.cast_zero, mul_zero, add_zero, Nat.cast_one, mul_one] at e0 e1
    have e0' : b - b' = 0 := pow_eq_zero_iff (two_ne_zero) |>.mp e0
    have e1' : b - b' + (m - m') = 0 := pow_eq_zero_iff (two_ne_zero) |>.mp e1
    constructor <;> linarith
  · unfold TSF_forecast
    simp only [Int.toNat_ofNat]

/-- C1: `TA_TSF` returns `b + m*period` of the least-squares line.  On every
accepted call with `p` the effective period (14 for the default),
`S = max(startIdx, p-1) <= endIdx` and every `k` in `0..endIdx-S`, with
`t = S+k`: there is exactly one straight line `y = b + m*x` with the least sum of
squared distances to the `p` points `(j, inReal[t-p+1+j])`, `j = 0..p-1`, and
`outReal[k] = b + m*p`, that line one bar past `t`. -/
theorem TA_TSF_least_squares (startIdx endIdx : Int) (inReal : Int → ℚ) (optIn : Int)
    (ob nb : Int) (outReal : Int → ℚ)
    (h0 : 0 ≤ startIdx) (h1 : startIdx ≤ endIdx)
    (hp : optIn = TA_INTEGER_DEFAULT ∨ (2 ≤ optIn ∧ optIn ≤ 100000))
    (hS : TSF_firstBar startIdx optIn ≤ endIdx) :
    ∃ r out, TA_TSF startIdx endIdx (some inReal) optIn ob nb (some outReal) = some r ∧
      r.retCode = TA_RetCode.TA_SUCCESS ∧ r.outReal = some out ∧
      ∀ k, 0 ≤ k → k ≤ endIdx - TSF_firstBar startIdx optIn →
        ∃ m b : ℚ,
          IsLeastSquaresLine inReal (TSF_period optIn) (TSF_firstBar startIdx optIn + k) m b ∧
          (∀ m' b' : ℚ,
            IsLeastSquaresLine inReal (TSF_period optIn) (TSF_firstBar startIdx optIn + k) m' b' →
              m' = m ∧ b' = b) ∧
          out k = b + m * (TSF_period optIn : ℚ) := by
  have hp2 : 2 ≤ TSF_period optIn := by
    unfold TSF_period
    split_ifs <;> omega
  refine ⟨_, _, TA_TSF_eq_of_accepted startIdx endIdx inReal optIn ob nb outReal h0 h1 hp hS,
    rfl, rfl, ?_⟩
  intro k hk0 hk1
  obtain ⟨m, b, hmin, huniq, hval⟩ :=
    TSF_forecast_least_squares inReal (TSF_period optIn) (TSF_firstBar startIdx optIn + k) hp2
  refine ⟨m, b, hmin, huniq, ?_⟩
  simp only [hk0, hk1, and_self, if_true]
  exact hval

/-- Witness of C1: period 3 over bars `0..3` of the series `3*i+1`. -/
theorem TA_TSF_least_squares_witness :
    ∃ r out, TA_TSF 0 3 (some (fun i => (i : ℚ) * 3 + 1)) 3 7 7 (some (fun _ => 0)) = some r ∧
      r.retCode = TA_RetCode.TA_SUCCESS ∧ r.outReal = some out ∧
      ∀ k, 0 ≤ k → k ≤ 3 - TSF_firstBar 0 3 →
        ∃ m b : ℚ,
          IsLeastSquaresLine (fun i => (i : ℚ) * 3 + 1) (TSF_period 3) (TSF_firstBar 0 3 + k) m b ∧
          (∀ m' b' : ℚ,
            IsLeastSquaresLine (fun i => (i : ℚ) * 3 + 1) (TSF_period 3)
              (TSF_firstBar 0 3 + k) m' b' → m' = m ∧ b' = b) ∧
          out k = b + m * (TSF_period 3 : ℚ) :=
  TA_TSF_least_squares 0 3 (fun i => (i : ℚ) * 3 + 1) 3 7 7 (fun _ => 0) (by decide) (by decide)
    (Or.inr (by decide)) (by decide)

/-- The call of the witnesses, evaluated: with period 3 over bars `0..3` of the
series `3*i+1` the forecasts for the bars after bar 2 and bar 3 are 10 and 13,
the next values of the series, and the third cell of `outReal` is untouched. -/
theorem TA_TSF_sample :
    (TA_TSF 0 3 (some (fun i => (i : ℚ) * 3 + 1)) 3 7 7 (some (fun _ => 0))).map
        (fun r => (r.retCode, r.outBegIdx, r.outNbElement,
          r.outReal.map (fun f => (f 0, f 1, f 2))))
      = some (TA_RetCode.TA_SUCCESS, 2, 2, some (10, 13, 0)) := by
  have h1 : Int.tdiv 30 6 = 5 := by decide
  simp [TA_TSF, TA_TSF_body, TA_INTEGER_DEFAULT, TA_TSF_Lookback, TSF_loop, TSF_forecast,
    TSF_sums, TSF_SumX, TSF_Divisor, TSF_SumXSqr, h1, Function.update]
  norm_num

/-! ## Properties of `TA_CDLLADDERBOTTOM` -/

/-- With at least `startIdx - i` passes allowed, the loop that adds up the initial
period finishes, having added the ranges of the candles `i-1 .. startIdx-2`. -/
theorem CDLLADDERBOTTOM_initialTotal_eq (set : TA_CandleSetting) (c : TA_Candles)
    (startIdx : Int) :
    ∀ (fuel : Nat) (i : Int) (total : ℚ), startIdx - i ≤ (fuel : Int) →
      CDLLADDERBOTTOM_initialTotal set c startIdx fuel i total =
        some (total + ∑ t ∈ Finset.range (startIdx - i).toNat,
          TA_CANDLERANGE set c (i - 1 + (t : Int))) := by
  intro fuel
  induction fuel with
  | zero =>
    intro i total h
    have h1 : ¬ i < startIdx := by simp at h; omega
    have h2 : (startIdx - i).toNat = 0 := by omega
    unfold CDLLADDERBOTTOM_initialTotal
    simp [h1, h2]
  | succ n ih =>
    intro i total h
    unfold CDLLADDERBOTTOM_initialTotal
    by_cases h1 : i < startIdx
    · simp only [h1, if_true]
      rw [ih (i + 1) _ (by push_cast at h; omega)]
      have h2 : (startIdx - i).toNat = (startIdx - (i + 1)).toNat + 1 := by omega
      rw [h2, Finset.sum_range_succ']
      congr 1
      have : ∀ t : ℕ, i + 1 - 1 + (t : Int) = i - 1 + ((t + 1 : ℕ) : Int) := by
        intro t; push_cast; ring
      simp only [this, Nat.cast_zero, add_zero]
      ring
    · have h2 : (startIdx - i).toNat = 0 := by omega
      simp [h1, h2]

/-- With at least `endIdx + 1 - i` passes allowed, the main loop of
`TA_CDLLADDERBOTTOM` finishes: it has advanced `outIdx` by the number of bars
`i..endIdx` and stored in cell `outIdx + j` the outcome of the test for bar `i+j`
with the running total of that pass, leaving every other cell as it was. -/
theorem CDLLADDERBOTTOM_loop_eq (set : TA_CandleSetting) (c : TA_Candles) (endIdx : Int) :
    ∀ (fuel : Nat) (i outIdx : Int) (total : ℚ) (trail : Int) (out : Int → Int),
      i ≤ endIdx → endIdx + 1 - i ≤ (fuel : Int) →
      CDLLADDERBOTTOM_loop set c endIdx fuel i outIdx total trail out =
        some (outIdx + (endIdx + 1 - i),
          fun k => if outIdx ≤ k ∧ k < outIdx + (endIdx + 1 - i)
            then (if CDLLADDERBOTTOM_test set c
                (CDL_totalAfter set c (k - outIdx).toNat i trail total) (i + (k - outIdx))
              then 100 else 0)
            else out k) := by
  intro fuel
  induction fuel with
  | zero =>
    intro i outIdx total trail out h1 h2
    simp at h2
    omega
  | succ n ih =>
    intro i outIdx total trail out h1 h2
    unfold CDLLADDERBOTTOM_loop
    by_cases h3 : i + 1 ≤ endIdx
    · simp only [h3, if_true]
      rw [ih (i + 1) (outIdx + 1) _ (trail + 1) _ h3 (by push_cast at h2; omega)]
      have e1 : outIdx + 1 + (endIdx + 1 - (i + 1)) = outIdx + (endIdx + 1 - i) := by ring
      rw [e1]
      congr 2
      funext k
      by_cases hk : k = outIdx
      · subst hk
        have c1 : ¬ (k + 1 ≤ k ∧ k < k + (endIdx + 1 - i)) := by omega
        have c2 : k ≤ k ∧ k < k + (endIdx + 1 - i) := by omega
        simp [c1, c2, CDL_totalAfter]
      · by_cases hc : outIdx ≤ k ∧ k < outIdx + (endIdx + 1 - i)
        · have c1 : outIdx + 1 ≤ k ∧ k < outIdx + (endIdx + 1 - i) := by omega
          have e2 : i + 1 + (k - (outIdx + 1)) = i + (k - outIdx) := by ring
          have e3 : (k - outIdx).toNat = (k - (outIdx + 1)).toNat + 1 := by omega
          simp only [hc, c1, and_self, if_true, e2, e3, CDL_totalAfter]
        · have c1 : ¬ (outIdx + 1 ≤ k ∧ k < outIdx + (endIdx + 1 - i)) := by omega
          simp only [hc, c1, if_false, Function.update_noteq hk]
    · have e0 : endIdx = i := by omega
      subst e0
      simp only [h3, if_false]
      have e1 : outIdx + (endIdx + 1 - endIdx) = outIdx + 1 := by ring
      rw [e1]
      congr 2
      funext k
      by_cases hk : k = outIdx
      · subst hk
        have c2 : k ≤ k ∧ k < k + 1 := by omega
        simp [c2, CDL_totalAfter]
      · have c1 : ¬ (outIdx ≤ k ∧ k < outIdx + 1) := by omega
        simp only [c1, if_false, Function.update_noteq hk]

/-- One pass of the main loop slides the window of the period total by one
candle. -/
theorem CDL_periodTotal_succ (set : TA_CandleSetting) (c : TA_Candles) (idx : Int)
    (hA : 0 ≤ set.avgPeriod) :
    CDL_periodTotal set c idx
        + (TA_CANDLERANGE set c idx - TA_CANDLERANGE set c (idx - set.avgPeriod))
      = CDL_periodTotal set c (idx + 1) := by
  unfold CDL_periodTotal
  have h1 : ∑ t ∈ Finset.range set.avgPeriod.toNat,
        TA_CANDLERANGE set c (idx - set.avgPeriod + (t : Int)) + TA_CANDLERANGE set c idx
      = ∑ t ∈ Finset.range (set.avgPeriod.toNat + 1),
        TA_CANDLERANGE set c (idx - set.avgPeriod + (t : Int)) := by
    rw [Finset.sum_range_succ]
    congr 2
    omega
  have h2 : ∑ t ∈ Finset.range (set.avgPeriod.toNat + 1),
        TA_CANDLERANGE set c (idx - set.avgPeriod + (t : Int))
      = ∑ t ∈ Finset.range set.avgPeriod.toNat,
          TA_CANDLERANGE set c (idx + 1 - set.avgPeriod + (t : Int))
        + TA_CANDLERANGE set c (idx - set.avgPeriod) := by
    rw [Finset.sum_range_succ']
    congr 1
    · apply Finset.sum_congr rfl
      intro t _
      congr 1
      push_cast
      ring
    · simp
  linarith

/-- While the main loop runs, the running total is the sum of the ranges of the
candles of the averaging period before the fourth candle `i-1`. -/
theorem CDL_totalAfter_eq (set : TA_CandleSetting) (c : TA_Candles)
    (hA : 0 ≤ set.avgPeriod) :
    ∀ (n : Nat) (i : Int),
      CDL_totalAfter set c n i (i - set.avgPeriod) (CDL_periodTotal set c (i - 1))
        = CDL_periodTotal set c (i + (n : Int) - 1) := by
  intro n
  induction n with
  | zero => intro i; simp [CDL_totalAfter]
  | succ k ih =>
    intro i
    unfold CDL_totalAfter
    have e1 : i - set.avgPeriod - 1 = i - 1 - set.avgPeriod := by ring
    have e2 : i - set.avgPeriod + 1 = i + 1 - set.avgPeriod := by ring
    have e3 : i - 1 + 1 = i + 1 - 1 := by ring
    rw [e1, CDL_periodTotal_succ set c (i - 1) hA, e2, e3, ih (i + 1)]
    congr 1
    push_cast
    ring

/-- The whole of `TA_CDLLADDERBOTTOM` on a call it accepts with something to
evaluate. -/
theorem TA_CDLLADDERBOTTOM_eq_of_accepted (set : TA_CandleSetting) (startIdx endIdx : Int)
    (inOpen inHigh inLow inClose : Int → ℚ) (ob nb : Int) (outInteger : Int → Int)
    (h0 : 0 ≤ startIdx) (h1 : startIdx ≤ endIdx) (hS : CDL_firstBar set startIdx ≤ endIdx) :
    TA_CDLLADDERBOTTOM set startIdx endIdx (some inOpen) (some inHigh) (some inLow)
        (some inClose) ob nb (some outInteger) =
      some ⟨.TA_SUCCESS, CDL_firstBar set startIdx, endIdx - CDL_firstBar set startIdx + 1,
        some (fun k => if 0 ≤ k ∧ k ≤ endIdx - CDL_firstBar set startIdx
          then (if CDLLADDERBOTTOM_test set ⟨inOpen, inHigh, inLow, inClose⟩
              (CDL_totalAfter set ⟨inOpen, inHigh, inLow, inClose⟩ k.toNat
                (CDL_firstBar set startIdx) (CDL_firstBar set startIdx - set.avgPeriod)
                (CDL_periodTotal set ⟨inOpen, inHigh, inLow, inClose⟩
                  (CDL_firstBar set startIdx - 1)))
              (CDL_firstBar set startIdx + k) then 100 else 0)
          else outInteger k)⟩ := by
  have hst : (if startIdx < set.avgPeriod + 4 then set.avgPeriod + 4 else startIdx)
      = CDL_firstBar set startIdx := by
    unfold CDL_firstBar
    split_ifs <;> omega
  have c1 : ¬ startIdx < 0 := by omega
  have c2 : ¬ (endIdx < 0 ∨ endIdx < startIdx) := by omega
  have c4 : ¬ CDL_firstBar set startIdx > endIdx := by omega
  unfold TA_CDLLADDERBOTTOM
  simp only [c1, c2, if_false, TA_CDLLADDERBOTTOM_Lookback, TA_CANDLEAVGPERIOD, hst, c4]
  rw [CDLLADDERBOTTOM_initialTotal_eq set _ _ _ _ _ (by omega)]
  simp only
  rw [CDLLADDERBOTTOM_loop_eq set _ endIdx _ _ _ _ _ _ hS (by omega)]
  have e1 : (CDL_firstBar set startIdx - (CDL_firstBar set startIdx - set.avgPeriod)).toNat
      = set.avgPeriod.toNat := by
    congr 1; ring
  have e2 : (0 : ℚ) + ∑ t ∈ Finset.range set.avgPeriod.toNat,
        TA_CANDLERANGE set ⟨inOpen, inHigh, inLow, inClose⟩
          (CDL_firstBar set startIdx - set.avgPeriod - 1 + (t : Int))
      = CDL_periodTotal set ⟨inOpen, inHigh, inLow, inClose⟩
          (CDL_firstBar set startIdx - 1) := by
    unfold CDL_periodTotal
    rw [zero_add]
    apply Finset.sum_congr rfl
    intro t _
    congr 1
    ring
  simp only [e1, e2]
  have e3 : (0 : Int) + (endIdx + 1 - CDL_firstBar set startIdx)
      = endIdx - CDL_firstBar set startIdx + 1 := by ring
  rw [e3]
  congr 3
  funext k
  have : (0 ≤ k ∧ k < endIdx - CDL_firstBar set startIdx + 1)
      ↔ (0 ≤ k ∧ k ≤ endIdx - CDL_firstBar set startIdx) := by omega
  simp only [this, sub_zero, zero_add]

/-- The whole of `TA_CDLLADDERBOTTOM` on a call it accepts with nothing to
evaluate. -/
theorem TA_CDLLADDERBOTTOM_eq_of_empty (set : TA_CandleSetting) (startIdx endIdx : Int)
    (inOpen inHigh inLow inClose : Int → ℚ) (ob nb : Int) (outInteger : Int → Int)
    (h0 : 0 ≤ startIdx) (h1 : startIdx ≤ endIdx) (hS : endIdx < CDL_firstBar set startIdx) :
    TA_CDLLADDERBOTTOM set startIdx endIdx (some inOpen) (some inHigh) (some inLow)
        (some inClose) ob nb (some outInteger) =
      some ⟨.TA_SUCCESS, 0, 0, some outInteger⟩ := by
  have hst : (if startIdx < set.avgPeriod + 4 then set.avgPeriod + 4 else startIdx)
      = CDL_firstBar set startIdx := by
    unfold CDL_firstBar
    split_ifs <;> omega
  have c1 : ¬ startIdx < 0 := by omega
  have c2 : ¬ (endIdx < 0 ∨ endIdx < startIdx) := by omega
  have c4 : CDL_firstBar set startIdx > endIdx := by omega
  unfold TA_CDLLADDERBOTTOM
  simp only [c1, c2, if_false, TA_CDLLADDERBOTTOM_Lookback, TA_CANDLEAVGPERIOD, hst, c4,
    if_true]

/-- C6: ladder bottom is always bullish.  On every accepted call each element
`TA_CDLLADDERBOTTOM` writes to `outInteger`, the cells `0 .. outNbElement-1`, is
either 0 or 100, and no other cell is written. -/
theorem TA_CDLLADDERBOTTOM_zero_or_hundred (set : TA_CandleSetting) (startIdx endIdx : Int)
    (inOpen inHigh inLow inClose : Int → ℚ) (ob nb : Int) (outInteger : Int → Int)
    (h0 : 0 ≤ startIdx) (h1 : startIdx ≤ endIdx) :
    ∃ r out, TA_CDLLADDERBOTTOM set startIdx endIdx (some inOpen) (some inHigh) (some inLow)
        (some inClose) ob nb (some outInteger) = some r ∧
      r.retCode = TA_RetCode.TA_SUCCESS ∧ r.outInteger = some out ∧
      (∀ k, 0 ≤ k → k < r.outNbElement → out k = 0 ∨ out k = 100) ∧
      (∀ k, k < 0 ∨ r.outNbElement ≤ k → out k = outInteger k) := by
  by_cases hS : CDL_firstBar set startIdx ≤ endIdx
  · refine ⟨_, _, TA_CDLLADDERBOTTOM_eq_of_accepted set startIdx endIdx inOpen inHigh inLow
      inClose ob nb outInteger h0 h1 hS, rfl, rfl, ?_, ?_⟩
    · intro k hk0 hk1
      have hk2 : 0 ≤ k ∧ k ≤ endIdx - CDL_firstBar set startIdx := by
        simp only at hk1; omega
      simp only [hk2, and_self, if_true]
      split_ifs
      · right; rfl
      · left; rfl
    · intro k hk
      have hk2 : ¬ (0 ≤ k ∧ k ≤ endIdx - CDL_firstBar set startIdx) := by
        simp only at hk; omega
      simp only [hk2, if_false]
  · refine ⟨_, _, TA_CDLLADDERBOTTOM_eq_of_empty set startIdx endIdx inOpen inHigh inLow
      inClose ob nb outInteger h0 h1 (by omega), rfl, rfl, ?_, ?_⟩
    · intro k hk0 hk1
      simp only at hk1
      omega
    · intro k _
      rfl

/-- Witness of C6: the six sample candles. -/
theorem TA_CDLLADDERBOTTOM_zero_or_hundred_witness :
    ∃ r out, TA_CDLLADDERBOTTOM sampleSetting 0 5 (some sampleOpen) (some sampleHigh)
        (some sampleLow) (some sampleClose) 0 0 (some (fun _ => 7)) = some r ∧
      r.retCode = TA_RetCode.TA_SUCCESS ∧ r.outInteger = some out ∧
      (∀ k, 0 ≤ k → k < r.outNbElement → out k = 0 ∨ out k = 100) ∧
      (∀ k, k < 0 ∨ r.outNbElement ≤ k → out k = (fun _ => (7 : Int)) k) :=
  TA_CDLLADDERBOTTOM_zero_or_hundred sampleSetting 0 5 sampleOpen sampleHigh sampleLow
    sampleClose 0 0 (fun _ => 7) (by decide) (by decide)

/-- C7: `TA_CDLLADDERBOTTOM_Lookback` is `A + 4` for the averaging period `A` of
the `ShadowVeryShort` setting; and on every accepted call, with
`S = max(startIdx, A+4)`: if `S > endIdx` the call returns `TA_SUCCESS` with
`outBegIdx = 0` and `outNbElement = 0`, otherwise `TA_SUCCESS` with
`outBegIdx = S` and `outNbElement = endIdx - S + 1`. -/
theorem TA_CDLLADDERBOTTOM_output_range (set : TA_CandleSetting) (startIdx endIdx : Int)
    (inOpen inHigh inLow inClose : Int → ℚ) (ob nb : Int) (outInteger : Int → Int)
    (h0 : 0 ≤ startIdx) (h1 : startIdx ≤ endIdx) :
    TA_CDLLADDERBOTTOM_Lookback set = set.avgPeriod + 4 ∧
    ∃ r, TA_CDLLADDERBOTTOM set startIdx endIdx (some inOpen) (some inHigh) (some inLow)
        (some inClose) ob nb (some outInteger) = some r ∧
      r.retCode = TA_RetCode.TA_SUCCESS ∧
      (max startIdx (set.avgPeriod + 4) > endIdx → r.outBegIdx = 0 ∧ r.outNbElement = 0) ∧
      (max startIdx (set.avgPeriod + 4) ≤ endIdx →
        r.outBegIdx = max startIdx (set.avgPeriod + 4) ∧
        r.outNbElement = endIdx - max startIdx (set.avgPeriod + 4) + 1) := by
  refine ⟨rfl, ?_⟩
  by_cases hS : CDL_firstBar set startIdx ≤ endIdx
  · exact ⟨_, TA_CDLLADDERBOTTOM_eq_of_accepted set startIdx endIdx inOpen inHigh inLow
      inClose ob nb outInteger h0 h1 hS, rfl,
      fun h => absurd hS (not_le.mpr h), fun _ => ⟨rfl, rfl⟩⟩
  · exact ⟨_, TA_CDLLADDERBOTTOM_eq_of_empty set startIdx endIdx inOpen inHigh inLow
      inClose ob nb outInteger h0 h1 (not_le.mp hS), rfl,
      fun _ => ⟨rfl, rfl⟩, fun h => absurd h hS⟩

/-- Witness of C7: the six sample candles, asked for from bar 2 to bar 5, are
evaluated at bar 5 only. -/
theorem TA_CDLLADDERBOTTOM_output_range_witness :
    TA_CDLLADDERBOTTOM_Lookback sampleSetting = sampleSetting.avgPeriod + 4 ∧
    ∃ r, TA_CDLLADDERBOTTOM sampleSetting 2 5 (some sampleOpen) (some sampleHigh)
        (some sampleLow) (some sampleClose) 0 0 (some (fun _ => 7)) = some r ∧
      r.retCode = TA_RetCode.TA_SUCCESS ∧
      r.outBegIdx = max 2 (sampleSetting.avgPeriod + 4) ∧
      r.outNbElement = 5 - max 2 (sampleSetting.avgPeriod + 4) + 1 :=
  match TA_CDLLADDERBOTTOM_output_range sampleSetting 2 5 sampleOpen sampleHigh sampleLow
      sampleClose 0 0 (fun _ => 7) (by decide) (by decide) with
  | ⟨h0, r, h1, h2, _, h4⟩ => ⟨h0, r, h1, h2, (h4 (by decide)).1, (h4 (by decide)).2⟩

/-- C8: `TA_CDLLADDERBOTTOM` returns `TA_OUT_OF_RANGE_START_INDEX` if
`startIdx < 0`; otherwise `TA_OUT_OF_RANGE_END_INDEX` if `endIdx < 0` or
`endIdx < startIdx`; otherwise `TA_BAD_PARAM` if any of `inOpen`, `inHigh`,
`inLow`, `inClose` or `outInteger` is null; and `TA_SUCCESS` in every remaining
case. -/
theorem TA_CDLLADDERBOTTOM_retCode (set : TA_CandleSetting) (startIdx endIdx : Int)
    (inOpen inHigh inLow inClose : Option (Int → ℚ)) (ob nb : Int)
    (outInteger : Option (Int → Int)) :
    (TA_CDLLADDERBOTTOM set startIdx endIdx inOpen inHigh inLow inClose ob nb outInteger).map
        CDL_Result.retCode =
      some (if startIdx < 0 then TA_RetCode.TA_OUT_OF_RANGE_START_INDEX
        else if endIdx < 0 ∨ endIdx < startIdx then TA_RetCode.TA_OUT_OF_RANGE_END_INDEX
        else if inOpen.isNone ∨ inHigh.isNone ∨ inLow.isNone ∨ inClose.isNone ∨
            outInteger.isNone then TA_RetCode.TA_BAD_PARAM
        else TA_RetCode.TA_SUCCESS) := by
  by_cases c1 : startIdx < 0
  · simp [TA_CDLLADDERBOTTOM, c1]
  by_cases c2 : endIdx < 0 ∨ endIdx < startIdx
  · simp [TA_CDLLADDERBOTTOM, c1, c2]
  rw [if_neg c1, if_neg c2]
  cases inOpen with
  | none => simp [TA_CDLLADDERBOTTOM, c1, c2]
  | some o =>
  cases inHigh with
  | none => simp [TA_CDLLADDERBOTTOM, c1, c2]
  | some h =>
  cases inLow with
  | none => simp [TA_CDLLADDERBOTTOM, c1, c2]
  | some l =>
  cases inClose with
  | none => simp [TA_CDLLADDERBOTTOM, c1, c2]
  | some cl =>
  cases outInteger with
  | none => simp [TA_CDLLADDERBOTTOM, c1, c2]
  | some out =>
    by_cases hS : CDL_firstBar set startIdx ≤ endIdx
    · rw [TA_CDLLADDERBOTTOM_eq_of_accepted set startIdx endIdx o h l cl ob nb out
        (by omega) (by omega) hS]
      simp
    · rw [TA_CDLLADDERBOTTOM_eq_of_empty set startIdx endIdx o h l cl ob nb out
        (by omega) (by omega) (by omega)]
      simp

/-- The call of the witnesses, evaluated: the six sample candles end in a ladder
bottom at bar 5, the only bar evaluated; the second cell of `outInteger` is
untouched. -/
theorem TA_CDLLADDERBOTTOM_sample :
    (TA_CDLLADDERBOTTOM sampleSetting 0 5 (some sampleOpen) (some sampleHigh) (some sampleLow)
        (some sampleClose) 0 0 (some (fun _ => 7))).map
      (fun r => (r.retCode, r.outBegIdx, r.outNbElement,
        r.outInteger.map (fun f => (f 0, f 1))))
    = some (TA_RetCode.TA_SUCCESS, 5, 1, some (100, 7)) := by
  simp [TA_CDLLADDERBOTTOM, TA_CDLLADDERBOTTOM_Lookback, CDLLADDERBOTTOM_initialTotal,
    CDLLADDERBOTTOM_loop, CDLLADDERBOTTOM_test, sampleSetting, sampleOpen, sampleHigh,
    sampleLow, sampleClose, TA_UPPERSHADOW, TA_CANDLEAVERAGE, TA_CANDLEAVGPERIOD,
    TA_CANDLERANGE, TA_HIGHLOWRANGE, TA_CANDLECOLOR, Function.update]
  norm_num

/-! ## Properties of the merge of the history builder -/

theorem Merger_record_sum : ∀ (ops : List TA_MergeOp) (r : Merger_Bar),
    ((Merger_record ops r).map TA_MergeOp.nbElementToCopy).sum
      = (ops.map TA_MergeOp.nbElementToCopy).sum + 1
  | [], r => by simp [Merger_record]
  | [op], r => by
    simp only [Merger_record]
    split_ifs <;> simp
  | op :: op' :: ops, r => by
    simp only [Merger_record, List.map_cons, List.sum_cons, Merger_record_sum (op' :: ops) r]
    omega

theorem Assembler_run_single (sources : List TA_SupportForDataSource) (r : Merger_Bar)
    (hr : r.Valid sources) :
    Assembler_run sources ⟨(r.source, r.block), r.index, 1⟩ = [r.timestamp] := by
  obtain ⟨b, hb, ht⟩ := hr
  simp only [Assembler_run, hb]
  rw [List.take_succ, List.take_zero, List.getElem?_drop, Nat.add_zero, ht]
  rfl

theorem Assembler_run_succ (sources : List TA_SupportForDataSource) (op : TA_MergeOp)
    (r : Merger_Bar) (hr : r.Valid sources)
    (h : op.srcDataBlock = (r.source, r.block) ∧
      op.srcIndexForCopy + op.nbElementToCopy = r.index) :
    Assembler_run sources ⟨op.srcDataBlock, op.srcIndexForCopy, op.nbElementToCopy + 1⟩
      = Assembler_run sources op ++ [r.timestamp] := by
  obtain ⟨b, hb, ht⟩ := hr
  simp only [Assembler_run, h.1, hb]
  rw [List.take_succ, List.getElem?_drop, h.2, ht]
  rfl

theorem Assembler_timestamps_record (sources : List TA_SupportForDataSource) :
    ∀ (ops : List TA_MergeOp) (r : Merger_Bar), r.Valid sources →
      Assembler_timestamps sources (Merger_record ops r)
        = Assembler_timestamps sources ops ++ [r.timestamp]
  | [], r, hr => by
    simp [Merger_record, Assembler_timestamps, Assembler_run_single sources r hr]
  | [op], r, hr => by
    simp only [Merger_record]
    split_ifs with h
    · simp [Assembler_timestamps, Assembler_run_succ sources op r hr h]
    · simp [Assembler_timestamps, Assembler_run_single sources r hr]
  | op :: op' :: ops, r, hr => by
    simp only [Merger_record, Assembler_timestamps,
      Assembler_timestamps_record sources (op' :: ops) r hr, List.append_assoc]



theorem Merger_select_eq_none : ∀ (cs : List (List Merger_Bar)),
    Merger_select cs = none → ∀ c ∈ cs, c = []
  | [], _ => by simp
  | c :: cs, h => by
    intro c' hc'
    cases c with
    | nil =>
      simp only [Merger_select, List.head?_nil] at h
      rcases List.mem_cons.mp hc' with h1 | h1
      · exact h1
      · exact Merger_select_eq_none cs h c' h1
    | cons r rest =>
      simp only [Merger_select, List.head?_cons] at h
      cases hs : Merger_select cs with
      | none => simp [hs] at h
      | some r' =>
        simp only [hs] at h
        split_ifs at h

theorem Merger_select_of_empty : ∀ (cs : List (List Merger_Bar)),
    (∀ c ∈ cs, c = []) → Merger_select cs = none
  | [], _ => rfl
  | c :: cs, h => by
    have hc : c = [] := h c (List.mem_cons_self _ _)
    subst hc
    simp only [Merger_select, List.head?_nil]
    exact Merger_select_of_empty cs (fun c' hc' => h c' (List.mem_cons_of_mem _ hc'))

/-- The selected bar is the bar some cursor points to, and no cursor points to an
earlier one. -/
theorem Merger_select_spec : ∀ (cs : List (List Merger_Bar)) (r : Merger_Bar),
    Merger_select cs = some r →
      (∃ c ∈ cs, c.head? = some r) ∧
      (∀ c ∈ cs, ∀ r', c.head? = some r' → r.timestamp ≤ r'.timestamp)
  | [], r, h => by simp [Merger_select] at h
  | c :: cs, r, h => by
    cases hc : c.head? with
    | none =>
      simp only [Merger_select, hc] at h
      obtain ⟨⟨c0, hc0, hh⟩, hmin⟩ := Merger_select_spec cs r h
      refine ⟨⟨c0, List.mem_cons_of_mem _ hc0, hh⟩, ?_⟩
      intro c' hc' r' hr'
      rcases List.mem_cons.mp hc' with h1 | h1
      · subst h1; rw [hc] at hr'; exact absurd hr' (by simp)
      · exact hmin c' h1 r' hr'
    | some r0 =>
      cases hs : Merger_select cs with
      | none =>
        simp only [Merger_select, hc, hs, Option.some.injEq] at h
        subst h
        refine ⟨⟨c, List.mem_cons_self _ _, hc⟩, ?_⟩
        intro c' hc' r' hr'
        rcases List.mem_cons.mp hc' with h1 | h1
        · subst h1; rw [hc] at hr'; cases hr'; exact le_refl _
        · have := Merger_select_eq_none cs hs c' h1
          subst this
          simp at hr'
      | some r1 =>
        obtain ⟨⟨c0, hc0, hh⟩, hmin⟩ := Merger_select_spec cs r1 hs
        simp only [Merger_select, hc, hs] at h
        split_ifs at h with hle
        · cases h
          refine ⟨⟨c, List.mem_cons_self _ _, hc⟩, ?_⟩
          intro c' hc' r' hr'
          rcases List.mem_cons.mp hc' with h1 | h1
          · subst h1; rw [hc] at hr'; cases hr'; exact le_refl _
          · exact le_trans hle (hmin c' h1 r' hr')
        · cases h
          refine ⟨⟨c0, List.mem_cons_of_mem _ hc0, hh⟩, ?_⟩
          intro c' hc' r' hr'
          rcases List.mem_cons.mp hc' with h1 | h1
          · subst h1; rw [hc] at hr'; cases hr'; exact le_of_lt (not_le.mp hle)
          · exact hmin c' h1 r' hr'

theorem Merger_advance_subset (t : TA_Timestamp) (c : List Merger_Bar) :
    ∀ x ∈ Merger_advance t c, x ∈ c := by
  intro x hx
  cases c with
  | nil => simp [Merger_advance] at hx
  | cons r rest =>
    simp only [Merger_advance] at hx
    split_ifs at hx
    · exact List.mem_cons_of_mem _ hx
    · exact hx

theorem Merger_advance_length_le (t : TA_Timestamp) (c : List Merger_Bar) :
    (Merger_advance t c).length ≤ c.length := by
  cases c with
  | nil => simp [Merger_advance]
  | cons r rest =>
    simp only [Merger_advance]
    split_ifs <;> simp

theorem Merger_advance_length_lt (t : TA_Timestamp) (c : List Merger_Bar) (r : Merger_Bar)
    (h : c.head? = some r) (ht : r.timestamp = t) :
    (Merger_advance t c).length < c.length := by
  cases c with
  | nil => simp at h
  | cons r0 rest =>
    simp only [List.head?_cons, Option.some.injEq] at h
    subst h
    simp [Merger_advance, ht]

theorem Merger_remaining_advance_le (t : TA_Timestamp) : ∀ (cs : List (List Merger_Bar)),
    Merger_remaining (cs.map (Merger_advance t)) ≤ Merger_remaining cs
  | [] => by simp [Merger_remaining]
  | c :: cs => by
    have h1 := Merger_advance_length_le t c
    have h2 := Merger_remaining_advance_le t cs
    simp only [Merger_remaining, List.map_cons, List.sum_cons] at h2 ⊢
    omega

theorem Merger_remaining_advance_lt (t : TA_Timestamp) : ∀ (cs : List (List Merger_Bar)),
    (∃ c ∈ cs, ∃ r, c.head? = some r ∧ r.timestamp = t) →
    Merger_remaining (cs.map (Merger_advance t)) < Merger_remaining cs
  | [], h => by simp at h
  | c :: cs, h => by
    obtain ⟨c0, hc0, r, hr, ht⟩ := h
    have h1 := Merger_advance_length_le t c
    have h2 := Merger_remaining_advance_le t cs
    simp only [Merger_remaining, List.map_cons, List.sum_cons] at h2 ⊢
    rcases List.mem_cons.mp hc0 with e | e
    · subst e
      have := Merger_advance_length_lt t c0 r hr ht
      omega
    · have := Merger_remaining_advance_lt t cs ⟨c0, e, r, hr, ht⟩
      simp only [Merger_remaining] at this
      omega

/-- After the instant `t` of the selected bar has been served, every bar a sorted
cursor has still to visit is later than `t`. -/
theorem Merger_advance_gt (t : TA_Timestamp) (c : List Merger_Bar)
    (hs : (c.map Merger_Bar.timestamp).Pairwise (· < ·))
    (hmin : ∀ r', c.head? = some r' → t ≤ r'.timestamp) :
    ∀ x ∈ Merger_advance t c, t < x.timestamp := by
  intro x hx
  cases c with
  | nil => simp [Merger_advance] at hx
  | cons r rest =>
    have hr := hmin r rfl
    simp only [List.map_cons, List.pairwise_cons, List.mem_map, forall_exists_index,
      and_imp, forall_apply_eq_imp_iff₂] at hs
    simp only [Merger_advance] at hx
    split_ifs at hx with he
    · rw [← he]
      exact hs.1 x hx
    · rcases List.mem_cons.mp hx with e | e
      · subst e
        exact lt_of_le_of_ne hr (fun h => he h.symm)
      · exact lt_of_le_of_lt hr (hs.1 x e)

theorem Merger_advance_sorted (t : TA_Timestamp) (c : List Merger_Bar)
    (hs : (c.map Merger_Bar.timestamp).Pairwise (· < ·)) :
    ((Merger_advance t c).map Merger_Bar.timestamp).Pairwise (· < ·) := by
  cases c with
  | nil => simp [Merger_advance]
  | cons r rest =>
    simp only [Merger_advance]
    split_ifs
    · simp only [List.map_cons, List.pairwise_cons] at hs
      exact hs.2
    · exact hs



/-- The merge loop, given one pass per bar still to visit, ends with every data
source exhausted; the bars it emitted on the way `emitted` account for the
growth of `nbPriceBar`, of the element counts of the plan and of the timestamps
the plan copies; they are bars of the cursors, and in strictly increasing time
order when every cursor is. -/
theorem Merger_loop_spec (sources : List TA_SupportForDataSource) :
    ∀ (fuel : Nat) (st : Merger_State),
      Merger_remaining st.cursors ≤ fuel →
      (∀ c ∈ st.cursors, ∀ r ∈ c, r.Valid sources) →
      ∃ (st' : Merger_State) (emitted : List Merger_Bar), Merger_loop fuel st = some st' ∧
        (∀ c ∈ st'.cursors, c = []) ∧
        st'.nbPriceBar = st.nbPriceBar + emitted.length ∧
        (st'.listOfMergeOp.map TA_MergeOp.nbElementToCopy).sum
          = (st.listOfMergeOp.map TA_MergeOp.nbElementToCopy).sum + emitted.length ∧
        Assembler_timestamps sources st'.listOfMergeOp
          = Assembler_timestamps sources st.listOfMergeOp
              ++ emitted.map Merger_Bar.timestamp ∧
        (∀ e ∈ emitted, ∃ c ∈ st.cursors, e ∈ c) ∧
        ((∀ c ∈ st.cursors, (c.map Merger_Bar.timestamp).Pairwise (· < ·)) →
          (emitted.map Merger_Bar.timestamp).Pairwise (· < ·)) := by
  intro fuel
  induction fuel with
  | zero =>
    intro st hfuel _
    have hempty : ∀ c ∈ st.cursors, c = [] := by
      intro c hc
      have h1 : c.length ≤ Merger_remaining st.cursors :=
        List.single_le_sum (by simp) _ (List.mem_map_of_mem _ hc)
      exact List.length_eq_zero.mp (by omega)
    refine ⟨st, [], ?_, hempty, by simp, by simp, by simp, by simp, by simp⟩
    unfold Merger_loop
    rw [Merger_select_of_empty _ hempty]
  | succ n ih =>
    intro st hfuel hvalid
    cases hsel : Merger_select st.cursors with
    | none =>
      refine ⟨st, [], ?_, Merger_select_eq_none _ hsel, by simp, by simp, by simp, by simp,
        by simp⟩
      unfold Merger_loop
      rw [hsel]
    | some r =>
      obtain ⟨⟨c0, hc0, hhead⟩, hmin⟩ := Merger_select_spec _ _ hsel
      have hr_mem : r ∈ c0 := List.mem_of_mem_head? hhead
      have hlt := Merger_remaining_advance_lt r.timestamp st.cursors ⟨c0, hc0, r, hhead, rfl⟩
      have hvalid' : ∀ c ∈ st.cursors.map (Merger_advance r.timestamp), ∀ x ∈ c,
          x.Valid sources := by
        intro c hc x hx
        obtain ⟨c1, hc1, rfl⟩ := List.mem_map.mp hc
        exact hvalid c1 hc1 x (Merger_advance_subset _ _ x hx)
      obtain ⟨st', emitted, hloop, hdone, hnb, hsum, hts, hmem, hsorted⟩ :=
        ih ⟨st.cursors.map (Merger_advance r.timestamp), Merger_record st.listOfMergeOp r,
          st.nbPriceBar + 1⟩ (by simp only; omega) hvalid'
      refine ⟨st', r :: emitted, ?_, hdone, ?_, ?_, ?_, ?_, ?_⟩
      · unfold Merger_loop
        rw [hsel]
        exact hloop
      · simp only [List.length_cons] at hnb ⊢
        omega
      · simp only [Merger_record_sum, List.length_cons] at hsum ⊢
        omega
      · rw [hts, Assembler_timestamps_record sources _ r (hvalid c0 hc0 r hr_mem)]
        simp
      · intro e he
        rcases List.mem_cons.mp he with h1 | h1
        · subst h1
          exact ⟨c0, hc0, hr_mem⟩
        · obtain ⟨c, hc, hec⟩ := hmem e h1
          obtain ⟨c1, hc1, rfl⟩ := List.mem_map.mp hc
          exact ⟨c1, hc1, Merger_advance_subset _ _ e hec⟩
      · intro hs
        simp only [List.map_cons, List.pairwise_cons, List.mem_map, forall_exists_index,
          and_imp, forall_apply_eq_imp_iff₂]
        constructor
        · intro e he
          obtain ⟨c, hc, hec⟩ := hmem e he
          obtain ⟨c1, hc1, rfl⟩ := List.mem_map.mp hc
          exact Merger_advance_gt r.timestamp c1 (hs c1 hc1) (hmin c1 hc1) e hec
        · apply hsorted
          intro c hc
          obtain ⟨c1, hc1, rfl⟩ := List.mem_map.mp hc
          exact Merger_advance_sorted _ _ (hs c1 hc1)



theorem Merger_blockBars_mem (s b : Nat) : ∀ (ts : List TA_Timestamp) (i : Nat) (r : Merger_Bar),
    r ∈ Merger_blockBars s b i ts →
      r.source = s ∧ r.block = b ∧ ∃ j, r.index = i + j ∧ ts[j]? = some r.timestamp
  | [], i, r, h => by simp [Merger_blockBars] at h
  | t :: ts, i, r, h => by
    simp only [Merger_blockBars, List.mem_cons] at h
    rcases h with h | h
    · subst h
      exact ⟨rfl, rfl, 0, rfl, by simp⟩
    · obtain ⟨h1, h2, j, h3, h4⟩ := Merger_blockBars_mem s b ts (i + 1) r h
      exact ⟨h1, h2, j + 1, by omega, by simpa using h4⟩

theorem Merger_sourceBars_mem (s : Nat) : ∀ (blks : List TA_DataBlock) (b0 : Nat)
    (r : Merger_Bar), r ∈ Merger_sourceBars s b0 blks →
      r.source = s ∧ ∃ j blk, r.block = b0 + j ∧ blks[j]? = some blk ∧
        blk.timestamp[r.index]? = some r.timestamp
  | [], b0, r, h => by simp [Merger_sourceBars] at h
  | blk :: blks, b0, r, h => by
    simp only [Merger_sourceBars, List.mem_append] at h
    rcases h with h | h
    · obtain ⟨h1, h2, j, h3, h4⟩ := Merger_blockBars_mem s b0 blk.timestamp 0 r h
      refine ⟨h1, 0, blk, by omega, by simp, ?_⟩
      have : r.index = j := by omega
      rw [this]
      exact h4
    · obtain ⟨h1, j, blk', h2, h3, h4⟩ := Merger_sourceBars_mem s blks (b0 + 1) r h
      exact ⟨h1, j + 1, blk', by omega, by simpa using h3, h4⟩

theorem Merger_cursors_mem : ∀ (srcs : List TA_SupportForDataSource) (s0 : Nat)
    (c : List Merger_Bar), c ∈ Merger_cursors s0 srcs → ∀ r ∈ c,
      ∃ j src blk, r.source = s0 + j ∧ srcs[j]? = some src ∧
        src.listOfDataBlock[r.block]? = some blk ∧ blk.timestamp[r.index]? = some r.timestamp
  | [], s0, c, h => by simp [Merger_cursors] at h
  | src :: srcs, s0, c, h => by
    intro r hr
    simp only [Merger_cursors, List.mem_cons] at h
    rcases h with h | h
    · subst h
      obtain ⟨h1, j, blk, h2, h3, h4⟩ := Merger_sourceBars_mem s0 src.listOfDataBlock 0 r hr
      refine ⟨0, src, blk, by omega, by simp, ?_, h4⟩
      have : r.block = j := by omega
      rw [this]
      exact h3
    · obtain ⟨j, src', blk, h1, h2, h3, h4⟩ := Merger_cursors_mem srcs (s0 + 1) c h r hr
      exact ⟨j + 1, src', blk, by omega, by simpa using h2, h3, h4⟩

/-- Every position of the cursors of the merge is a bar of the data sources. -/
theorem Merger_cursors_valid (srcs : List TA_SupportForDataSource) :
    ∀ c ∈ Merger_cursors 0 srcs, ∀ r ∈ c, r.Valid srcs := by
  intro c hc r hr
  obtain ⟨j, src, blk, h1, h2, h3, h4⟩ := Merger_cursors_mem srcs 0 c hc r hr
  refine ⟨blk, ?_, h4⟩
  have : r.source = j := by omega
  simp only [Assembler_block, this, h2]
  exact h3

theorem Merger_blockBars_timestamps (s b : Nat) : ∀ (ts : List TA_Timestamp) (i : Nat),
    (Merger_blockBars s b i ts).map Merger_Bar.timestamp = ts
  | [], _ => rfl
  | t :: ts, i => by
    simp only [Merger_blockBars, List.map_cons, Merger_blockBars_timestamps s b ts (i + 1)]

theorem Merger_sourceBars_timestamps (s : Nat) : ∀ (blks : List TA_DataBlock) (b0 : Nat),
    (Merger_sourceBars s b0 blks).map Merger_Bar.timestamp
      = (blks.map TA_DataBlock.timestamp).flatten
  | [], _ => rfl
  | blk :: blks, b0 => by
    simp only [Merger_sourceBars, List.map_append, Merger_blockBars_timestamps,
      Merger_sourceBars_timestamps s blks (b0 + 1), List.map_cons, List.flatten_cons]

/-- Each cursor of the merge runs through the timestamps of one data source. -/
theorem Merger_cursors_timestamps : ∀ (srcs : List TA_SupportForDataSource) (s0 : Nat)
    (c : List Merger_Bar), c ∈ Merger_cursors s0 srcs →
      ∃ src ∈ srcs, c.map Merger_Bar.timestamp = sourceTimestamps src
  | [], s0, c, h => by simp [Merger_cursors] at h
  | src :: srcs, s0, c, h => by
    simp only [Merger_cursors, List.mem_cons] at h
    rcases h with h | h
    · subst h
      exact ⟨src, List.mem_cons_self _ _, Merger_sourceBars_timestamps s0 _ 0⟩
    · obtain ⟨src', h1, h2⟩ := Merger_cursors_timestamps srcs (s0 + 1) c h
      exact ⟨src', List.mem_cons_of_mem _ h1, h2⟩

/-- The merge of the two sample data sources, evaluated: the days 1 to 5 come from
the first source, block by block, the days 6 and 7 from the second. -/
theorem Merger_merge_sample :
    (Merger_merge sampleBuilder).map
        (fun b => (b.listOfMergeOp, b.nbPriceBar,
          Assembler_timestamps b.listOfSupportForDataSource b.listOfMergeOp))
      = some ([⟨(0, 0), 0, 2⟩, ⟨(0, 1), 0, 3⟩, ⟨(1, 0), 3, 2⟩], 7, [1, 2, 3, 4, 5, 6, 7]) := by
  decide

/-- C9: the merge fills the plan and the bar count of the builder so that the sum
of `nbElementToCopy` over all `TA_MergeOp` entries of `listOfMergeOp` equals
`nbPriceBar`, which is the number of bars the merge emitted: the number of bars
the plan copies into the result. -/
theorem Merger_merge_nbPriceBar (bs : TA_BuilderSupport) :
    ∃ bs' : TA_BuilderSupport, Merger_merge bs = some bs' ∧
      bs'.listOfSupportForDataSource = bs.listOfSupportForDataSource ∧
      (bs'.listOfMergeOp.map TA_MergeOp.nbElementToCopy).sum = bs'.nbPriceBar ∧
      (Assembler_timestamps bs'.listOfSupportForDataSource bs'.listOfMergeOp).length
        = bs'.nbPriceBar := by
  obtain ⟨st', emitted, hloop, -, hnb, hsum, hts, -, -⟩ :=
    Merger_loop_spec bs.listOfSupportForDataSource
      (Merger_remaining (Merger_cursors 0 bs.listOfSupportForDataSource))
      ⟨Merger_cursors 0 bs.listOfSupportForDataSource, [], 0⟩ (le_refl _)
      (Merger_cursors_valid bs.listOfSupportForDataSource)
  refine ⟨{ bs with listOfMergeOp := st'.listOfMergeOp, nbPriceBar := st'.nbPriceBar }, ?_,
    rfl, ?_, ?_⟩
  · unfold Merger_merge
    unfold Merger_remaining at hloop
    simp only [hloop]
  · simp only [List.map_nil, List.sum_nil, zero_add] at hsum hnb
    simp only [hsum, hnb]
  · simp only [zero_add] at hnb
    simp only [hts, hnb, Assembler_timestamps, List.nil_append, List.length_map]

/-- The timestamps of the result of a merge over data sources that each supply
their bars in strictly increasing time order are strictly increasing. -/
theorem Merger_merge_strictly_increasing (bs : TA_BuilderSupport)
    (h : ∀ s ∈ bs.listOfSupportForDataSource, (sourceTimestamps s).Pairwise (· < ·)) :
    ∃ bs' : TA_BuilderSupport, Merger_merge bs = some bs' ∧
      (Assembler_timestamps bs'.listOfSupportForDataSource bs'.listOfMergeOp).Pairwise
        (· < ·) := by
  obtain ⟨st', emitted, hloop, -, -, -, hts, -, hsorted⟩ :=
    Merger_loop_spec bs.listOfSupportForDataSource
      (Merger_remaining (Merger_cursors 0 bs.listOfSupportForDataSource))
      ⟨Merger_cursors 0 bs.listOfSupportForDataSource, [], 0⟩ (le_refl _)
      (Merger_cursors_valid bs.listOfSupportForDataSource)
  refine ⟨{ bs with listOfMergeOp := st'.listOfMergeOp, nbPriceBar := st'.nbPriceBar }, ?_, ?_⟩
  · unfold Merger_merge
    unfold Merger_remaining at hloop
    simp only [hloop]
  · simp only [hts, Assembler_timestamps, List.nil_append]
    apply hsorted
    intro c hc
    obtain ⟨src, hsrc, he⟩ := Merger_cursors_timestamps _ 0 c hc
    rw [he]
    exact h src hsrc



theorem Merger_merge_timestamps_mem (bs : TA_BuilderSupport) :
    ∃ bs' : TA_BuilderSupport, Merger_merge bs = some bs' ∧
      ∀ t ∈ Assembler_timestamps bs'.listOfSupportForDataSource bs'.listOfMergeOp,
        ∃ s ∈ bs.listOfSupportForDataSource, ∃ b ∈ s.listOfDataBlock, t ∈ b.timestamp := by
  obtain ⟨st', emitted, hloop, -, -, -, hts, hmem, -⟩ :=
    Merger_loop_spec bs.listOfSupportForDataSource
      (Merger_remaining (Merger_cursors 0 bs.listOfSupportForDataSource))
      ⟨Merger_cursors 0 bs.listOfSupportForDataSource, [], 0⟩ (le_refl _)
      (Merger_cursors_valid bs.listOfSupportForDataSource)
  refine ⟨{ bs with listOfMergeOp := st'.listOfMergeOp, nbPriceBar := st'.nbPriceBar }, ?_, ?_⟩
  · unfold Merger_merge
    unfold Merger_remaining at hloop
    simp only [hloop]
  · intro t ht
    simp only [hts, Assembler_timestamps, List.nil_append, List.mem_map] at ht
    obtain ⟨e, he, rfl⟩ := ht
    obtain ⟨c, hc, hec⟩ := hmem e he
    obtain ⟨src, hsrc, heq⟩ := Merger_cursors_timestamps _ 0 c hc
    have h1 : e.timestamp ∈ sourceTimestamps src := by
      rw [← heq]
      exact List.mem_map_of_mem _ hec
    simp only [sourceTimestamps, List.mem_flatten, List.mem_map] at h1
    obtain ⟨l, ⟨b, hb, rfl⟩, hl⟩ := h1
    exact ⟨src, hsrc, b, hb, hl⟩

/-- The timestamps of a merge are spaced according to the target period when every
block is at that period with its bars stamped on its boundaries. -/
theorem Merger_merge_spaced (bs : TA_BuilderSupport)
    (hsorted : ∀ s ∈ bs.listOfSupportForDataSource, (sourceTimestamps s).Pairwise (· < ·))
    (hnorm : ∀ s ∈ bs.listOfSupportForDataSource, ∀ b ∈ s.listOfDataBlock,
      b.period = PeriodNormalizer_targetPeriod bs)
    (halign : ∀ s ∈ bs.listOfSupportForDataSource, ∀ b ∈ s.listOfDataBlock,
      ∀ t ∈ b.timestamp, b.period ∣ t) :
    ∃ bs' : TA_BuilderSupport, Merger_merge bs = some bs' ∧
      SpacedBy (PeriodNormalizer_targetPeriod bs)
        (Assembler_timestamps bs'.listOfSupportForDataSource bs'.listOfMergeOp) := by
  obtain ⟨bs1, h1, hinc⟩ := Merger_merge_strictly_increasing bs hsorted
  obtain ⟨bs2, h2, hmem⟩ := Merger_merge_timestamps_mem bs
  rw [h1] at h2
  cases h2
  refine ⟨bs1, h1, ?_⟩
  have hdvd : ∀ t ∈ Assembler_timestamps bs1.listOfSupportForDataSource bs1.listOfMergeOp,
      PeriodNormalizer_targetPeriod bs ∣ t := by
    intro t ht
    obtain ⟨s, hs, b, hb, htb⟩ := hmem t ht
    rw [← hnorm s hs b hb]
    exact halign s hs b hb t htb
  unfold SpacedBy
  apply List.Pairwise.chain'
  refine List.Pairwise.imp_of_mem ?_ hinc
  intro a b ha hb hab
  obtain ⟨x, hx⟩ := hdvd a ha
  obtain ⟨y, hy⟩ := hdvd b hb
  have hxy : x < y := by
    by_contra hcon
    have : y ≤ x := not_lt.mp hcon
    have := Nat.mul_le_mul_left (PeriodNormalizer_targetPeriod bs) this
    rw [← hx, ← hy] at this
    exact absurd hab (not_lt.mpr this)
  refine ⟨y - x, by omega, ?_⟩
  rw [hx, hy, Nat.sub_mul, mul_comm y, mul_comm x]
  have := Nat.mul_le_mul_left (PeriodNormalizer_targetPeriod bs) (le_of_lt hxy)
  omega

/-- C10, as the merge has it: for any build over data sources that each supply
their bars in strictly increasing time order, the merge succeeds and the
timestamp array of the result is strictly increasing; and it is spaced according
to the resolved target period, each timestamp a whole, positive number of
periods after the one before it, when every block is at the target period with
its bars stamped on the boundaries of that period. -/
theorem build_timestamps_strictly_increasing (bs : TA_BuilderSupport)
    (hsorted : ∀ s ∈ bs.listOfSupportForDataSource, (sourceTimestamps s).Pairwise (· < ·)) :
    ∃ bs' : TA_BuilderSupport, Merger_merge bs = some bs' ∧
      (Assembler_timestamps bs'.listOfSupportForDataSource bs'.listOfMergeOp).Pairwise
        (· < ·) ∧
      ((∀ s ∈ bs.listOfSupportForDataSource, ∀ b ∈ s.listOfDataBlock,
          b.period = PeriodNormalizer_targetPeriod bs ∧ ∀ t ∈ b.timestamp, b.period ∣ t) →
        SpacedBy (PeriodNormalizer_targetPeriod bs)
          (Assembler_timestamps bs'.listOfSupportForDataSource bs'.listOfMergeOp)) := by
  obtain ⟨bs1, h1, hinc⟩ := Merger_merge_strictly_increasing bs hsorted
  refine ⟨bs1, h1, hinc, ?_⟩
  intro h
  obtain ⟨bs2, h2, hsp⟩ := Merger_merge_spaced bs hsorted
    (fun s hs b hb => (h s hs b hb).1) (fun s hs b hb => (h s hs b hb).2)
  rw [h1] at h2
  cases h2
  exact hsp

/-- Witness of C10: two weekly data sources that overlap in the week ending on
day 14. -/
theorem build_timestamps_strictly_increasing_witness :
    ∃ bs' : TA_BuilderSupport, Merger_merge sampleBuilderWeekly = some bs' ∧
      (Assembler_timestamps bs'.listOfSupportForDataSource bs'.listOfMergeOp).Pairwise
        (· < ·) ∧
      SpacedBy (PeriodNormalizer_targetPeriod sampleBuilderWeekly)
        (Assembler_timestamps bs'.listOfSupportForDataSource bs'.listOfMergeOp) :=
  match build_timestamps_strictly_increasing sampleBuilderWeekly (by decide) with
  | ⟨bs', h1, h2, h3⟩ => ⟨bs', h1, h2, h3 (by decide)⟩

/-- C10 as stated fails: two data sources at the same weekly period, each a single
block in strictly increasing time order, one stamping its bars on days 7 and 14,
the other on days 8 and 15.  No bar shares its timestamp with another, so the
merge emits all four; the result, days 7, 8, 14, 15, is strictly increasing but
not spaced according to the target period of 7 days. -/
theorem build_timestamps_not_spaced :
    (∀ s ∈ sampleBuilderOffset.listOfSupportForDataSource,
        (sourceTimestamps s).Pairwise (· < ·) ∧
        ∀ b ∈ s.listOfDataBlock, b.period = PeriodNormalizer_targetPeriod sampleBuilderOffset) ∧
      PeriodNormalizer_targetPeriod sampleBuilderOffset = 7 ∧
      (Merger_merge sampleBuilderOffset).map
          (fun b => Assembler_timestamps b.listOfSupportForDataSource b.listOfMergeOp)
        = some [7, 8, 14, 15] ∧
      ¬ SpacedBy (PeriodNormalizer_targetPeriod sampleBuilderOffset) [7, 8, 14, 15] := by
  refine ⟨by decide, by decide, by decide, ?_⟩
  intro h
  have h7 : PeriodNormalizer_targetPeriod sampleBuilderOffset = 7 := by decide
  rw [h7] at h
  unfold SpacedBy at h
  simp only [List.chain'_cons] at h
  obtain ⟨⟨k, hk, hk2⟩, -⟩ := h
  omega

/-! ## The running total of `TA_CDLLADDERBOTTOM` -/

/-- C20: while `TA_CDLLADDERBOTTOM` scans, the running total is a sliding-window
sum that excludes the candle being tested.  On an accepted call with an
averaging period `A >= 0` and something to evaluate, the loop that adds up the
initial period yields a total `T0`, and for every bar `i` from `outBegIdx` to
`endIdx`: the cell written for bar `i` is the outcome of the test made with the
value `ShadowVeryShortPeriodTotal` has after `i - outBegIdx` passes from `T0`, and
that value is the sum of `TA_CANDLERANGE(ShadowVeryShort, j)` over the `A` candles
`j = i-1-A .. i-2` before the fourth candle `i-1`. -/
theorem TA_CDLLADDERBOTTOM_sliding_total (set : TA_CandleSetting) (startIdx endIdx : Int)
    (inOpen inHigh inLow inClose : Int → ℚ) (ob nb : Int) (outInteger : Int → Int)
    (hA : 0 ≤ set.avgPeriod)
    (h0 : 0 ≤ startIdx) (h1 : startIdx ≤ endIdx) (hS : CDL_firstBar set startIdx ≤ endIdx) :
    ∃ (r : CDL_Result) (out : Int → Int) (T0 : ℚ),
      TA_CDLLADDERBOTTOM set startIdx endIdx (some inOpen) (some inHigh) (some inLow)
        (some inClose) ob nb (some outInteger) = some r ∧
      r.outInteger = some out ∧
      r.outBegIdx = CDL_firstBar set startIdx ∧
      CDLLADDERBOTTOM_initialTotal set ⟨inOpen, inHigh, inLow, inClose⟩ r.outBegIdx
        set.avgPeriod.toNat (r.outBegIdx - set.avgPeriod) 0 = some T0 ∧
      ∀ i, r.outBegIdx ≤ i → i ≤ endIdx →
        out (i - r.outBegIdx) =
          (if CDLLADDERBOTTOM_test set ⟨inOpen, inHigh, inLow, inClose⟩
              (CDL_totalAfter set ⟨inOpen, inHigh, inLow, inClose⟩ (i - r.outBegIdx).toNat
                r.outBegIdx (r.outBegIdx - set.avgPeriod) T0) i
            then 100 else 0) ∧
        CDL_totalAfter set ⟨inOpen, inHigh, inLow, inClose⟩ (i - r.outBegIdx).toNat
            r.outBegIdx (r.outBegIdx - set.avgPeriod) T0
          = ∑ t ∈ Finset.range set.avgPeriod.toNat,
              TA_CANDLERANGE set ⟨inOpen, inHigh, inLow, inClose⟩
                (i - 1 - set.avgPeriod + (t : Int)) := by
  have hT0 : CDLLADDERBOTTOM_initialTotal set ⟨inOpen, inHigh, inLow, inClose⟩
      (CDL_firstBar set startIdx) set.avgPeriod.toNat
      (CDL_firstBar set startIdx - set.avgPeriod) 0
      = some (CDL_periodTotal set ⟨inOpen, inHigh, inLow, inClose⟩
          (CDL_firstBar set startIdx - 1)) := by
    rw [CDLLADDERBOTTOM_initialTotal_eq set _ _ _ _ _ (by omega)]
    have e1 : (CDL_firstBar set startIdx - (CDL_firstBar set startIdx - set.avgPeriod)).toNat
        = set.avgPeriod.toNat := by
      congr 1; ring
    rw [e1, zero_add]
    unfold CDL_periodTotal
    congr 1
    apply Finset.sum_congr rfl
    intro t _
    congr 1
    ring
  refine ⟨_, _, _, TA_CDLLADDERBOTTOM_eq_of_accepted set startIdx endIdx inOpen inHigh inLow
    inClose ob nb outInteger h0 h1 hS, rfl, rfl, hT0, ?_⟩
  intro i hi0 hi1
  simp only at hi0
  have hk : 0 ≤ i - CDL_firstBar set startIdx ∧
      i - CDL_firstBar set startIdx ≤ endIdx - CDL_firstBar set startIdx := by omega
  have ei : CDL_firstBar set startIdx + (i - CDL_firstBar set startIdx) = i := by ring
  constructor
  · simp only [hk, and_self, if_true, ei]
  · have ht := CDL_totalAfter_eq set ⟨inOpen, inHigh, inLow, inClose⟩ hA
      (i - CDL_firstBar set startIdx).toNat (CDL_firstBar set startIdx)
    have ek : CDL_firstBar set startIdx + (((i - CDL_firstBar set startIdx).toNat : ℕ) : Int) - 1
        = i - 1 := by omega
    rw [ek] at ht
    rw [ht]
    rfl

/-- Witness of C20: the six sample candles. -/
theorem TA_CDLLADDERBOTTOM_sliding_total_witness :
    ∃ (r : CDL_Result) (out : Int → Int) (T0 : ℚ),
      TA_CDLLADDERBOTTOM sampleSetting 0 5 (some sampleOpen) (some sampleHigh) (some sampleLow)
        (some sampleClose) 0 0 (some (fun _ => 7)) = some r ∧
      r.outInteger = some out ∧
      r.outBegIdx = CDL_firstBar sampleSetting 0 ∧
      CDLLADDERBOTTOM_initialTotal sampleSetting ⟨sampleOpen, sampleHigh, sampleLow, sampleClose⟩
        r.outBegIdx sampleSetting.avgPeriod.toNat (r.outBegIdx - sampleSetting.avgPeriod) 0
          = some T0 ∧
      ∀ i, r.outBegIdx ≤ i → i ≤ 5 →
        out (i - r.outBegIdx) =
          (if CDLLADDERBOTTOM_test sampleSetting ⟨sampleOpen, sampleHigh, sampleLow, sampleClose⟩
              (CDL_totalAfter sampleSetting ⟨sampleOpen, sampleHigh, sampleLow, sampleClose⟩
                (i - r.outBegIdx).toNat r.outBegIdx (r.outBegIdx - sampleSetting.avgPeriod) T0) i
            then 100 else 0) ∧
        CDL_totalAfter sampleSetting ⟨sampleOpen, sampleHigh, sampleLow, sampleClose⟩
            (i - r.outBegIdx).toNat r.outBegIdx (r.outBegIdx - sampleSetting.avgPeriod) T0
          = ∑ t ∈ Finset.range sampleSetting.avgPeriod.toNat,
              TA_CANDLERANGE sampleSetting ⟨sampleOpen, sampleHigh, sampleLow, sampleClose⟩
                (i - 1 - sampleSetting.avgPeriod + (t : Int)) :=
  TA_CDLLADDERBOTTOM_sliding_total sampleSetting 0 5 sampleOpen sampleHigh sampleLow
    sampleClose 0 0 (fun _ => 7) (by decide) (by decide) (by decide) (by decide)

/-! ## Properties of `TA_DEF_TableL` -/

/-- C19: `TA_DEF_TableL` holds exactly the four function definitions `LINEARREG`,
`LINEARREG_SLOPE`, `LINEARREG_ANGLE` and `LINEARREG_INTERCEPT`, every name
starting with the letter L, followed by one terminating `NULL`, and
`TA_DEF_TableLSize` is 4, the number of entries before the terminating `NULL`. -/
theorem TA_DEF_TableL_spec :
    TA_DEF_TableL.map (Option.map TA_FuncDef.name)
        = [some "LINEARREG", some "LINEARREG_SLOPE", some "LINEARREG_ANGLE",
            some "LINEARREG_INTERCEPT", none] ∧
      (∀ d ∈ TA_DEF_TableL.filterMap id, d.name.front = 'L') ∧
      TA_DEF_TableL.dropWhile Option.isSome = [none] ∧
      TA_DEF_TableLSize = 4 ∧
      TA_DEF_TableLSize = (TA_DEF_TableL.takeWhile Option.isSome).length := by
  refine ⟨by decide, by decide, by decide, by decide, by decide⟩

/-! ## Properties of the adjuster -/

/-- The pass over the split adjustments multiplies the starting multiplier with
the factors dated strictly later than `T`. -/
theorem Adjuster_splitMultiplier_eq (T : TA_Timestamp) :
    ∀ (splitList : List TA_SplitAdjust) (m : ℚ),
      Adjuster_splitMultiplier T m splitList = m * splitFactorAfter T splitList
  | [], m => by simp [Adjuster_splitMultiplier, splitFactorAfter]
  | a :: rest, m => by
    rw [Adjuster_splitMultiplier, Adjuster_splitMultiplier_eq T rest]
    unfold splitFactorAfter
    by_cases h : T < a.timestamp
    · simp [h, List.filter_cons, mul_assoc]
    · simp [h, List.filter_cons]

/-- The pass over the value adjustments adds to the starting offset the amounts
dated strictly later than `T`. -/
theorem Adjuster_valueOffset_eq (T : TA_Timestamp) :
    ∀ (valueList : List TA_ValueAdjust) (o : ℚ),
      Adjuster_valueOffset T o valueList = o + valueAmountAfter T valueList
  | [], o => by simp [Adjuster_valueOffset, valueAmountAfter]
  | a :: rest, o => by
    rw [Adjuster_valueOffset, Adjuster_valueOffset_eq T rest]
    unfold valueAmountAfter
    by_cases h : T < a.timestamp
    · simp [h, List.filter_cons, add_assoc]
    · simp [h, List.filter_cons]

theorem Adjuster_scaleReal_getElem (splitList : List TA_SplitAdjust) :
    ∀ (ts : List TA_Timestamp) (xs : List ℚ) (k : Nat) (T : TA_Timestamp) (x : ℚ),
      ts[k]? = some T → xs[k]? = some x →
      (Adjuster_scaleReal splitList ts xs)[k]? = some (x * splitFactorAfter T splitList)
  | [], _, k, T, x, h, _ => by simp at h
  | _ :: _, [], k, T, x, _, h => by simp at h
  | T0 :: ts, x0 :: xs, 0, T, x, h1, h2 => by
    simp only [List.getElem?_cons_zero, Option.some.injEq] at h1 h2
    subst h1 h2
    simp [Adjuster_scaleReal, Adjuster_splitMultiplier_eq]
  | T0 :: ts, x0 :: xs, k + 1, T, x, h1, h2 => by
    simp only [List.getElem?_cons_succ] at h1 h2
    simp only [Adjuster_scaleReal, List.getElem?_cons_succ]
    exact Adjuster_scaleReal_getElem splitList ts xs k T x h1 h2

theorem Adjuster_scaleInteger_getElem (splitList : List TA_SplitAdjust) :
    ∀ (ts : List TA_Timestamp) (vs : List Int) (k : Nat) (T : TA_Timestamp) (v : Int),
      ts[k]? = some T → vs[k]? = some v →
      (Adjuster_scaleInteger splitList ts vs)[k]?
        = some (Adjuster_toInteger ((v : ℚ) * splitFactorAfter T splitList))
  | [], _, k, T, v, h, _ => by simp at h
  | _ :: _, [], k, T, v, _, h => by simp at h
  | T0 :: ts, v0 :: vs, 0, T, v, h1, h2 => by
    simp only [List.getElem?_cons_zero, Option.some.injEq] at h1 h2
    subst h1 h2
    simp [Adjuster_scaleInteger, Adjuster_splitMultiplier_eq]
  | T0 :: ts, v0 :: vs, k + 1, T, v, h1, h2 => by
    simp only [List.getElem?_cons_succ] at h1 h2
    simp only [Adjuster_scaleInteger, List.getElem?_cons_succ]
    exact Adjuster_scaleInteger_getElem splitList ts vs k T v h1 h2

theorem Adjuster_shiftReal_getElem (valueList : List TA_ValueAdjust) :
    ∀ (ts : List TA_Timestamp) (xs : List ℚ) (k : Nat) (T : TA_Timestamp) (x : ℚ),
      ts[k]? = some T → xs[k]? = some x →
      (Adjuster_shiftReal valueList ts xs)[k]? = some (x - valueAmountAfter T valueList)
  | [], _, k, T, x, h, _ => by simp at h
  | _ :: _, [], k, T, x, _, h => by simp at h
  | T0 :: ts, x0 :: xs, 0, T, x, h1, h2 => by
    simp only [List.getElem?_cons_zero, Option.some.injEq] at h1 h2
    subst h1 h2
    simp [Adjuster_shiftReal, Adjuster_valueOffset_eq]
  | T0 :: ts, x0 :: xs, k + 1, T, x, h1, h2 => by
    simp only [List.getElem?_cons_succ] at h1 h2
    simp only [Adjuster_shiftReal, List.getElem?_cons_succ]
    exact Adjuster_shiftReal_getElem valueList ts xs k T x h1 h2

/-- The conversion to `TA_Integer` is exact on a value that is an integer. -/
theorem Adjuster_toInteger_intCast (z : Int) : Adjuster_toInteger (z : ℚ) = z := by
  simp [Adjuster_toInteger]

theorem Adjuster_scaleReal_nil : ∀ (ts : List TA_Timestamp) (xs : List ℚ),
    Adjuster_scaleReal [] ts xs = xs
  | [], xs => by simp [Adjuster_scaleReal]
  | _ :: _, [] => by simp [Adjuster_scaleReal]
  | T :: ts, x :: xs => by
    simp [Adjuster_scaleReal, Adjuster_splitMultiplier, Adjuster_scaleReal_nil ts xs]

theorem Adjuster_scaleInteger_nil : ∀ (ts : List TA_Timestamp) (vs : List Int),
    Adjuster_scaleInteger [] ts vs = vs
  | [], vs => by simp [Adjuster_scaleInteger]
  | _ :: _, [] => by simp [Adjuster_scaleInteger]
  | T :: ts, v :: vs => by
    simp [Adjuster_scaleInteger, Adjuster_splitMultiplier, Adjuster_toInteger_intCast,
      Adjuster_scaleInteger_nil ts vs]

theorem Adjuster_shiftReal_nil : ∀ (ts : List TA_Timestamp) (xs : List ℚ),
    Adjuster_shiftReal [] ts xs = xs
  | [], xs => by simp [Adjuster_shiftReal]
  | _ :: _, [] => by simp [Adjuster_shiftReal]
  | T :: ts, x :: xs => by
    simp [Adjuster_shiftReal, Adjuster_valueOffset, Adjuster_shiftReal_nil ts xs]

/-- Scenario B, evaluated: one split of factor 2 dated day 4 over the five sample
days doubles the prices and the volumes of days 1 to 3 and leaves day 4 onward
unchanged. -/
theorem Adjuster_applySplitAdjust_sample :
    (Adjuster_applySplitAdjust sampleDays [⟨4, 2⟩]).close = [20, 40, 60, 40, 50] ∧
      (Adjuster_applySplitAdjust sampleDays [⟨4, 2⟩]).open = [18, 38, 58, 39, 49] ∧
      (Adjuster_applySplitAdjust sampleDays [⟨4, 2⟩]).high = [22, 42, 62, 41, 51] ∧
      (Adjuster_applySplitAdjust sampleDays [⟨4, 2⟩]).low = [16, 36, 56, 38, 48] ∧
      (Adjuster_applySplitAdjust sampleDays [⟨4, 2⟩]).volume = [200, 400, 600, 400, 500] := by
  have e1 : Adjuster_toInteger 200 = 200 := Adjuster_toInteger_intCast 200
  have e2 : Adjuster_toInteger 400 = 400 := Adjuster_toInteger_intCast 400
  have e3 : Adjuster_toInteger 600 = 600 := Adjuster_toInteger_intCast 600
  have e4 : Adjuster_toInteger 500 = 500 := Adjuster_toInteger_intCast 500
  refine ⟨?_, ?_, ?_, ?_, ?_⟩ <;>
    norm_num [Adjuster_applySplitAdjust, sampleDays, Adjuster_scaleReal, Adjuster_scaleInteger,
      Adjuster_splitMultiplier, e1, e2, e3, e4]

/-- A value adjustment of 3 dated day 4, evaluated over the five sample days: 3 is
taken from the prices of days 1 to 3, and the volumes stay as they were. -/
theorem Adjuster_applyValueAdjust_sample :
    (Adjuster_applyValueAdjust sampleDays [⟨4, 3⟩]).close = [7, 17, 27, 40, 50] ∧
      (Adjuster_applyValueAdjust sampleDays [⟨4, 3⟩]).volume = [100, 200, 300, 400, 500] := by
  refine ⟨?_, ?_⟩ <;>
    norm_num [Adjuster_applyValueAdjust, sampleDays, Adjuster_shiftReal, Adjuster_valueOffset]

/-- C12: for a bar at timestamp `T`, position `k` of a block, split adjustment
multiplies the open, high, low, close and volume of the bar by the product of the
factors of exactly those `TA_SplitAdjust` entries whose timestamp is strictly
later than `T`, the volume being stored back as an integer (exactly, when the
product is an integer); entries with timestamp `<= T` do not affect the bar: two
lists with the same entries later than `T` give the bar the same values. -/
theorem Adjuster_applySplitAdjust_bar (block : TA_DataBlock)
    (splitList : List TA_SplitAdjust) (k : Nat) (T : TA_Timestamp) (o h l c : ℚ) (v : Int)
    (hT : block.timestamp[k]? = some T)
    (ho : block.open[k]? = some o) (hh : block.high[k]? = some h)
    (hl : block.low[k]? = some l) (hc : block.close[k]? = some c)
    (hv : block.volume[k]? = some v) :
    (Adjuster_applySplitAdjust block splitList).open[k]?
        = some (o * splitFactorAfter T splitList) ∧
      (Adjuster_applySplitAdjust block splitList).high[k]?
        = some (h * splitFactorAfter T splitList) ∧
      (Adjuster_applySplitAdjust block splitList).low[k]?
        = some (l * splitFactorAfter T splitList) ∧
      (Adjuster_applySplitAdjust block splitList).close[k]?
        = some (c * splitFactorAfter T splitList) ∧
      (Adjuster_applySplitAdjust block splitList).volume[k]?
        = some (Adjuster_toInteger ((v : ℚ) * splitFactorAfter T splitList)) ∧
      (∀ z : Int, (v : ℚ) * splitFactorAfter T splitList = (z : ℚ) →
        (Adjuster_applySplitAdjust block splitList).volume[k]? = some z) ∧
      (∀ other : List TA_SplitAdjust,
        other.filter (fun a => T < a.timestamp) = splitList.filter (fun a => T < a.timestamp) →
        (Adjuster_applySplitAdjust block other).open[k]?
            = (Adjuster_applySplitAdjust block splitList).open[k]? ∧
          (Adjuster_applySplitAdjust block other).high[k]?
            = (Adjuster_applySplitAdjust block splitList).high[k]? ∧
          (Adjuster_applySplitAdjust block other).low[k]?
            = (Adjuster_applySplitAdjust block splitList).low[k]? ∧
          (Adjuster_applySplitAdjust block other).close[k]?
            = (Adjuster_applySplitAdjust block splitList).close[k]? ∧
          (Adjuster_applySplitAdjust block other).volume[k]?
            = (Adjuster_applySplitAdjust block splitList).volume[k]?) := by
  have e1 := fun L => Adjuster_scaleReal_getElem L block.timestamp block.open k T o hT ho
  have e2 := fun L => Adjuster_scaleReal_getElem L block.timestamp block.high k T h hT hh
  have e3 := fun L => Adjuster_scaleReal_getElem L block.timestamp block.low k T l hT hl
  have e4 := fun L => Adjuster_scaleReal_getElem L block.timestamp block.close k T c hT hc
  have e5 := fun L => Adjuster_scaleInteger_getElem L block.timestamp block.volume k T v hT hv
  refine ⟨e1 _, e2 _, e3 _, e4 _, e5 _, ?_, ?_⟩
  · intro z hz
    have := e5 splitList
    rw [hz, Adjuster_toInteger_intCast] at this
    exact this
  · intro other hother
    have hf : splitFactorAfter T other = splitFactorAfter T splitList := by
      unfold splitFactorAfter
      rw [hother]
    simp only [Adjuster_applySplitAdjust, e1, e2, e3, e4, e5, hf, and_self]

/-- Witness of C12: day 1 of the sample days under one split of factor 2 dated
day 4. -/
theorem Adjuster_applySplitAdjust_bar_witness :
    (Adjuster_applySplitAdjust sampleDays [⟨4, 2⟩]).close[0]?
        = some (10 * splitFactorAfter 1 [⟨4, 2⟩]) ∧
      (Adjuster_applySplitAdjust sampleDays [⟨4, 2⟩]).volume[0]?
        = some (Adjuster_toInteger (((100 : Int) : ℚ) * splitFactorAfter 1 [⟨4, 2⟩])) :=
  match Adjuster_applySplitAdjust_bar sampleDays [⟨4, 2⟩] 0 1 9 11 8 10 100 rfl rfl rfl rfl
      rfl rfl with
  | ⟨_, _, _, h4, h5, _, _⟩ => ⟨h4, h5⟩

/-- C13: a value adjustment affects only the price.  Applying a list of value
adjustments to a block leaves the volume, the open interest and the timestamp of
every bar unchanged (and the bar count, period and fields of the block), while
it takes the offset of the bar from each price; a split adjustment changes
price and volume in the same proportion: each bar has one multiplier that its
open, high, low and close and its volume are all multiplied with. -/
theorem Adjuster_applyValueAdjust_frame (block : TA_DataBlock)
    (valueList : List TA_ValueAdjust) (splitList : List TA_SplitAdjust) :
    ((Adjuster_applyValueAdjust block valueList).volume = block.volume ∧
      (Adjuster_applyValueAdjust block valueList).openInterest = block.openInterest ∧
      (Adjuster_applyValueAdjust block valueList).timestamp = block.timestamp ∧
      (Adjuster_applyValueAdjust block valueList).nbBars = block.nbBars ∧
      (Adjuster_applyValueAdjust block valueList).period = block.period ∧
      (Adjuster_applyValueAdjust block valueList).fieldProvided = block.fieldProvided) ∧
    (∀ (k : Nat) (T : TA_Timestamp), block.timestamp[k]? = some T →
      (∀ x, block.open[k]? = some x →
        (Adjuster_applyValueAdjust block valueList).open[k]?
          = some (x - valueAmountAfter T valueList)) ∧
      (∀ x, block.high[k]? = some x →
        (Adjuster_applyValueAdjust block valueList).high[k]?
          = some (x - valueAmountAfter T valueList)) ∧
      (∀ x, block.low[k]? = some x →
        (Adjuster_applyValueAdjust block valueList).low[k]?
          = some (x - valueAmountAfter T valueList)) ∧
      (∀ x, block.close[k]? = some x →
        (Adjuster_applyValueAdjust block valueList).close[k]?
          = some (x - valueAmountAfter T valueList))) ∧
    (∀ (k : Nat) (T : TA_Timestamp), block.timestamp[k]? = some T →
      ∃ M : ℚ, M = splitFactorAfter T splitList ∧
        (∀ x, block.open[k]? = some x →
          (Adjuster_applySplitAdjust block splitList).open[k]? = some (x * M)) ∧
        (∀ x, block.high[k]? = some x →
          (Adjuster_applySplitAdjust block splitList).high[k]? = some (x * M)) ∧
        (∀ x, block.low[k]? = some x →
          (Adjuster_applySplitAdjust block splitList).low[k]? = some (x * M)) ∧
        (∀ x, block.close[k]? = some x →
          (Adjuster_applySplitAdjust block splitList).close[k]? = some (x * M)) ∧
        (∀ v : Int, block.volume[k]? = some v →
          (Adjuster_applySplitAdjust block splitList).volume[k]?
            = some (Adjuster_toInteger ((v : ℚ) * M)))) := by
  refine ⟨⟨rfl, rfl, rfl, rfl, rfl, rfl⟩, ?_, ?_⟩
  · intro k T hT
    exact ⟨fun x hx => Adjuster_shiftReal_getElem valueList _ _ k T x hT hx,
      fun x hx => Adjuster_shiftReal_getElem valueList _ _ k T x hT hx,
      fun x hx => Adjuster_shiftReal_getElem valueList _ _ k T x hT hx,
      fun x hx => Adjuster_shiftReal_getElem valueList _ _ k T x hT hx⟩
  · intro k T hT
    exact ⟨_, rfl,
      fun x hx => Adjuster_scaleReal_getElem splitList _ _ k T x hT hx,
      fun x hx => Adjuster_scaleReal_getElem splitList _ _ k T x hT hx,
      fun x hx => Adjuster_scaleReal_getElem splitList _ _ k T x hT hx,
      fun x hx => Adjuster_scaleReal_getElem splitList _ _ k T x hT hx,
      fun v hv => Adjuster_scaleInteger_getElem splitList _ _ k T v hT hv⟩

/-- C14: applying split adjustment or value adjustment with an empty adjustment
list leaves every value of every bar of the block unchanged: the block is the
same. -/
theorem Adjuster_apply_empty (block : TA_DataBlock) :
    Adjuster_applySplitAdjust block [] = block ∧
      Adjuster_applyValueAdjust block [] = block := by
  constructor
  · simp only [Adjuster_applySplitAdjust, Adjuster_scaleReal_nil, Adjuster_scaleInteger_nil]
  · simp only [Adjuster_applyValueAdjust, Adjuster_shiftReal_nil]

/-! ## Which data source supplies a bar of the merge -/

theorem Merger_blockBars_append (s b : Nat) : ∀ (l : List TA_Timestamp) (i : Nat)
    (t : TA_Timestamp),
    Merger_blockBars s b i (l ++ [t])
      = Merger_blockBars s b i l ++ [⟨s, b, i + l.length, t⟩]
  | [], i, t => by simp [Merger_blockBars]
  | t0 :: l, i, t => by
    have e : i + 1 + l.length = i + (l.length + 1) := by omega
    have ih := Merger_blockBars_append s b l (i + 1) t
    rw [e] at ih
    show Merger_blockBars s b i (t0 :: (l ++ [t])) = _
    simp only [Merger_blockBars, ih, List.length_cons, List.cons_append]

theorem Assembler_bars_single (sources : List TA_SupportForDataSource) (r : Merger_Bar)
    (hr : r.Valid sources) :
    Assembler_bars sources [⟨(r.source, r.block), r.index, 1⟩] = [r] := by
  obtain ⟨b, hb, ht⟩ := hr
  simp only [Assembler_bars, hb, List.append_nil]
  rw [List.take_succ, List.take_zero, List.getElem?_drop, Nat.add_zero, ht]
  rfl

theorem Assembler_bars_succ (sources : List TA_SupportForDataSource) (op : TA_MergeOp)
    (r : Merger_Bar) (hr : r.Valid sources)
    (h : op.srcDataBlock = (r.source, r.block) ∧
      op.srcIndexForCopy + op.nbElementToCopy = r.index) :
    Assembler_bars sources [⟨op.srcDataBlock, op.srcIndexForCopy, op.nbElementToCopy + 1⟩]
      = Assembler_bars sources [op] ++ [r] := by
  obtain ⟨b, hb, ht⟩ := hr
  have hlen : r.index < b.timestamp.length := by
    rcases Nat.lt_or_ge r.index b.timestamp.length with h1 | h1
    · exact h1
    · rw [List.getElem?_eq_none h1] at ht
      exact absurd ht (by simp)
  simp only [Assembler_bars, h.1, hb, List.append_nil]
  rw [List.take_succ, List.getElem?_drop, h.2, ht]
  simp only [Option.toList_some]
  rw [Merger_blockBars_append]
  congr 2
  simp only [List.length_take, List.length_drop]
  have := h.2
  congr 1
  omega

theorem Assembler_bars_cons (sources : List TA_SupportForDataSource) (op : TA_MergeOp)
    (ops : List TA_MergeOp) :
    Assembler_bars sources (op :: ops)
      = Assembler_bars sources [op] ++ Assembler_bars sources ops := by
  simp [Assembler_bars]

theorem Assembler_bars_record (sources : List TA_SupportForDataSource) :
    ∀ (ops : List TA_MergeOp) (r : Merger_Bar), r.Valid sources →
      Assembler_bars sources (Merger_record ops r) = Assembler_bars sources ops ++ [r]
  | [], r, hr => by
    simp only [Merger_record, Assembler_bars_single sources r hr]
    rfl
  | [op], r, hr => by
    simp only [Merger_record]
    split_ifs with h
    · exact Assembler_bars_succ sources op r hr h
    · rw [Assembler_bars_cons, Assembler_bars_single sources r hr]
  | op :: op' :: ops, r, hr => by
    simp only [Merger_record]
    rw [Assembler_bars_cons, Assembler_bars_record sources (op' :: ops) r hr,
      Assembler_bars_cons sources op (op' :: ops), List.append_assoc]

/-- The plan the loop of the merge builds copies, after the bars of the plan it
started from, the bars the loop selected. -/
theorem Merger_loop_bars (sources : List TA_SupportForDataSource) :
    ∀ (fuel : Nat) (st st' : Merger_State),
      (∀ c ∈ st.cursors, ∀ r ∈ c, r.Valid sources) →
      Merger_loop fuel st = some st' →
      Assembler_bars sources st'.listOfMergeOp
        = Assembler_bars sources st.listOfMergeOp ++ Merger_emitted fuel st.cursors := by
  intro fuel
  induction fuel with
  | zero =>
    intro st st' _ h
    unfold Merger_loop at h
    unfold Merger_emitted
    cases hsel : Merger_select st.cursors with
    | none =>
      rw [hsel] at h
      simp only [Option.some.injEq] at h
      subst h
      simp
    | some r =>
      rw [hsel] at h
      simp at h
  | succ n ih =>
    intro st st' hvalid h
    unfold Merger_loop at h
    unfold Merger_emitted
    cases hsel : Merger_select st.cursors with
    | none =>
      rw [hsel] at h
      simp only [Option.some.injEq] at h
      subst h
      simp
    | some r =>
      rw [hsel] at h
      simp only at h
      obtain ⟨⟨c0, hc0, hhead⟩, -⟩ := Merger_select_spec _ _ hsel
      have hr_mem : r ∈ c0 := List.mem_of_mem_head? hhead
      have hvalid' : ∀ c ∈ st.cursors.map (Merger_advance r.timestamp), ∀ x ∈ c,
          x.Valid sources := by
        intro c hc x hx
        obtain ⟨c1, hc1, rfl⟩ := List.mem_map.mp hc
        exact hvalid c1 hc1 x (Merger_advance_subset _ _ x hx)
      have := ih _ st' hvalid' h
      simp only at this
      rw [this, Assembler_bars_record sources _ r (hvalid c0 hc0 r hr_mem)]
      simp

/-- The selected bar is the bar the first cursor with the smallest timestamp points
to: every cursor before it points to a strictly later bar. -/
theorem Merger_select_first : ∀ (cs : List (List Merger_Bar)) (r : Merger_Bar),
    Merger_select cs = some r →
      ∃ (i : Nat) (c : List Merger_Bar), cs[i]? = some c ∧ c.head? = some r ∧
        ∀ (j : Nat) (c' : List Merger_Bar), j < i → cs[j]? = some c' →
          ∀ r', c'.head? = some r' → r.timestamp < r'.timestamp
  | [], r, h => by simp [Merger_select] at h
  | c :: cs, r, h => by
    cases hc : c.head? with
    | none =>
      simp only [Merger_select, hc] at h
      obtain ⟨i, c0, h1, h2, h3⟩ := Merger_select_first cs r h
      refine ⟨i + 1, c0, by simpa using h1, h2, ?_⟩
      intro j c' hj hc' r' hr'
      cases j with
      | zero =>
        simp only [List.getElem?_cons_zero, Option.some.injEq] at hc'
        subst hc'
        rw [hc] at hr'
        exact absurd hr' (by simp)
      | succ j =>
        simp only [List.getElem?_cons_succ] at hc'
        exact h3 j c' (by omega) hc' r' hr'
    | some r0 =>
      cases hs : Merger_select cs with
      | none =>
        simp only [Merger_select, hc, hs, Option.some.injEq] at h
        subst h
        exact ⟨0, c, by simp, hc, fun j c' hj => absurd hj (by omega)⟩
      | some r1 =>
        simp only [Merger_select, hc, hs] at h
        split_ifs at h with hle
        · cases h
          exact ⟨0, c, by simp, hc, fun j c' hj => absurd hj (by omega)⟩
        · cases h
          obtain ⟨i, c0, h1, h2, h3⟩ := Merger_select_first cs r hs
          refine ⟨i + 1, c0, by simpa using h1, h2, ?_⟩
          intro j c' hj hc' r' hr'
          cases j with
          | zero =>
            simp only [List.getElem?_cons_zero, Option.some.injEq] at hc'
            subst hc'
            rw [hc] at hr'
            cases hr'
            exact not_le.mp hle
          | succ j =>
            simp only [List.getElem?_cons_succ] at hc'
            exact h3 j c' (by omega) hc' r' hr'

theorem Merger_advance_mem_of_ne (t : TA_Timestamp) (c : List Merger_Bar) (r : Merger_Bar)
    (hr : r ∈ c) (hne : r.timestamp ≠ t) : r ∈ Merger_advance t c := by
  cases c with
  | nil => simp at hr
  | cons r0 rest =>
    simp only [Merger_advance]
    split_ifs with h
    · rcases List.mem_cons.mp hr with e | e
      · subst e; exact absurd h hne
      · exact e
    · exact hr

theorem Merger_advance_not_mem (t : TA_Timestamp) (c : List Merger_Bar) (r : Merger_Bar)
    (hr : r ∈ c) (hn : r ∉ Merger_advance t c) : r.timestamp = t := by
  by_contra hne
  exact hn (Merger_advance_mem_of_ne t c r hr hne)

/-- Every bar of the cursors has its timestamp among the bars the loop selects,
when the loop is given one pass per bar. -/
theorem Merger_emitted_complete : ∀ (fuel : Nat) (cs : List (List Merger_Bar)),
    Merger_remaining cs ≤ fuel → ∀ c ∈ cs, ∀ r ∈ c,
      r.timestamp ∈ (Merger_emitted fuel cs).map Merger_Bar.timestamp := by
  intro fuel
  induction fuel with
  | zero =>
    intro cs hfuel c hc r hr
    have h1 : c.length ≤ Merger_remaining cs :=
      List.single_le_sum (by simp) _ (List.mem_map_of_mem _ hc)
    have : c = [] := List.length_eq_zero.mp (by omega)
    subst this
    simp at hr
  | succ n ih =>
    intro cs hfuel c hc r hr
    unfold Merger_emitted
    cases hsel : Merger_select cs with
    | none =>
      have := Merger_select_eq_none cs hsel c hc
      subst this
      simp at hr
    | some r0 =>
      simp only [List.map_cons, List.mem_cons]
      by_cases he : r.timestamp = r0.timestamp
      · exact Or.inl he
      · right
        obtain ⟨⟨c0, hc0, hhead⟩, -⟩ := Merger_select_spec _ _ hsel
        have hlt := Merger_remaining_advance_lt r0.timestamp cs ⟨c0, hc0, r0, hhead, rfl⟩
        exact ih (cs.map (Merger_advance r0.timestamp)) (by omega)
          (Merger_advance r0.timestamp c) (List.mem_map_of_mem _ hc) r
          (Merger_advance_mem_of_ne _ _ _ hr he)

/-- A bar the loop selects is a bar of the cursor of its own data source, and no
cursor of a data source attached earlier holds a bar with the same timestamp. -/
theorem Merger_emitted_earliest : ∀ (fuel : Nat) (cs : List (List Merger_Bar)),
    (∀ (j : Nat) (c : List Merger_Bar), cs[j]? = some c → ∀ r ∈ c, r.source = j) →
    (∀ c ∈ cs, (c.map Merger_Bar.timestamp).Pairwise (· < ·)) →
    ∀ e ∈ Merger_emitted fuel cs,
      (∃ c, cs[e.source]? = some c ∧ e ∈ c) ∧
      ∀ (j : Nat) (c : List Merger_Bar), j < e.source → cs[j]? = some c →
        ∀ r ∈ c, r.timestamp ≠ e.timestamp := by
  intro fuel
  induction fuel with
  | zero =>
    intro cs _ _ e he
    unfold Merger_emitted at he
    cases hsel : Merger_select cs with
    | none => rw [hsel] at he; simp at he
    | some r0 => rw [hsel] at he; simp at he
  | succ n ih =>
    intro cs hsrc hsorted e he
    unfold Merger_emitted at he
    cases hsel : Merger_select cs with
    | none => rw [hsel] at he; simp at he
    | some r0 =>
      rw [hsel] at he
      simp only [List.mem_cons] at he
      obtain ⟨i, c0, hi, hhead, hfirst⟩ := Merger_select_first _ _ hsel
      obtain ⟨-, hmin⟩ := Merger_select_spec _ _ hsel
      have hr0 : r0 ∈ c0 := List.mem_of_mem_head? hhead
      have hr0src : r0.source = i := hsrc i c0 hi r0 hr0
      rcases he with he | he
      · subst he
        refine ⟨⟨c0, by rw [hr0src]; exact hi, hr0⟩, ?_⟩
        intro j c hj hc r hr
        rw [hr0src] at hj
        cases c with
        | nil => simp at hr
        | cons r' rest =>
          have h1 := hfirst j (r' :: rest) hj hc r' rfl
          have h2 := hsorted (r' :: rest) (List.getElem?_mem hc)
          simp only [List.map_cons, List.pairwise_cons, List.mem_map, forall_exists_index,
            and_imp, forall_apply_eq_imp_iff₂] at h2
          rcases List.mem_cons.mp hr with e1 | e1
          · subst e1
            exact ne_of_gt h1
          · exact ne_of_gt (lt_trans h1 (h2.1 r e1))
      · have hsrc' : ∀ (j : Nat) (c : List Merger_Bar),
            (cs.map (Merger_advance r0.timestamp))[j]? = some c → ∀ r ∈ c, r.source = j := by
          intro j c hc r hr
          rw [List.getElem?_map] at hc
          cases hcj : cs[j]? with
          | none => rw [hcj] at hc; simp at hc
          | some c1 =>
            rw [hcj] at hc
            simp only [Option.map_some', Option.some.injEq] at hc
            subst hc
            exact hsrc j c1 hcj r (Merger_advance_subset _ _ r hr)
        have hsorted' : ∀ c ∈ cs.map (Merger_advance r0.timestamp),
            (c.map Merger_Bar.timestamp).Pairwise (· < ·) := by
          intro c hc
          obtain ⟨c1, hc1, rfl⟩ := List.mem_map.mp hc
          exact Merger_advance_sorted _ _ (hsorted c1 hc1)
        obtain ⟨⟨c, hc, hec⟩, hearly⟩ := ih _ hsrc' hsorted' e he
        rw [List.getElem?_map] at hc
        cases hce : cs[e.source]? with
        | none => rw [hce] at hc; simp at hc
        | some c1 =>
          rw [hce] at hc
          simp only [Option.map_some', Option.some.injEq] at hc
          subst hc
          have hgt : r0.timestamp < e.timestamp :=
            Merger_advance_gt r0.timestamp c1 (hsorted c1 (List.getElem?_mem hce))
              (hmin c1 (List.getElem?_mem hce)) e hec
          refine ⟨⟨c1, rfl, Merger_advance_subset _ _ e hec⟩, ?_⟩
          intro j c2 hj hc2 r hr
          by_cases hmem : r ∈ Merger_advance r0.timestamp c2
          · exact hearly j (Merger_advance r0.timestamp c2) hj
              (by rw [List.getElem?_map, hc2]; rfl) r hmem
          · rw [Merger_advance_not_mem _ _ _ hr hmem]
            exact ne_of_lt hgt

/-- The cursor of the data source at place `j` runs through the bars of that data
source. -/
theorem Merger_cursors_getElem : ∀ (srcs : List TA_SupportForDataSource) (s0 j : Nat),
    (Merger_cursors s0 srcs)[j]?
      = (srcs[j]?).map (fun src => Merger_sourceBars (s0 + j) 0 src.listOfDataBlock)
  | [], s0, j => by simp [Merger_cursors]
  | src :: srcs, s0, 0 => by simp [Merger_cursors]
  | src :: srcs, s0, j + 1 => by
    simp only [Merger_cursors, List.getElem?_cons_succ, Merger_cursors_getElem srcs (s0 + 1) j]
    have : s0 + 1 + j = s0 + (j + 1) := by omega
    rw [this]

theorem Assembler_bars_timestamps (sources : List TA_SupportForDataSource) :
    ∀ ops : List TA_MergeOp,
      (Assembler_bars sources ops).map Merger_Bar.timestamp = Assembler_timestamps sources ops
  | [] => rfl
  | op :: ops => by
    simp only [Assembler_bars, Assembler_timestamps, List.map_append,
      Assembler_bars_timestamps sources ops, Assembler_run]
    congr 1
    cases Assembler_block sources op.srcDataBlock with
    | none => rfl
    | some b => simp only [Merger_blockBars_timestamps]

/-- In a list with strictly increasing keys, the entries with the key of a member
are that member alone. -/
theorem filter_eq_singleton_of_pairwise (f : Merger_Bar → TA_Timestamp) :
    ∀ (l : List Merger_Bar) (x : Merger_Bar), (l.map f).Pairwise (· < ·) → x ∈ l →
      l.filter (fun y => f y = f x) = [x]
  | [], x, _, h => by simp at h
  | a :: l, x, hp, h => by
    simp only [List.map_cons, List.pairwise_cons, List.mem_map, forall_exists_index,
      and_imp, forall_apply_eq_imp_iff₂] at hp
    rcases List.mem_cons.mp h with e | e
    · subst e
      have : l.filter (fun y => f y = f x) = [] := by
        rw [List.filter_eq_nil_iff]
        intro y hy
        have := hp.1 y hy
        simp only [decide_eq_true_eq]
        exact ne_of_gt this
      simp [List.filter_cons, this]
    · have hax : f a < f x := hp.1 x e
      have ih := filter_eq_singleton_of_pairwise f l x hp.2 e
      simp [List.filter_cons, ne_of_lt hax, ih]

theorem Assembler_take_drop_values {α : Type} (xs : List α) (ts : List TA_Timestamp)
    (hlen : xs.length = ts.length) (s b : Nat) :
    ∀ (n i : Nat), ((xs.drop i).take n).map some
      = (Merger_blockBars s b i ((ts.drop i).take n)).map (fun r => xs[r.index]?) := by
  intro n
  induction n with
  | zero => intro i; simp [Merger_blockBars]
  | succ n ih =>
    intro i
    by_cases hi : i < xs.length
    · have hi' : i < ts.length := by omega
      rw [List.drop_eq_getElem_cons hi, List.drop_eq_getElem_cons hi']
      simp only [List.take_succ_cons, List.map_cons, Merger_blockBars, ih (i + 1)]
      congr 1
      exact (List.getElem?_eq_getElem hi).symm
    · have hi' : ¬ i < ts.length := by omega
      rw [List.drop_eq_nil_of_le (not_lt.mp hi), List.drop_eq_nil_of_le (not_lt.mp hi')]
      simp [Merger_blockBars]

theorem Assembler_block_mem (sources : List TA_SupportForDataSource) (ref : Nat × Nat)
    (b : TA_DataBlock) (h : Assembler_block sources ref = some b) :
    ∃ s ∈ sources, b ∈ s.listOfDataBlock := by
  unfold Assembler_block at h
  cases hs : sources[ref.1]? with
  | none => rw [hs] at h; simp at h
  | some s =>
    rw [hs] at h
    exact ⟨s, List.getElem?_mem hs, List.getElem?_mem h⟩

/-- Each bar of the result carries, in every column as long as the timestamps of
its block, the value of the bar of the data source it was copied from. -/
theorem Assembler_column_values {α : Type} (col : TA_DataBlock → List α)
    (sources : List TA_SupportForDataSource)
    (hwf : ∀ s ∈ sources, ∀ b ∈ s.listOfDataBlock, (col b).length = b.timestamp.length) :
    ∀ ops : List TA_MergeOp,
      (Assembler_column col sources ops).map some
        = (Assembler_bars sources ops).map (Assembler_value col sources)
  | [] => rfl
  | op :: ops => by
    simp only [Assembler_column, Assembler_bars, List.map_append,
      Assembler_column_values col sources hwf ops]
    congr 1
    cases hb : Assembler_block sources op.srcDataBlock with
    | none => rfl
    | some b =>
      obtain ⟨s, hs, hbs⟩ := Assembler_block_mem sources _ b hb
      simp only
      rw [Assembler_take_drop_values (col b) b.timestamp (hwf s hs b hbs)
        op.srcDataBlock.1 op.srcDataBlock.2]
      apply List.map_congr_left
      intro r hr
      obtain ⟨h1, h2, -⟩ := Merger_blockBars_mem _ _ _ _ r hr
      simp only [Assembler_value, h1, h2, hb]

/-- C11: when several contributing data sources have a bar at the same timestamp,
the merged series contains exactly one bar for that timestamp and it is the bar
of the source attached earliest.  For data sources that each supply their bars
in strictly increasing time order the merge succeeds; the bars its plan copies
are the bars of the result, timestamps and, in every column as long as the
timestamps of its block, values; and for every timestamp `t` that a data source
supplies, with `i` the attach order of the first such source, the result holds
exactly one bar with timestamp `t`, a bar of source `i`. -/
theorem Merger_merge_earliest_source (bs : TA_BuilderSupport)
    (hsorted : ∀ s ∈ bs.listOfSupportForDataSource, (sourceTimestamps s).Pairwise (· < ·)) :
    ∃ bs' : TA_BuilderSupport, Merger_merge bs = some bs' ∧
      bs'.listOfSupportForDataSource = bs.listOfSupportForDataSource ∧
      (Assembler_bars bs'.listOfSupportForDataSource bs'.listOfMergeOp).map
          Merger_Bar.timestamp
        = Assembler_timestamps bs'.listOfSupportForDataSource bs'.listOfMergeOp ∧
      (∀ (α : Type) (col : TA_DataBlock → List α),
        (∀ s ∈ bs.listOfSupportForDataSource, ∀ b ∈ s.listOfDataBlock,
          (col b).length = b.timestamp.length) →
        (Assembler_column col bs'.listOfSupportForDataSource bs'.listOfMergeOp).map some
          = (Assembler_bars bs'.listOfSupportForDataSource bs'.listOfMergeOp).map
              (Assembler_value col bs'.listOfSupportForDataSource)) ∧
      ∀ (i : Nat) (src : TA_SupportForDataSource) (t : TA_Timestamp),
        bs.listOfSupportForDataSource[i]? = some src → t ∈ sourceTimestamps src →
        (∀ (j : Nat) (src' : TA_SupportForDataSource), j < i →
          bs.listOfSupportForDataSource[j]? = some src' → t ∉ sourceTimestamps src') →
        ∃ r : Merger_Bar,
          (Assembler_bars bs'.listOfSupportForDataSource bs'.listOfMergeOp).filter
              (fun x => x.timestamp = t) = [r] ∧
          r.source = i ∧
          ∃ blk, src.listOfDataBlock[r.block]? = some blk ∧
            blk.timestamp[r.index]? = some t := by
  obtain ⟨st', emitted, hloop, -, -, -, hts, -, hsortedE⟩ :=
    Merger_loop_spec bs.listOfSupportForDataSource
      (Merger_remaining (Merger_cursors 0 bs.listOfSupportForDataSource))
      ⟨Merger_cursors 0 bs.listOfSupportForDataSource, [], 0⟩ (le_refl _)
      (Merger_cursors_valid bs.listOfSupportForDataSource)
  have hbars := Merger_loop_bars bs.listOfSupportForDataSource _ _ st'
    (Merger_cursors_valid bs.listOfSupportForDataSource) hloop
  simp only [Assembler_bars, List.nil_append] at hbars
  have hcsorted : ∀ c ∈ Merger_cursors 0 bs.listOfSupportForDataSource,
      (c.map Merger_Bar.timestamp).Pairwise (· < ·) := by
    intro c hc
    obtain ⟨src, hsrc, he⟩ := Merger_cursors_timestamps _ 0 c hc
    rw [he]
    exact hsorted src hsrc
  have hcsrc : ∀ (j : Nat) (c : List Merger_Bar),
      (Merger_cursors 0 bs.listOfSupportForDataSource)[j]? = some c →
        ∀ r ∈ c, r.source = j := by
    intro j c hc r hr
    rw [Merger_cursors_getElem] at hc
    cases hj : bs.listOfSupportForDataSource[j]? with
    | none => rw [hj] at hc; simp at hc
    | some src =>
      rw [hj] at hc
      simp only [Option.map_some', Option.some.injEq] at hc
      subst hc
      have := (Merger_sourceBars_mem _ _ 0 r hr).1
      omega
  have hpair : ((Assembler_bars bs.listOfSupportForDataSource st'.listOfMergeOp).map
      Merger_Bar.timestamp).Pairwise (· < ·) := by
    rw [Assembler_bars_timestamps, hts]
    simp only [Assembler_timestamps, List.nil_append]
    exact hsortedE hcsorted
  refine ⟨{ bs with listOfMergeOp := st'.listOfMergeOp, nbPriceBar := st'.nbPriceBar }, ?_,
    rfl, Assembler_bars_timestamps _ _, ?_, ?_⟩
  · unfold Merger_merge
    unfold Merger_remaining at hloop
    simp only [hloop]
  · intro α col hwf
    exact Assembler_column_values col _ hwf _
  · intro i src t hi ht hearly
    have hci : (Merger_cursors 0 bs.listOfSupportForDataSource)[i]?
        = some (Merger_sourceBars i 0 src.listOfDataBlock) := by
      rw [Merger_cursors_getElem, hi]
      simp
    have hci_ts : (Merger_sourceBars i 0 src.listOfDataBlock).map Merger_Bar.timestamp
        = sourceTimestamps src := Merger_sourceBars_timestamps i _ 0
    have ht' : t ∈ (Merger_sourceBars i 0 src.listOfDataBlock).map Merger_Bar.timestamp := by
      rw [hci_ts]; exact ht
    obtain ⟨r0, hr0, hr0t⟩ := List.mem_map.mp ht'
    have hcomp := Merger_emitted_complete _ _ (le_refl _) _ (List.getElem?_mem hci) r0 hr0
    rw [← hbars] at hcomp
    obtain ⟨r, hr, hrt⟩ := List.mem_map.mp hcomp
    rw [hr0t] at hrt
    have hfilter := filter_eq_singleton_of_pairwise Merger_Bar.timestamp _ r hpair hr
    rw [hrt] at hfilter
    have hrE : r ∈ Merger_emitted
        (Merger_remaining (Merger_cursors 0 bs.listOfSupportForDataSource))
        (Merger_cursors 0 bs.listOfSupportForDataSource) := by
      rw [← hbars]; exact hr
    obtain ⟨⟨c, hc, hrc⟩, hnone⟩ := Merger_emitted_earliest _ _ hcsrc hcsorted r hrE
    have hsrc_eq : r.source = i := by
      rcases Nat.lt_trichotomy r.source i with h | h | h
      · exfalso
        rw [Merger_cursors_getElem] at hc
        cases hj : bs.listOfSupportForDataSource[r.source]? with
        | none => rw [hj] at hc; simp at hc
        | some src' =>
          rw [hj] at hc
          simp only [Option.map_some', Option.some.injEq] at hc
          subst hc
          apply hearly r.source src' h hj
          have hts' : (Merger_sourceBars (0 + r.source) 0 src'.listOfDataBlock).map
              Merger_Bar.timestamp = sourceTimestamps src' :=
            Merger_sourceBars_timestamps _ _ 0
          rw [← hts', ← hrt]
          exact List.mem_map_of_mem _ hrc
      · exact h
      · exfalso
        exact hnone i _ h hci r0 hr0 (by rw [hr0t, hrt])
    refine ⟨r, hfilter, hsrc_eq, ?_⟩
    rw [hsrc_eq, hci] at hc
    simp only [Option.some.injEq] at hc
    subst hc
    obtain ⟨-, j, blk, h2, h3, h4⟩ := Merger_sourceBars_mem _ _ 0 r hrc
    refine ⟨blk, ?_, ?_⟩
    · have : r.block = j := by omega
      rw [this]; exact h3
    · rw [← hrt]; exact h4

/-- Witness of C11: Scenario A, day 3, which both data sources supply; the result
holds one bar for it, a bar of the first source. -/
theorem Merger_merge_earliest_source_witness :
    ∃ bs' : TA_BuilderSupport, Merger_merge scenarioA = some bs' ∧
      ∃ r : Merger_Bar,
        (Assembler_bars bs'.listOfSupportForDataSource bs'.listOfMergeOp).filter
            (fun x => x.timestamp = 3) = [r] ∧
        r.source = 0 ∧
        ∃ blk, (sampleSource
            [{ sampleBlock [1, 2, 3, 4, 5] with close := [101, 102, 103, 104, 105] }]
          ).listOfDataBlock[r.block]? = some blk ∧
          blk.timestamp[r.index]? = some 3 :=
  match Merger_merge_earliest_source scenarioA (by decide) with
  | ⟨bs', h1, _, _, _, h5⟩ =>
    ⟨bs', h1, h5 0 _ 3 rfl (by decide) (fun j _ hj => absurd hj (Nat.not_lt_zero j))⟩

/-- Scenario A, evaluated: the union over both data sources yields the days 1 to 7;
the days 3 to 5 carry the closes of the first data source, 103 to 105, and only
the days 6 and 7 those of the second. -/
theorem Merger_merge_scenarioA :
    (Merger_merge scenarioA).map
        (fun b => (Assembler_timestamps b.listOfSupportForDataSource b.listOfMergeOp,
          (Assembler_bars b.listOfSupportForDataSource b.listOfMergeOp).map Merger_Bar.source,
          b.nbPriceBar))
      = some ([1, 2, 3, 4, 5, 6, 7], [0, 0, 0, 0, 0, 1, 1], 7) ∧
    (Merger_merge scenarioA).map
        (fun b => Assembler_column TA_DataBlock.close b.listOfSupportForDataSource
          b.listOfMergeOp)
      = some [101, 102, 103, 104, 105, 206, 207] := by
  constructor
  · decide
  · rfl

/-! ## Properties of the period normaliser -/

theorem PeriodNormalizer_rowsFrom_timestamps (block : TA_DataBlock) :
    ∀ (ts : List TA_Timestamp) (k : Nat),
      (PeriodNormalizer_rowsFrom block k ts).map PeriodNormalizer_Bar.timestamp = ts
  | [], _ => rfl
  | t :: ts, k => by
    simp only [PeriodNormalizer_rowsFrom, List.map_cons,
      PeriodNormalizer_rowsFrom_timestamps block ts (k + 1)]

/-- The closing instant of the window grows with the timestamp. -/
theorem PeriodNormalizer_windowClose_mono (P : TA_Period) (t t' : TA_Timestamp)
    (h : t ≤ t') :
    PeriodNormalizer_windowClose P t ≤ PeriodNormalizer_windowClose P t' := by
  unfold PeriodNormalizer_windowClose
  apply Nat.mul_le_mul_right
  apply Nat.div_le_div_right
  exact Nat.sub_le_sub_right (Nat.add_le_add_right h P) 1


theorem PeriodNormalizer_Aggregates_start (P : TA_Period) (b : PeriodNormalizer_Bar) :
    PeriodNormalizer_Aggregates (PeriodNormalizer_start P b) [b] := by
  simp [PeriodNormalizer_Aggregates, PeriodNormalizer_start, IsMaximumOf, IsMinimumOf]

theorem PeriodNormalizer_Aggregates_extend (w b : PeriodNormalizer_Bar)
    (pre : List PeriodNormalizer_Bar) (h : PeriodNormalizer_Aggregates w pre) :
    PeriodNormalizer_Aggregates (PeriodNormalizer_extend w b) (pre ++ [b]) := by
  obtain ⟨⟨hm, hmax⟩, ⟨hn, hmin⟩, hv⟩ := h
  refine ⟨⟨?_, ?_⟩, ⟨?_, ?_⟩, ?_⟩
  · show max w.high b.high ∈ _
    rw [List.map_append, List.mem_append]
    rcases max_choice w.high b.high with e | e
    · rw [e]; exact Or.inl hm
    · rw [e]; exact Or.inr (by simp)
  · intro x hx
    show x ≤ max w.high b.high
    rw [List.map_append, List.mem_append] at hx
    rcases hx with hx | hx
    · exact le_trans (hmax x hx) (le_max_left _ _)
    · simp at hx; rw [hx]; exact le_max_right _ _
  · show min w.low b.low ∈ _
    rw [List.map_append, List.mem_append]
    rcases min_choice w.low b.low with e | e
    · rw [e]; exact Or.inl hn
    · rw [e]; exact Or.inr (by simp)
  · intro x hx
    show min w.low b.low ≤ x
    rw [List.map_append, List.mem_append] at hx
    rcases hx with hx | hx
    · exact le_trans (min_le_left _ _) (hmin x hx)
    · simp at hx; rw [hx]; exact min_le_right _ _
  · show w.volume + b.volume = _
    rw [List.map_append, List.sum_append, hv]; simp

/-- Every bar that the resampling emits is stamped with the closing instant of the
window under construction or of the window of a bar still to come. -/
theorem PeriodNormalizer_resample_timestamp (P : TA_Period) :
    ∀ (bs : List PeriodNormalizer_Bar) (w : PeriodNormalizer_Bar) (last : TA_Timestamp)
      (o : PeriodNormalizer_Bar),
      o ∈ PeriodNormalizer_resample P (some (w, last)) bs →
      o.timestamp = w.timestamp ∨
        ∃ b ∈ bs, o.timestamp = PeriodNormalizer_windowClose P b.timestamp
  | [], w, last, o, h => by
    simp only [PeriodNormalizer_resample] at h
    split at h
    · simp at h; exact Or.inl (by rw [h])
    · simp at h
  | b :: bs, w, last, o, h => by
    simp only [PeriodNormalizer_resample] at h
    split at h
    · rcases PeriodNormalizer_resample_timestamp P bs _ _ o h with e | ⟨c, hc, e⟩
      · exact Or.inl e
      · exact Or.inr ⟨c, List.mem_cons_of_mem _ hc, e⟩
    · rcases List.mem_cons.mp h with e | h
      · exact Or.inl (by rw [e])
      · rcases PeriodNormalizer_resample_timestamp P bs _ _ o h with e | ⟨c, hc, e⟩
        · exact Or.inr ⟨b, List.mem_cons_self _ _, e⟩
        · exact Or.inr ⟨c, List.mem_cons_of_mem _ hc, e⟩

/-- The invariant of the resampling: with a window under construction that
aggregates the bars `pre`, all of that window, and the bars to come sorted by
window from that window on, every bar emitted aggregates exactly the bars of its
window. -/
theorem PeriodNormalizer_resample_aggregates (P : TA_Period) :
    ∀ (bs : List PeriodNormalizer_Bar) (w : PeriodNormalizer_Bar) (last : TA_Timestamp)
      (pre : List PeriodNormalizer_Bar),
      PeriodNormalizer_Aggregates w pre →
      (∀ c ∈ pre, PeriodNormalizer_windowClose P c.timestamp = w.timestamp) →
      (∀ b ∈ bs, w.timestamp ≤ PeriodNormalizer_windowClose P b.timestamp) →
      (bs.map (fun b => PeriodNormalizer_windowClose P b.timestamp)).Pairwise (· ≤ ·) →
      ∀ o ∈ PeriodNormalizer_resample P (some (w, last)) bs,
        PeriodNormalizer_Aggregates o (PeriodNormalizer_constituents P o.timestamp (pre ++ bs))
  | [], w, last, pre, hagg, hpre, _, _, o, ho => by
    simp only [PeriodNormalizer_resample] at ho
    split at ho
    · simp at ho
      subst ho
      have e : PeriodNormalizer_constituents P o.timestamp (pre ++ []) = pre := by
        rw [List.append_nil]
        unfold PeriodNormalizer_constituents
        rw [List.filter_eq_self]
        intro c hc
        simp [hpre c hc]
      rw [e]; exact hagg
    · simp at ho
  | b :: bs, w, last, pre, hagg, hpre, hge, hsorted, o, ho => by
    rw [List.map_cons, List.pairwise_cons] at hsorted
    obtain ⟨hb, hsorted'⟩ := hsorted
    have hb' : ∀ c ∈ bs, PeriodNormalizer_windowClose P b.timestamp ≤
        PeriodNormalizer_windowClose P c.timestamp := fun c hc =>
      hb _ (List.mem_map.mpr ⟨c, hc, rfl⟩)
    simp only [PeriodNormalizer_resample] at ho
    split at ho
    · rename_i hkey
      have := PeriodNormalizer_resample_aggregates P bs (PeriodNormalizer_extend w b)
        b.timestamp (pre ++ [b]) (PeriodNormalizer_Aggregates_extend w b pre hagg)
        (by
          intro c hc
          rcases List.mem_append.mp hc with hc | hc
          · exact hpre c hc
          · simp at hc; rw [hc]; exact hkey)
        (fun c hc => hge c (List.mem_cons_of_mem _ hc)) hsorted' o ho
      rwa [List.append_assoc, List.singleton_append] at this
    · rename_i hkey
      have hlt : w.timestamp < PeriodNormalizer_windowClose P b.timestamp :=
        lt_of_le_of_ne (hge b (List.mem_cons_self _ _)) (Ne.symm hkey)
      rcases List.mem_cons.mp ho with e | ho
      · subst e
        have e : PeriodNormalizer_constituents P o.timestamp (pre ++ b :: bs) = pre := by
          unfold PeriodNormalizer_constituents
          rw [List.filter_append]
          have e1 : pre.filter (fun b => decide (PeriodNormalizer_windowClose P b.timestamp
              = o.timestamp)) = pre := by
            rw [List.filter_eq_self]
            intro c hc
            simp [hpre c hc]
          have e2 : (b :: bs).filter (fun b => decide (PeriodNormalizer_windowClose P
              b.timestamp = o.timestamp)) = [] := by
            rw [List.filter_eq_nil_iff]
            intro c hc
            have hc' : PeriodNormalizer_windowClose P b.timestamp ≤
                PeriodNormalizer_windowClose P c.timestamp := by
              rcases List.mem_cons.mp hc with e | hc
              · rw [e]
              · exact hb' c hc
            simp only [decide_eq_true_eq]
            exact fun h => absurd (h ▸ hc') (not_le.mpr hlt)
          rw [e1, e2, List.append_nil]
        rw [e]; exact hagg
      · have := PeriodNormalizer_resample_aggregates P bs (PeriodNormalizer_start P b)
          b.timestamp [b] (PeriodNormalizer_Aggregates_start P b)
          (by intro c hc; simp at hc; rw [hc]; rfl)
          hb' hsorted' o ho
        have hne : w.timestamp < o.timestamp := by
          rcases PeriodNormalizer_resample_timestamp P bs _ _ o ho with e | ⟨c, hc, e⟩
          · rw [e]; exact hlt
          · rw [e]; exact lt_of_lt_of_le hlt (hb' c hc)
        have e : PeriodNormalizer_constituents P o.timestamp (pre ++ b :: bs) =
            PeriodNormalizer_constituents P o.timestamp ([b] ++ bs) := by
          unfold PeriodNormalizer_constituents
          rw [List.filter_append]
          have e1 : pre.filter (fun b => decide (PeriodNormalizer_windowClose P b.timestamp
              = o.timestamp)) = [] := by
            rw [List.filter_eq_nil_iff]
            intro c hc
            simp only [decide_eq_true_eq]
            rw [hpre c hc]
            exact ne_of_lt hne
          rw [e1]; rfl
        rw [e]; exact this

/-- The resampling of bars sorted by time: every bar emitted aggregates exactly the
bars of its window. -/
theorem PeriodNormalizer_resample_spec (P : TA_Period) (bars : List PeriodNormalizer_Bar)
    (hsorted : (bars.map PeriodNormalizer_Bar.timestamp).Pairwise (· < ·)) :
    ∀ o ∈ PeriodNormalizer_resample P none bars,
      PeriodNormalizer_Aggregates o (PeriodNormalizer_constituents P o.timestamp bars) := by
  have hkeys : (bars.map (fun b => PeriodNormalizer_windowClose P b.timestamp)).Pairwise
      (· ≤ ·) := by
    rw [List.pairwise_map] at hsorted ⊢
    exact hsorted.imp (fun h => PeriodNormalizer_windowClose_mono P _ _ (le_of_lt h))
  cases bars with
  | nil => intro o ho; simp [PeriodNormalizer_resample] at ho
  | cons b bs =>
    intro o ho
    simp only [PeriodNormalizer_resample] at ho
    rw [List.map_cons, List.pairwise_cons] at hkeys
    exact PeriodNormalizer_resample_aggregates P bs (PeriodNormalizer_start P b) b.timestamp
      [b] (PeriodNormalizer_Aggregates_start P b)
      (by intro c hc; simp at hc; rw [hc]; rfl)
      (fun c hc => hkeys.1 _ (List.mem_map.mpr ⟨c, hc, rfl⟩)) hkeys.2 o ho

/-- The bars of a block, read by position: the bar at `j` holds the timestamp at
`j` and the cells at `j` of the columns. -/
theorem PeriodNormalizer_rowsFrom_getElem (block : TA_DataBlock) :
    ∀ (ts : List TA_Timestamp) (k j : Nat),
      (PeriodNormalizer_rowsFrom block k ts)[j]? =
        ts[j]?.map (fun t =>
          ⟨t, block.open.getD (k + j) 0, block.high.getD (k + j) 0,
            block.low.getD (k + j) 0, block.close.getD (k + j) 0,
            block.volume.getD (k + j) 0, block.openInterest.getD (k + j) 0⟩)
  | [], _, _ => by simp [PeriodNormalizer_rowsFrom]
  | t :: ts, k, 0 => by simp [PeriodNormalizer_rowsFrom]
  | t :: ts, k, j + 1 => by
    have e : k + 1 + j = k + (j + 1) := by omega
    simp only [PeriodNormalizer_rowsFrom, List.getElem?_cons_succ,
      PeriodNormalizer_rowsFrom_getElem block ts (k + 1) j, e]

/-- Claim C16: when a block whose timestamps increase is resampled to the period
`P`, the columns of the result are the columns of the bars the resampling emits,
and each of these bars has for high the greatest of the highs of its constituent
bars (the bars of the block that fall into its window), for low the least of their
lows, and for volume the sum of their integer volumes. -/
theorem PeriodNormalizer_resampleBlock_exact (P : TA_Period) (block : TA_DataBlock)
    (hsorted : block.timestamp.Pairwise (· < ·)) :
    ∃ out : List PeriodNormalizer_Bar,
      out = PeriodNormalizer_resample P none (PeriodNormalizer_rows block) ∧
      (PeriodNormalizer_resampleBlock P block).period = P ∧
      (PeriodNormalizer_resampleBlock P block).nbBars = out.length ∧
      (PeriodNormalizer_resampleBlock P block).timestamp =
        out.map PeriodNormalizer_Bar.timestamp ∧
      (PeriodNormalizer_resampleBlock P block).high = out.map PeriodNormalizer_Bar.high ∧
      (PeriodNormalizer_resampleBlock P block).low = out.map PeriodNormalizer_Bar.low ∧
      (PeriodNormalizer_resampleBlock P block).volume =
        out.map PeriodNormalizer_Bar.volume ∧
      ∀ o ∈ out,
        IsMaximumOf o.high
          ((PeriodNormalizer_constituents P o.timestamp (PeriodNormalizer_rows block)).map
            PeriodNormalizer_Bar.high) ∧
        IsMinimumOf o.low
          ((PeriodNormalizer_constituents P o.timestamp (PeriodNormalizer_rows block)).map
            PeriodNormalizer_Bar.low) ∧
        o.volume =
          ((PeriodNormalizer_constituents P o.timestamp (PeriodNormalizer_rows block)).map
            PeriodNormalizer_Bar.volume).sum := by
  refine ⟨_, rfl, rfl, rfl, rfl, rfl, rfl, rfl, ?_⟩
  intro o ho
  have hts : ((PeriodNormalizer_rows block).map PeriodNormalizer_Bar.timestamp).Pairwise
      (· < ·) := by
    unfold PeriodNormalizer_rows
    rw [PeriodNormalizer_rowsFrom_timestamps]
    exact hsorted
  exact PeriodNormalizer_resample_spec P (PeriodNormalizer_rows block) hts o ho

/-- The five daily bars of `sampleDays` resampled to two days: the windows close on
the days 2 and 4, and the window of day 5, which would close on day 6, is
dropped. -/
theorem PeriodNormalizer_resampleBlock_sample :
    PeriodNormalizer_resampleBlock 2 sampleDays =
      { «open» := [9, 29]
        high := [21, 41]
        low := [8, 28]
        close := [20, 40]
        volume := [300, 700]
        openInterest := [2, 4]
        timestamp := [2, 4]
        nbBars := 2
        period := 2
        fieldProvided := 0 } := by
  simp [PeriodNormalizer_resampleBlock, PeriodNormalizer_block, PeriodNormalizer_rows,
    PeriodNormalizer_rowsFrom, PeriodNormalizer_resample, PeriodNormalizer_start,
    PeriodNormalizer_extend, PeriodNormalizer_windowClose, sampleDays]
  norm_num

/-- The theorem at `sampleDays` resampled to two days. -/
theorem PeriodNormalizer_resampleBlock_exact_witness :
    ∃ out : List PeriodNormalizer_Bar,
      out = PeriodNormalizer_resample 2 none (PeriodNormalizer_rows sampleDays) ∧
      (PeriodNormalizer_resampleBlock 2 sampleDays).high =
        out.map PeriodNormalizer_Bar.high ∧
      ∀ o ∈ out,
        IsMaximumOf o.high
          ((PeriodNormalizer_constituents 2 o.timestamp
            (PeriodNormalizer_rows sampleDays)).map PeriodNormalizer_Bar.high) ∧
        IsMinimumOf o.low
          ((PeriodNormalizer_constituents 2 o.timestamp
            (PeriodNormalizer_rows sampleDays)).map PeriodNormalizer_Bar.low) ∧
        o.volume =
          ((PeriodNormalizer_constituents 2 o.timestamp
            (PeriodNormalizer_rows sampleDays)).map PeriodNormalizer_Bar.volume).sum :=
  match PeriodNormalizer_resampleBlock_exact 2 sampleDays (by decide) with
  | ⟨out, h1, _, _, _, h2, _, _, h3⟩ => ⟨out, h1, h2, h3⟩

/-! ## `TA_TSF`: 32-bit `int` arithmetic and the divisors -/

/-- A value of a 32-bit `int` is kept as it is. -/
theorem Int32_wrap_of_fits (x : Int) (h : Int32_fits x) : Int32_wrap x = x := by
  unfold Int32_fits at h
  unfold Int32_wrap
  rw [Int.emod_eq_of_lt (by omega) (by omega)]
  omega

/-- The largest of the intermediate results is the triple product: up to the
period 1024 it is a value of a 32-bit `int`. -/
theorem TSF_noOverflow_of_le (p : Int) (h2 : 2 ≤ p) (h : p ≤ 1024) : TSF_noOverflow p := by
  have h1 : 0 ≤ p * (p - 1) := Int.mul_nonneg (by omega) (by omega)
  have h3 : p * (p - 1) ≤ 1024 * 1023 :=
    Int.mul_le_mul h (by omega) (by omega) (by omega)
  have h4 : 0 ≤ p * (p - 1) * (2 * p - 1) := Int.mul_nonneg h1 (by omega)
  have h5 : p * (p - 1) * (2 * p - 1) ≤ 1024 * 1023 * 2047 :=
    Int.mul_le_mul h3 (by omega) (by omega) (by omega)
  unfold TSF_noOverflow Int32_fits
  refine ⟨⟨by omega, by omega⟩, ⟨by omega, by omega⟩, ⟨by omega, by omega⟩,
    ⟨by omega, by omega⟩, ⟨by omega, by omega⟩⟩

/-- From the period 1025 on the triple product of `SumXSqr` is no value of a
32-bit `int`. -/
theorem TSF_overflow_of_ge (p : Int) (h : 1025 ≤ p) : ¬ TSF_noOverflow p := by
  have h3 : 1025 * 1024 ≤ p * (p - 1) :=
    Int.mul_le_mul h (by omega) (by omega) (by omega)
  have h5 : 1025 * 1024 * 2049 ≤ p * (p - 1) * (2 * p - 1) :=
    Int.mul_le_mul h3 (by omega) (by omega) (Int.mul_nonneg (by omega) (by omega))
  unfold TSF_noOverflow Int32_fits
  intro hno
  omega

/-- Without overflow the 32-bit evaluation of `SumX` and `SumXSqr` gives the
values of the evaluation over the mathematical integers. -/
theorem TSF_int32_eq_of_noOverflow (p : Int) (h : TSF_noOverflow p) :
    TSF_SumX_int32 p = TSF_SumX p ∧ TSF_SumXSqr_int32 p = TSF_SumXSqr p := by
  obtain ⟨h1, h2, h3, h4, h5⟩ := h
  unfold TSF_SumX_int32 TSF_SumXSqr_int32 TSF_SumX TSF_SumXSqr Int32_mul Int32_sub
  rw [Int32_wrap_of_fits _ h1, Int32_wrap_of_fits _ h2, Int32_wrap_of_fits _ h3,
    Int32_wrap_of_fits _ h4, Int32_wrap_of_fits _ h5]
  exact ⟨rfl, rfl⟩

/-- Up to the period 1024 the 32-bit evaluation of `SumX` and `SumXSqr` gives the
sums `0 + 1 + ... + (p-1)` and `0^2 + 1^2 + ... + (p-1)^2`. -/
theorem TSF_int32_exact_of_le (n : Nat) (h2 : 2 ≤ n) (h : n ≤ 1024) :
    TSF_SumX_int32 (n : Int) = ∑ j ∈ Finset.range n, (j : ℚ) ∧
    TSF_SumXSqr_int32 (n : Int) = ∑ j ∈ Finset.range n, (j : ℚ) ^ 2 := by
  have hno := TSF_int32_eq_of_noOverflow (n : Int)
    (TSF_noOverflow_of_le (n : Int) (by omega) (by omega))
  rw [hno.1, hno.2]
  exact ⟨TSF_SumX_eq n, TSF_SumXSqr_eq n⟩

/-- The divisor of the slope over the mathematical integers, in closed form. -/
theorem TSF_Divisor_eq (n : Nat) :
    TSF_Divisor (n : Int) = -((n : ℚ) ^ 2 * ((n : ℚ) ^ 2 - 1)) / 12 := by
  unfold TSF_Divisor
  rw [TSF_SumX_eq, TSF_SumXSqr_eq, sum_range_cast, sum_range_cast_sq]
  push_cast
  ring

/-- The divisor of the slope is negative from the period 2 on. -/
theorem TSF_Divisor_neg (n : Nat) (hn : 2 ≤ n) : TSF_Divisor (n : Int) < 0 := by
  rw [TSF_Divisor_eq]
  have h2 : (2 : ℚ) ≤ n := by exact_mod_cast hn
  have h3 : (0 : ℚ) < (n : ℚ) ^ 2 := by positivity
  have h4 : (0 : ℚ) < (n : ℚ) ^ 2 - 1 := by nlinarith
  have h5 : (0 : ℚ) < (n : ℚ) ^ 2 * ((n : ℚ) ^ 2 - 1) := mul_pos h3 h4
  linarith

/-- The two running sums of the inner loop over the bars `inReal[t] = t`. -/
theorem TSF_sums_line (today : Int) (n : Nat) :
    TSF_sums (fun t => (t : ℚ)) today n (0, 0) =
      ((n : ℚ) * (today : ℚ) - (n : ℚ) * ((n : ℚ) - 1) / 2,
        (today : ℚ) * ((n : ℚ) * ((n : ℚ) - 1) / 2)
          - (n : ℚ) * ((n : ℚ) - 1) * (2 * (n : ℚ) - 1) / 6) := by
  have h1 : ∑ i ∈ Finset.range n, (((today - (i : Int) : Int)) : ℚ) =
      (n : ℚ) * (today : ℚ) - (n : ℚ) * ((n : ℚ) - 1) / 2 := by
    induction n with
    | zero => simp
    | succ k ih => rw [Finset.sum_range_succ, ih]; push_cast; ring
  have h2 : ∑ i ∈ Finset.range n, (i : ℚ) * (((today - (i : Int) : Int)) : ℚ) =
      (today : ℚ) * ((n : ℚ) * ((n : ℚ) - 1) / 2)
        - (n : ℚ) * ((n : ℚ) - 1) * (2 * (n : ℚ) - 1) / 6 := by
    clear h1
    induction n with
    | zero => simp
    | succ k ih => rw [Finset.sum_range_succ, ih]; push_cast; ring
  rw [TSF_sums_eq, h1, h2, zero_add, zero_add]

/-- Claim C21, the period 1025, which `TA_TSF` accepts (its lookback is 1024, not
the -1 of a period out of range): the `int` product
`1025 * 1024 * 2049 = 2150630400` is no value of a 32-bit `int`; the 32-bit
evaluation of `SumXSqr` gives -357389482 where the sum of the squares
`0^2 + ... + 1024^2` is 358438400.  At the period 46342 the product
`46342 * 46341` of `SumX` overflows as well: the 32-bit evaluation gives
-1073716337 where the sum `0 + ... + 46341` is 1073767311.  The wrong `SumXSqr`
reaches the output: on the bars `inReal[t] = t` at the period 1025 the pass for
bar 1024 stores 45753259264/104347847, about 438.47, where the forecast of the
least-squares line, the value over the mathematical integers, is 1025. -/
theorem TSF_int32_overflow :
    TA_TSF_Lookback 1025 = 1024 ∧
    ¬ Int32_fits (1025 * (1025 - 1) * (2 * 1025 - 1)) ∧
    ¬ TSF_noOverflow 1025 ∧
    TSF_SumXSqr_int32 1025 = -357389482 ∧
    (∑ j ∈ Finset.range 1025, (j : ℚ) ^ 2) = 358438400 ∧
    TSF_SumXSqr_int32 1025 ≠ ∑ j ∈ Finset.range 1025, (j : ℚ) ^ 2 ∧
    TA_TSF_Lookback 46342 = 46341 ∧
    ¬ Int32_fits (46342 * (46342 - 1)) ∧
    TSF_SumX_int32 46342 = -1073716337 ∧
    (∑ j ∈ Finset.range 46342, (j : ℚ)) = 1073767311 ∧
    TSF_SumX_int32 46342 ≠ ∑ j ∈ Finset.range 46342, (j : ℚ) ∧
    TSF_forecast_int32 (fun t => (t : ℚ)) 1025 1024 = 45753259264 / 104347847 ∧
    TSF_forecast (fun t => (t : ℚ)) 1025 1024 = 1025 := by
  have e1 : TSF_SumXSqr_int32 1025 = -357389482 := by
    have : Int.tdiv (Int32_mul (Int32_mul 1025 (Int32_sub 1025 1))
        (Int32_sub (Int32_mul 2 1025) 1)) 6 = -357389482 := by decide
    unfold TSF_SumXSqr_int32
    rw [this]
    norm_num
  have e2 : (∑ j ∈ Finset.range 1025, (j : ℚ) ^ 2) = 358438400 := by
    rw [sum_range_cast_sq]; norm_num
  have e3 : TSF_SumX_int32 46342 = -1073716337 := by
    have : Int32_mul 46342 (Int32_sub 46342 1) = -2147432674 := by decide
    unfold TSF_SumX_int32
    rw [this]
    norm_num
  have e4 : (∑ j ∈ Finset.range 46342, (j : ℚ)) = 1073767311 := by
    rw [sum_range_cast]; norm_num
  have e5 : TSF_SumX_int32 1025 = 524800 := by
    have : Int32_mul 1025 (Int32_sub 1025 1) = 1049600 := by decide
    unfold TSF_SumX_int32
    rw [this]
    norm_num
  have e6 : (1025 : Int).toNat = 1025 := by decide
  have e7 : TSF_SumX 1025 = 524800 := by unfold TSF_SumX; norm_num
  have e8 : TSF_Divisor 1025 = -91984320000 := by
    have := TSF_Divisor_eq 1025
    rw [show ((1025 : Nat) : Int) = 1025 from rfl] at this
    rw [this]; norm_num
  refine ⟨by decide, by decide, by decide, e1, e2, ?_, by decide, by decide, e3, e4, ?_,
    ?_, ?_⟩
  · rw [e1, e2]; norm_num
  · rw [e3, e4]; norm_num
  · unfold TSF_forecast_int32
    simp only [e1, e5, e6, TSF_sums_line]
    norm_num
  · unfold TSF_forecast
    simp only [e7, e8, e6, TSF_sums_line]
    norm_num

/-- Claim C22: over the mathematical integers, for every period `p ≥ 2` the divisor
`Divisor = SumX * SumX - p * SumXSqr` of the slope is `-p^2 * (p^2 - 1) / 12`, which
is negative, and the divisor `p` of the intercept is not zero; so neither division
of a pass of the loop divides by zero: with both divisions checked the pass yields
the value it stores. -/
theorem TA_TSF_no_division_by_zero (p : Int) (hp : 2 ≤ p) :
    TSF_Divisor p = TSF_SumX p * TSF_SumX p - (p : ℚ) * TSF_SumXSqr p ∧
    TSF_Divisor p = -((p : ℚ) ^ 2 * ((p : ℚ) ^ 2 - 1)) / 12 ∧
    TSF_Divisor p < 0 ∧
    (p : ℚ) ≠ 0 ∧
    ∀ (inReal : Int → ℚ) (today : Int),
      TSF_forecast_checked inReal p today = some (TSF_forecast inReal p today) := by
  obtain ⟨n, rfl⟩ := Int.eq_ofNat_of_zero_le (by omega : 0 ≤ p)
  have hn : 2 ≤ n := by omega
  have hneg := TSF_Divisor_neg n hn
  have hp0 : ((n : Int) : ℚ) ≠ 0 := by
    have : (2 : ℚ) ≤ ((n : Int) : ℚ) := by exact_mod_cast hn
    linarith
  refine ⟨rfl, ?_, hneg, hp0, ?_⟩
  · rw [TSF_Divisor_eq]; push_cast; rfl
  · intro inReal today
    unfold TSF_forecast_checked TSF_forecast TSF_divide
    simp only [if_neg (ne_of_lt hneg), if_neg hp0, Option.bind_some, Option.some_bind]

/-- The theorem at the default period 14: the divisor is -3185. -/
theorem TA_TSF_no_division_by_zero_witness :
    TSF_Divisor 14 = -3185 ∧ TSF_Divisor 14 < 0 ∧
    TSF_forecast_checked (fun t => (t : ℚ)) 14 13 =
      some (TSF_forecast (fun t => (t : ℚ)) 14 13) :=
  match TA_TSF_no_division_by_zero 14 (by decide) with
  | ⟨_, h1, h2, _, h3⟩ => ⟨h1.trans (by norm_num), h2, h3 _ _⟩

end TALib
